import Mathlib

/-!
# FarmBot X-axis controller: motion and calibration core

A shallow embedding of the two firmware variants of the repository:

* `Single`: `Farm-Bot/lib/Motors_X` (one limit switch, homing only);
* `Dual`: `Ph_Sensor/FarmBot_XAxis` (two limits, calibration and EEPROM storage).

Conventions of the embedding.

* A C `long` is a mathematical integer (`Int`): signed overflow is undefined in
  the source language, so the embedding describes the runs in which no `long`
  overflows.  Division is `Int.tdiv` (truncation toward zero), as in C.  The
  exception is `getPositionPercentage`, whose product by 100 leaves the range of
  a `long` for positions the axis can hold: its arithmetic is reduced modulo
  2^32 (`wrapLong`), which is what the 32-bit `long` of the target yields.
* The hardware is an explicit environment `Env`: the n-th sample of the limit
  switch pin and the stop requests that arrive before the n-th test of the
  volatile stop flag.  The state counts the samples taken so far.
* Every write to the pulse pin and to the enable pin is logged in the state
  (newest first), so that theorems can speak about the pulses that were issued.
* Serial output is not modelled, except that procedures with several exits
  return a tag that names the exit taken.
-/

/-! ## Config.h -/

/-- Clockwise rotation (`#define CW false`). -/
def CW : Bool := false
/-- Counter-clockwise rotation (`#define CCW true`). -/
def CCW : Bool := true
/-- Direction of the homing search (`#define HOME_DIRECTION CW`). -/
def HOME_DIRECTION : Bool := CW
/-- Fastest speed: smallest delay between steps, in microseconds. -/
def MIN_STEP_DELAY : Int := 200
/-- Slowest speed: largest delay between steps, in microseconds. -/
def MAX_STEP_DELAY : Int := 1000
/-- Microseconds subtracted from the delay per acceleration step. -/
def ACCEL_RATE : Int := 5
/-- Microseconds added to the delay per deceleration step. -/
def DECEL_RATE : Int := 10
/-- Steps to back away from the limit switch when it triggers. -/
def BACKOFF_STEPS : Nat := 1600
/-- Default maximum travel. -/
def MAX_TRAVEL : Int := 10000000
/-- Maximum steps to attempt during homing before timeout. -/
def HOMING_TIMEOUT : Int := 100000000

/-! ## Hardware boundary -/

/-- The environment of one run: `limit n` tells whether the n-th
`digitalRead(LIMIT_X_PIN)` returns `LOW` (switch triggered); `stop n` tells
whether `emergencyStop()` ran asynchronously since the previous test of
`emergencyStopTriggered` and before the n-th one. -/
structure Env where
  limit : Nat → Bool
  stop : Nat → Bool

/-- The environment in which the switch never triggers and nobody asks to stop. -/
def Env.quiet : Env := { limit := fun _ => false, stop := fun _ => false }

/-- One pulse on `PUL_PIN`: the delay it was issued with and the direction
used for the position update. -/
structure Pulse where
  delay : Int
  dir : Bool
deriving DecidableEq, Repr

/-- Position change of one pulse: `direction ? 1 : -1`. -/
def Pulse.delta (p : Pulse) : Int := if p.dir then 1 else -1

/-- Net signed number of steps of a list of pulses. -/
def signedSteps : List Pulse → Int
  | [] => 0
  | p :: ps => p.delta + signedSteps ps

/-- The pulses issued between two readings of the pulse log (both newest
first): the entries of `after` that are not in `before`. -/
def issuedSince (before after : List Pulse) : List Pulse :=
  after.take (after.length - before.length)

/-- Every pulse of the list was issued with a delay inside the configured band. -/
def DelaysInBand (ps : List Pulse) : Prop :=
  ∀ p ∈ ps, MIN_STEP_DELAY ≤ p.delay ∧ p.delay ≤ MAX_STEP_DELAY

/-- The Arduino `abs` on a `long`: `((x)>0?(x):-(x))`. -/
def labs (x : Int) : Int := if x > 0 then x else -x

/-- The delay update at the end of an acceleration step (MotorControl.cpp,
lines 107-110). -/
def accelDelay (stepDelay : Int) : Int :=
  if stepDelay > MIN_STEP_DELAY then
    if stepDelay - ACCEL_RATE < MIN_STEP_DELAY then MIN_STEP_DELAY
    else stepDelay - ACCEL_RATE
  else stepDelay

/-- The delay update at the end of a deceleration step (MotorControl.cpp,
lines 145-148). -/
def decelDelay (stepDelay : Int) : Int :=
  if stepDelay < MAX_STEP_DELAY then
    if stepDelay + DECEL_RATE > MAX_STEP_DELAY then MAX_STEP_DELAY
    else stepDelay + DECEL_RATE
  else stepDelay

/-- The three phase lengths `(accelerationSteps, constantSteps,
decelerationSteps)` computed at the head of `moveSteps` (MotorControl.cpp,
lines 73-89). -/
def phaseSteps (totalSteps : Int) : Int × Int × Int :=
  let accelerationSteps := totalSteps.tdiv 4
  let decelerationSteps := totalSteps.tdiv 4
  let constantSteps := totalSteps - accelerationSteps - decelerationSteps
  let accelerationSteps := if accelerationSteps < 10 then 10 else accelerationSteps
  let decelerationSteps := if decelerationSteps < 10 then 10 else decelerationSteps
  if accelerationSteps + decelerationSteps > totalSteps then
    (totalSteps.tdiv 2, 0, totalSteps - totalSteps.tdiv 2)
  else
    (accelerationSteps, constantSteps, decelerationSteps)

/-- Delay after `n` steps of a phase that starts at `stepDelay` and updates
the delay with `upd` after each pulse. -/
def rampEnd (upd : Int → Int) : Nat → Int → Int
  | 0, stepDelay => stepDelay
  | n + 1, stepDelay => rampEnd upd n (upd stepDelay)

/-- The `n` pulses of an uninterrupted phase (newest first) that starts at
`stepDelay` and updates the delay with `upd` after each pulse. -/
def rampPulses (upd : Int → Int) (direction : Bool) : Nat → Int → List Pulse
  | 0, _ => []
  | n + 1, stepDelay =>
    rampPulses upd direction n (upd stepDelay) ++ [{ delay := stepDelay, dir := direction }]

/-- Number of pulses of an uninterrupted `moveSteps`: the sum of its three
phase lengths. -/
def scheduledPulses (count : Int) : Nat :=
  (phaseSteps count).1.toNat + (phaseSteps count).2.1.toNat + (phaseSteps count).2.2.toNat

/-- The pulses of an uninterrupted `moveSteps` (newest first): deceleration,
cruise, acceleration. -/
def movePulses (count : Int) (direction : Bool) : List Pulse :=
  let a := (phaseSteps count).1.toNat
  let c := (phaseSteps count).2.1.toNat
  let d := (phaseSteps count).2.2.toNat
  let cruise := rampEnd accelDelay a MAX_STEP_DELAY
  rampPulses decelDelay direction d (rampEnd id c cruise) ++
    (rampPulses id direction c cruise ++ rampPulses accelDelay direction a MAX_STEP_DELAY)

/-- Conversion of a `long` value to an `int`, which is 16 bits wide on the
target: the value is reduced modulo 2^16 into the range -32768..32767. -/
def longToInt (x : Int) : Int := (x + 32768) % 65536 - 32768

/-- Reduction of an integer to the 32-bit two's-complement `long` of the
target: the value modulo 2^32 in the range -2147483648..2147483647. -/
def wrapLong (x : Int) : Int := (x + 2147483648) % 4294967296 - 2147483648

/-- The C division `a / b` of two `long` values: truncation toward zero, and
no result at all when the divisor is zero. -/
def longDiv (a b : Int) : Option Int := if b = 0 then none else some (a.tdiv b)

/-- The motor is de-energized: the level last written to `ENA_PIN` (the head
of the log of writes) is "disabled". -/
def MotorOff (enaLog : List Bool) : Prop := enaLog.head? = some false

/-- Closed form of the specification for the delays of an acceleration phase
of `a` pulses, oldest first: the i-th pulse (from 0) uses
`max(MIN_STEP_DELAY, MAX_STEP_DELAY - ACCEL_RATE * i)`. -/
def accelSchedule (a : Nat) : List Int :=
  (List.range a).map fun (i : Nat) => max MIN_STEP_DELAY (MAX_STEP_DELAY - ACCEL_RATE * (i : Int))

/-- Closed form of the specification for the cruise delay after an
acceleration phase of `a` pulses. -/
def cruiseDelay (a : Nat) : Int := max MIN_STEP_DELAY (MAX_STEP_DELAY - ACCEL_RATE * (a : Int))

/-- Closed form of the specification for the delays of a deceleration phase of
`d` pulses that follows an acceleration phase of `a` pulses, oldest first: the
j-th pulse (from 0) uses `min(MAX_STEP_DELAY, c + DECEL_RATE * j)`, `c` being
the cruise delay. -/
def decelSchedule (a d : Nat) : List Int :=
  (List.range d).map fun (j : Nat) => min MAX_STEP_DELAY (cruiseDelay a + DECEL_RATE * (j : Int))

/-- Closed form of the specification for the delays of an uninterrupted
`moveSteps`, oldest pulse first: acceleration, cruise, deceleration, with the
phase lengths of `phaseSteps`. -/
def delaySchedule (count : Int) : List Int :=
  let a := (phaseSteps count).1.toNat
  let c := (phaseSteps count).2.1.toNat
  let d := (phaseSteps count).2.2.toNat
  accelSchedule a ++ (List.replicate c (cruiseDelay a) ++ decelSchedule a d)

/-! ## Single-limit variant (`Farm-Bot/lib/Motors_X`) -/

namespace Single

/-- The globals of the single-limit firmware together with the logs of the
hardware boundary. -/
structure State where
  /-- PositionManager.cpp: current absolute position in steps. -/
  currentPosition : Int
  /-- PositionManager.cpp: maximum position. -/
  maxPosition : Int
  /-- MotorControl.cpp: the volatile stop flag. -/
  emergencyStopTriggered : Bool
  /-- Level last written to `DIR_PIN` (`true` = HIGH = CCW). -/
  dirPin : Bool
  /-- Writes to `ENA_PIN`, newest first; `true` = motor enabled (pin LOW). -/
  enaLog : List Bool
  /-- Pulses issued on `PUL_PIN`, newest first. -/
  pulses : List Pulse
  /-- Number of samples of `LIMIT_X_PIN` taken so far. -/
  reads : Nat
  /-- Number of tests of `emergencyStopTriggered` made so far. -/
  polls : Nat
deriving DecidableEq, Repr

/-- State after `setup()`: position 0, `maxPosition = MAX_TRAVEL`, motor
disabled by `initializeMotor`. -/
def State.init : State :=
  { currentPosition := 0, maxPosition := MAX_TRAVEL, emergencyStopTriggered := false,
    dirPin := false, enaLog := [false], pulses := [], reads := 0, polls := 0 }

/-- `enableMotor`: `digitalWrite(ENA_PIN, LOW)`. -/
def enableMotor (s : State) : State := { s with enaLog := true :: s.enaLog }

/-- `disableMotor`: `digitalWrite(ENA_PIN, HIGH)`. -/
def disableMotor (s : State) : State := { s with enaLog := false :: s.enaLog }

/-- `setDirection`. -/
def setDirection (direction : Bool) (s : State) : State := { s with dirPin := direction }

/-- `updatePosition`: `currentPosition += steps`. -/
def updatePosition (steps : Int) (s : State) : State :=
  { s with currentPosition := s.currentPosition + steps }

/-- `stepMotor`: one pulse, then the position update. -/
def stepMotor (delayTime : Int) (direction : Bool) (s : State) : State :=
  updatePosition (if direction then 1 else -1)
    { s with pulses := { delay := delayTime, dir := direction } :: s.pulses }

/-- `emergencyStop`: sets the flag and disables the motor. -/
def emergencyStop (s : State) : State :=
  disableMotor { s with emergencyStopTriggered := true }

/-- One test of the volatile flag `emergencyStopTriggered`: an asynchronous
`emergencyStop()` may have run since the previous test. -/
def pollStop (env : Env) (s : State) : Bool × State :=
  let s1 := if env.stop s.polls then emergencyStop s else s
  (s1.emergencyStopTriggered, { s1 with polls := s1.polls + 1 })

/-- One sample of the limit switch: `digitalRead(LIMIT_X_PIN) == LOW`. -/
def readLimit (env : Env) (s : State) : Bool × State :=
  (env.limit s.reads, { s with reads := s.reads + 1 })

/-- The loop of `backOffFromLimit`: `n` calls of `stepMotor(MAX_STEP_DELAY, direction)`. -/
def backOffLoop (direction : Bool) : Nat → State → State
  | 0, s => s
  | n + 1, s => backOffLoop direction n (stepMotor MAX_STEP_DELAY direction s)

/-- `backOffFromLimit` (LimitSwitch.cpp). -/
def backOffFromLimit (direction : Bool) (s : State) : State :=
  backOffLoop direction BACKOFF_STEPS (setDirection direction s)

/-- `checkLimitSwitch` (LimitSwitch.cpp): on a trigger, zero the position (CW)
or record the maximum (CCW), then back off in the opposite direction. -/
def checkLimitSwitch (env : Env) (direction : Bool) (s : State) : Bool × State :=
  let (low, s) := readLimit env s
  if low then
    let s :=
      if !direction then { s with currentPosition := 0 }
      else { s with maxPosition := s.currentPosition }
    (true, backOffFromLimit (!direction) s)
  else (false, s)

/-- One of the three `for` loops of `moveSteps`: `n` iterations of
stop test, limit test, pulse, delay update `upd`.  Returns whether the loop ran
to its end, the delay after it, and the state. -/
def phaseLoop (env : Env) (upd : Int → Int) (direction : Bool) :
    Nat → Int → State → Bool × Int × State
  | 0, stepDelay, s => (true, stepDelay, s)
  | n + 1, stepDelay, s =>
    let (stopped, s) := pollStop env s
    if stopped then (false, stepDelay, s)
    else
      let (hit, s) := checkLimitSwitch env direction s
      if hit then (false, stepDelay, s)
      else phaseLoop env upd direction n (upd stepDelay) (stepMotor stepDelay direction s)

/-- `moveSteps` (MotorControl.cpp, lines 64-152). -/
def moveSteps (env : Env) (stepsToMove : Int) (direction : Bool) (s : State) : Bool × State :=
  let s := { s with emergencyStopTriggered := false }
  let s := setDirection direction s
  let (accelerationSteps, constantSteps, decelerationSteps) := phaseSteps stepsToMove
  let (ok, stepDelay, s) := phaseLoop env accelDelay direction accelerationSteps.toNat MAX_STEP_DELAY s
  if !ok then (false, s)
  else
    let (ok, stepDelay, s) := phaseLoop env id direction constantSteps.toNat stepDelay s
    if !ok then (false, s)
    else
      let (ok, _, s) := phaseLoop env decelDelay direction decelerationSteps.toNat stepDelay s
      (ok, s)

/-- `processRelativeMove`, lines 197-217: the target position and the step
count after the safety clamp, from the current position, the maximum position
and the requested step count. -/
def relativeTarget (currentPos maxPos steps : Int) : Int × Int :=
  let targetPosition := currentPos + steps
  if targetPosition < BACKOFF_STEPS then
    ((BACKOFF_STEPS : Int), (BACKOFF_STEPS : Int) - currentPos)
  else if targetPosition > maxPos - BACKOFF_STEPS then
    (maxPos - BACKOFF_STEPS, maxPos - BACKOFF_STEPS - currentPos)
  else (targetPosition, steps)

/-- `processRelativeMove` (MotorControl.cpp, lines 188-252). -/
def processRelativeMove (env : Env) (steps : Int) (s : State) : State :=
  if steps == 0 then s
  else
    let currentPos := s.currentPosition
    let (_, steps) := relativeTarget currentPos s.maxPosition steps
    if steps == 0 then s
    else
      let direction := decide (steps > 0)
      let s := enableMotor s
      let (_, s) := moveSteps env (labs steps) direction s
      disableMotor s

/-- Whether the last sample of the limit switch taken between states `s` and
`t` read "triggered". -/
def limitTripped (env : Env) (s t : State) : Bool :=
  decide (s.reads < t.reads) && env.limit (t.reads - 1)

/-- From `s` to `t` no sample of the switch read "triggered" and the position
moved by the signed count of the pulses issued. -/
def CleanRun (env : Env) (s t : State) : Prop :=
  ∃ new, t.pulses = new ++ s.pulses ∧ s.reads ≤ t.reads ∧
    (∀ i, s.reads ≤ i → i < t.reads → env.limit i = false) ∧
    t.currentPosition = s.currentPosition + signedSteps new

/-- From `s` to `t` the last sample of the switch read "triggered"; the
position moved by the signed count of the pulses issued when moving CCW, and
is `BACKOFF_STEPS` when moving CW. -/
def LimitRun (env : Env) (direction : Bool) (s t : State) : Prop :=
  ∃ new, t.pulses = new ++ s.pulses ∧ s.reads < t.reads ∧ env.limit (t.reads - 1) = true ∧
    (if direction = true then t.currentPosition = s.currentPosition + signedSteps new
     else t.currentPosition = BACKOFF_STEPS)

/-- Environment in which the switch reads "triggered" at every sample and
nobody asks to stop. -/
def envPressed : Env := { limit := fun _ => true, stop := fun _ => false }

/-- Environment in which a stop request arrives before every test of the flag
and the switch never triggers. -/
def envStopping : Env := { limit := fun _ => false, stop := fun _ => true }

/-- The state after `setup()` with the position counter at `position`. -/
def stateAt (position : Int) : State := { State.init with currentPosition := position }

/-- The state after `n` uninterrupted iterations of a stepping loop that tests
the stop flag and the switch before each pulse: the pulses `ps` were issued in
direction `direction`. -/
def State.advance (s : State) (n : Nat) (direction : Bool) (ps : List Pulse) : State :=
  { s with
    currentPosition := s.currentPosition + n * (if direction then 1 else -1)
    pulses := ps ++ s.pulses
    reads := s.reads + n
    polls := s.polls + n }

/-- `setCurrentPosition` (PositionManager.cpp). -/
def setCurrentPosition (position : Int) (s : State) : State :=
  { s with currentPosition := position }

/-- `setMaxPosition` (PositionManager.cpp). -/
def setMaxPosition (position : Int) (s : State) : State := { s with maxPosition := position }

/-! ### SystemOperation.cpp (single-limit homing) -/

/-- The ways out of a search loop of `runHoming`: the switch read LOW, the
stop flag was seen set, or the safety counter passed `HOMING_TIMEOUT`. -/
inductive SeekExit where
  | found
  | stopped
  | timeout
deriving DecidableEq, Repr

/-- A search loop of `runHoming` (SystemOperation.cpp, lines 41-66 and 90-115):
`while (digitalRead(LIMIT_X_PIN) == HIGH)` test the stop flag, issue one raw
pulse at the slowest delay, update the position, count the pulse in
`safety_counter` and give up when the counter is above `HOMING_TIMEOUT`.
`fuel` bounds the number of iterations. -/
def homingSeek (env : Env) (direction : Bool) : Nat → Int → State → SeekExit × State
  | 0, _, s => (SeekExit.timeout, s)
  | fuel + 1, safety_counter, s =>
    let (low, s) := readLimit env s
    if low then (SeekExit.found, s)
    else
      let (stopped, s) := pollStop env s
      if stopped then (SeekExit.stopped, s)
      else
        let s := { s with pulses := { delay := MAX_STEP_DELAY, dir := direction } :: s.pulses }
        let s := updatePosition (if direction == CCW then 1 else -1) s
        let safety_counter := safety_counter + 1
        if safety_counter > HOMING_TIMEOUT then (SeekExit.timeout, s)
        else homingSeek env direction fuel safety_counter s

/-- Iterations after which a search loop of `runHoming` has certainly
returned: the counter starts at 0, grows by one per iteration and the loop
gives up when it is above `HOMING_TIMEOUT`. -/
def homingFuel : Nat := HOMING_TIMEOUT.toNat + 1

/-- `runHoming`, lines 21-66: enable the motor, clear the stop flag and search
in the home direction.  Returns how the search ended and the state then. -/
def homingSearchHome (env : Env) (s : State) : SeekExit × State :=
  let s := enableMotor s
  let s := { s with emergencyStopTriggered := false }
  let direction := HOME_DIRECTION
  let s := setDirection direction s
  homingSeek env direction homingFuel 0 s

/-- `runHoming`, lines 68-74, from the state in which the home search found
the switch: the position becomes 0.  (`resetEncoderPosition` acts on the
encoder counter only, which is not part of the state.) -/
def homingZero (s : State) : State := setCurrentPosition 0 s

/-- `runHoming`, lines 68-77: zero the position, then back off from the home
switch. -/
def homingBackOffHome (s : State) : State := backOffFromLimit (!HOME_DIRECTION) (homingZero s)

/-- `runHoming`, lines 68-115, from the state in which the home search found
the switch: zero, back off, then search in the opposite direction with a fresh
safety counter. -/
def homingSearchFar (env : Env) (s : State) : SeekExit × State :=
  let s := homingBackOffHome s
  let direction := !HOME_DIRECTION
  let s := setDirection direction s
  homingSeek env direction homingFuel 0 s

/-- `runHoming`, lines 119-121, from the state in which the far search found
the switch: the position reached is recorded as `maxPosition`. -/
def homingRecordMax (s : State) : State := setMaxPosition s.currentPosition s

/-- `runHoming`, lines 119-146, from the state in which the far search found
the switch: record the maximum, back off, move to the centre `maxPos / 2` and
disable the motor.  Returns the result of the centring `moveSteps` (`true`
also when no move was needed). -/
def homingFinish (env : Env) (s : State) : Bool × State :=
  let maxPos := s.currentPosition
  let s := homingRecordMax s
  let s := backOffFromLimit (!(!HOME_DIRECTION)) s
  let centerPos := maxPos.tdiv 2
  let stepsToCenter := centerPos - s.currentPosition
  let centerDirection := decide (stepsToCenter > 0)
  let (ok, s) :=
    if stepsToCenter != 0 then
      moveSteps env (labs stepsToCenter) centerDirection (setDirection centerDirection s)
    else (true, s)
  (ok, disableMotor s)

/-- The exits of `runHoming`, named after what they print: "Homing aborted by
emergency stop" and "Moved too far without finding home/far limit" in each
search, and "HOMING COMPLETE" (with the result of the centring `moveSteps`). -/
inductive HomingExit where
  | homeStopped
  | homeTimeout
  | farStopped
  | farTimeout
  | complete (centerMove : Bool)
deriving DecidableEq, Repr

/-- `runHoming` (SystemOperation.cpp, lines 21-155). -/
def runHoming (env : Env) (s : State) : HomingExit × State :=
  match homingSearchHome env s with
  | (SeekExit.stopped, s) => (HomingExit.homeStopped, disableMotor s)
  | (SeekExit.timeout, s) => (HomingExit.homeTimeout, disableMotor s)
  | (SeekExit.found, s) =>
    match homingSearchFar env s with
    | (SeekExit.stopped, s) => (HomingExit.farStopped, disableMotor s)
    | (SeekExit.timeout, s) => (HomingExit.farTimeout, disableMotor s)
    | (SeekExit.found, s) =>
      let (ok, s) := homingFinish env s
      (HomingExit.complete ok, s)

/-- The home switch is pressed at the first sample and the far switch is met
after 1560 steps of the far search (position 3160); no other sample triggers
and nobody asks to stop. -/
def farSwitchAt3160 : Env := { limit := fun n => n == 0 || n == 1561, stop := fun _ => false }

/-- The home switch is met after two steps, and a stop request arrives during
the far search, before its third pulse. -/
def stopInFarSearch : Env := { limit := fun n => n == 2, stop := fun n => n == 4 }

/-- `getPositionPercentage` (PositionManager.cpp, lines 66-79).  The product
`currentPosition * 100` is a 32-bit `long` and the quotient is stored in an
`int` before the clamp.  The result is `none` if the division is by zero. -/
def getPositionPercentage (s : State) : Option Int :=
  if s.maxPosition ≤ 0 then some 0
  else
    match longDiv (wrapLong (s.currentPosition * 100)) s.maxPosition with
    | none => none
    | some quotient =>
      let percent := longToInt quotient
      let percent := if percent < 0 then 0 else percent
      let percent := if percent > 100 then 100 else percent
      some percent

/-- The state after a homing run on a short axis: `maxPosition` 3000, the axis
at the centre 1500. -/
def shortAxis : State := setMaxPosition 3000 (stateAt 1500)

end Single

/-! ## Dual-limit variant (`Ph_Sensor/FarmBot_XAxis`)

The sketch directory of this variant holds `LimitSwitch.cpp`,
`PositionManager.cpp`, `StorageManager.cpp` and `SystemOperations.cpp`, which
include `Config.h` and `MotorControl.h`.  The repository has one `Config.h`
and one `MotorControl.cpp` (under `Farm-Bot/lib/Motors_X`): the constants above
and the motor primitives of that `MotorControl.cpp` are transcribed here
against the position manager and the limit handler of this variant. -/

namespace Dual

/-- The globals of the dual-limit firmware, the EEPROM cells and the logs of
the hardware boundary. -/
structure State where
  /-- PositionManager.cpp: current absolute position in steps. -/
  currentPosition : Int
  /-- PositionManager.cpp: minimum position (CW limit). -/
  minPosition : Int
  /-- PositionManager.cpp: maximum position (CCW limit). -/
  maxPosition : Int
  /-- PositionManager.cpp: whether axis limits have been calibrated. -/
  limitsInitialized : Bool
  /-- PositionManager.cpp: whether calibration is running. -/
  calibrationMode : Bool
  /-- MotorControl.cpp: the volatile stop flag. -/
  emergencyStopTriggered : Bool
  /-- Level last written to `DIR_PIN` (`true` = HIGH = CCW). -/
  dirPin : Bool
  /-- Writes to `ENA_PIN`, newest first; `true` = motor enabled (pin LOW). -/
  enaLog : List Bool
  /-- Pulses issued on `PUL_PIN`, newest first. -/
  pulses : List Pulse
  /-- Number of samples of `LIMIT_X_PIN` taken so far. -/
  reads : Nat
  /-- Number of tests of `emergencyStopTriggered` made so far. -/
  polls : Nat
  /-- EEPROM cells: the byte stored at each address. -/
  eeprom : Nat → Nat

/-- State after power-up with EEPROM content `rom`: position 0, limits unset,
not calibrating, motor disabled. -/
def State.init (rom : Nat → Nat) : State :=
  { currentPosition := 0, minPosition := 0, maxPosition := 0, limitsInitialized := false,
    calibrationMode := false, emergencyStopTriggered := false, dirPin := false,
    enaLog := [false], pulses := [], reads := 0, polls := 0, eeprom := rom }

/-- `enableMotor` (MotorControl.cpp): `digitalWrite(ENA_PIN, LOW)`. -/
def enableMotor (s : State) : State := { s with enaLog := true :: s.enaLog }

/-- `disableMotor` (MotorControl.cpp): `digitalWrite(ENA_PIN, HIGH)`. -/
def disableMotor (s : State) : State := { s with enaLog := false :: s.enaLog }

/-- `setDirection` (MotorControl.cpp). -/
def setDirection (direction : Bool) (s : State) : State := { s with dirPin := direction }

/-- `updatePosition`: `currentPosition += steps`. -/
def updatePosition (steps : Int) (s : State) : State :=
  { s with currentPosition := s.currentPosition + steps }

/-- `setCurrentPosition`. -/
def setCurrentPosition (position : Int) (s : State) : State :=
  { s with currentPosition := position }

/-- `setMinPosition`. -/
def setMinPosition (position : Int) (s : State) : State := { s with minPosition := position }

/-- `setMaxPosition`. -/
def setMaxPosition (position : Int) (s : State) : State := { s with maxPosition := position }

/-- `setLimitsInitialized`. -/
def setLimitsInitialized (initialized : Bool) (s : State) : State :=
  { s with limitsInitialized := initialized }

/-- `setCalibrationMode`. -/
def setCalibrationMode (mode : Bool) (s : State) : State := { s with calibrationMode := mode }

/-- `stepMotor` (MotorControl.cpp, lines 161-172): one pulse, then the
position update of this variant's PositionManager.cpp. -/
def stepMotor (delayTime : Int) (direction : Bool) (s : State) : State :=
  updatePosition (if direction then 1 else -1)
    { s with pulses := { delay := delayTime, dir := direction } :: s.pulses }

/-- `emergencyStop` (MotorControl.cpp, lines 177-181): sets the flag and
disables the motor. -/
def emergencyStop (s : State) : State :=
  disableMotor { s with emergencyStopTriggered := true }

/-- One test of the volatile flag `emergencyStopTriggered`: an asynchronous
`emergencyStop()` may have run since the previous test. -/
def pollStop (env : Env) (s : State) : Bool × State :=
  let s1 := if env.stop s.polls then emergencyStop s else s
  (s1.emergencyStopTriggered, { s1 with polls := s1.polls + 1 })

/-- One sample of the limit switch: `digitalRead(LIMIT_X_PIN) == LOW`. -/
def readLimit (env : Env) (s : State) : Bool × State :=
  (env.limit s.reads, { s with reads := s.reads + 1 })

/-- The loop of `backOffFromLimit`: `n` calls of `stepMotor(MAX_STEP_DELAY, direction)`. -/
def backOffLoop (direction : Bool) : Nat → State → State
  | 0, s => s
  | n + 1, s => backOffLoop direction n (stepMotor MAX_STEP_DELAY direction s)

/-- `backOffFromLimit` (LimitSwitch.cpp, lines 67-80). -/
def backOffFromLimit (direction : Bool) (s : State) : State :=
  backOffLoop direction BACKOFF_STEPS (setDirection direction s)

/-- `checkLimitSwitch` (LimitSwitch.cpp, lines 27-60): in calibration mode a
trigger records the position as a limit; otherwise it snaps the position to
the recorded limit and backs off. -/
def checkLimitSwitch (env : Env) (direction : Bool) (s : State) : Bool × State :=
  let (low, s) := readLimit env s
  if low then
    if s.calibrationMode then
      if !direction then (true, setMinPosition s.currentPosition s)
      else (true, setMaxPosition s.currentPosition s)
    else
      let s :=
        if !direction then setCurrentPosition s.minPosition s
        else setCurrentPosition s.maxPosition s
      (true, backOffFromLimit (!direction) s)
  else (false, s)

/-- One of the three `for` loops of `moveSteps`, as in `Single.phaseLoop`. -/
def phaseLoop (env : Env) (upd : Int → Int) (direction : Bool) :
    Nat → Int → State → Bool × Int × State
  | 0, stepDelay, s => (true, stepDelay, s)
  | n + 1, stepDelay, s =>
    let (stopped, s) := pollStop env s
    if stopped then (false, stepDelay, s)
    else
      let (hit, s) := checkLimitSwitch env direction s
      if hit then (false, stepDelay, s)
      else phaseLoop env upd direction n (upd stepDelay) (stepMotor stepDelay direction s)

/-- `moveSteps` (MotorControl.cpp, lines 64-152), calling this variant's
`checkLimitSwitch`. -/
def moveSteps (env : Env) (stepsToMove : Int) (direction : Bool) (s : State) : Bool × State :=
  let s := { s with emergencyStopTriggered := false }
  let s := setDirection direction s
  let (accelerationSteps, constantSteps, decelerationSteps) := phaseSteps stepsToMove
  let (ok, stepDelay, s) := phaseLoop env accelDelay direction accelerationSteps.toNat MAX_STEP_DELAY s
  if !ok then (false, s)
  else
    let (ok, stepDelay, s) := phaseLoop env id direction constantSteps.toNat stepDelay s
    if !ok then (false, s)
    else
      let (ok, _, s) := phaseLoop env decelDelay direction decelerationSteps.toNat stepDelay s
      (ok, s)

/-! ### StorageManager.cpp -/

/-- EEPROM address of the initialization flag. -/
def EEPROM_INITIALIZED_ADDR : Nat := 0
/-- EEPROM address of the minimum position (4 bytes). -/
def EEPROM_MIN_POS_ADDR : Nat := 4
/-- EEPROM address of the maximum position (4 bytes). -/
def EEPROM_MAX_POS_ADDR : Nat := 8
/-- Value that marks the EEPROM as initialized. -/
def EEPROM_MAGIC_NUMBER : Int := 42
/-- Size of an `int` on the target (AVR): the type of the marker. -/
def INT_BYTES : Nat := 2
/-- Size of a `long` on the target: the type of the positions. -/
def LONG_BYTES : Nat := 4

/-- `EEPROM.put(addr, value)` for an integer of `width` bytes: the
two's-complement bytes of `value`, least significant first. -/
def eepromPut (addr width : Nat) (value : Int) (rom : Nat → Nat) : Nat → Nat :=
  fun a =>
    if addr ≤ a ∧ a < addr + width then
      ((value % (2 : Int) ^ (8 * width)) / (2 : Int) ^ (8 * (a - addr)) % 256).toNat
    else rom a

/-- `saveAxisLimits`: marker, then minimum, then maximum. -/
def saveAxisLimits (s : State) : State :=
  let rom := eepromPut EEPROM_INITIALIZED_ADDR INT_BYTES EEPROM_MAGIC_NUMBER s.eeprom
  let rom := eepromPut EEPROM_MIN_POS_ADDR LONG_BYTES s.minPosition rom
  let rom := eepromPut EEPROM_MAX_POS_ADDR LONG_BYTES s.maxPosition rom
  { s with eeprom := rom }

/-! ### SystemOperations.cpp -/

/-- The exits of `runCalibration`, named after what they print: the two
"Moved too far without finding limit" returns, the "Invalid travel range"
return, and "CALIBRATION COMPLETE" (with the result of the final `moveSteps`,
`true` also when no move was needed). -/
inductive CalExit where
  | minTimeout
  | maxTimeout
  | invalidRange
  | complete (finalMove : Bool)
deriving DecidableEq, Repr

/-- A search loop of `runCalibration` (lines 42-53 and 72-83):
`while (digitalRead(LIMIT_X_PIN) == HIGH)` step once at the slowest speed and
give up when `tooFar` holds of the position.  Returns whether the switch was
found.  `fuel` bounds the number of iterations. -/
def seekLoop (env : Env) (direction : Bool) (tooFar : Int → Bool) :
    Nat → State → Bool × State
  | 0, s => (false, s)
  | fuel + 1, s =>
    let (low, s) := readLimit env s
    if low then (true, s)
    else
      let s := stepMotor MAX_STEP_DELAY direction s
      if tooFar s.currentPosition then (false, s)
      else seekLoop env direction tooFar fuel s

/-- Safety check of the CW search: `abs(getCurrentPosition()) > 50000`. -/
def tooFarMin (position : Int) : Bool := decide (labs position > 50000)

/-- Safety check of the CCW search: `getCurrentPosition() > 50000`. -/
def tooFarMax (position : Int) : Bool := decide (position > 50000)

/-- Iterations after which the CW search has certainly returned: every
iteration lowers the position by one and the loop gives up below -50000. -/
def seekMinFuel (s : State) : Nat := (s.currentPosition + 50001).toNat + 1

/-- Iterations after which the CCW search has certainly returned: every
iteration raises the position by one and the loop gives up above 50000. -/
def seekMaxFuel (s : State) : Nat := (50001 - s.currentPosition).toNat + 1

/-- `runCalibration`, lines 20-53: enter calibration mode, zero the position,
enable the motor and search CW for the switch.  Returns whether the switch was
found and the state at the end of the search.  (`resetEncoderPosition` acts on
the encoder counter only, which is not part of the state.) -/
def calSearchMin (env : Env) (s : State) : Bool × State :=
  let s := setCalibrationMode true s
  let s := setCurrentPosition 0 s
  let s := enableMotor s
  let direction := false
  let s := setDirection direction s
  seekLoop env direction tooFarMin (seekMinFuel s) s

/-- `runCalibration`, lines 60-83, from the state in which the CW search found
the switch: back off, then search CCW for the switch. -/
def calSearchMax (env : Env) (s : State) : Bool × State :=
  let s := backOffFromLimit (!false) s
  let direction := true
  let s := setDirection direction s
  seekLoop env direction tooFarMax (seekMaxFuel s) s

/-- `runCalibration`, lines 90-140, from the state in which the CCW search
found the switch, with the two positions `minPos` and `maxPos` read at the end
of the searches: back off, validate the range, save, mark the limits as
initialized and move to the home position. -/
def calFinish (env : Env) (minPos maxPos : Int) (s : State) : CalExit × State :=
  let s := backOffFromLimit (!true) s
  let travelRange := maxPos - minPos
  if travelRange ≤ 0 then (CalExit.invalidRange, setCalibrationMode false (disableMotor s))
  else
    let s := saveAxisLimits s
    let s := setLimitsInitialized true s
    let homePosition := s.minPosition + BACKOFF_STEPS
    let stepsToHome := homePosition - s.currentPosition
    let (ok, s) :=
      if stepsToHome != 0 then moveSteps env (labs stepsToHome) (decide (stepsToHome > 0)) s
      else (true, s)
    let s := disableMotor s
    let s := setCalibrationMode false s
    (CalExit.complete ok, s)

/-- `runCalibration` (SystemOperations.cpp, lines 20-140). -/
def runCalibration (env : Env) (s : State) : CalExit × State :=
  let (found, s) := calSearchMin env s
  if !found then (CalExit.minTimeout, setCalibrationMode false (disableMotor s))
  else
    let minPos := s.currentPosition
    let (found, s) := calSearchMax env s
    if !found then (CalExit.maxTimeout, setCalibrationMode false (disableMotor s))
    else
      let maxPos := s.currentPosition
      calFinish env minPos maxPos s

/-- The state after `n` uninterrupted iterations of a stepping loop that tests
the stop flag and the switch before each pulse: the pulses `ps` were issued in
direction `direction`. -/
def State.advance (s : State) (n : Nat) (direction : Bool) (ps : List Pulse) : State :=
  { s with
    currentPosition := s.currentPosition + n * (if direction then 1 else -1)
    pulses := ps ++ s.pulses
    reads := s.reads + n
    polls := s.polls + n }

/-- State after power-up with an erased EEPROM (every cell 255). -/
def powerUp : State := State.init fun _ => 255

/-- Scenario 3 of the spec: from the start, the switch is met after 1000 CW
steps (position -1000) and then, after the backoff, after 8400 CCW steps
(position 9000); no other sample triggers and nobody asks to stop. -/
def scenario3 : Env := { limit := fun n => n == 1000 || n == 9401, stop := fun _ => false }

/-- The switch is met at the start of the CW search (position 0) and after
1580 steps of the CCW search (position 3180), and never afterwards. -/
def farSwitchAt3180 : Env := { limit := fun n => n == 0 || n == 1581, stop := fun _ => false }

/-- The switch is met after one CW step (position -1), at the first sample of
the CCW search (position 1599), and again at the first sample of the final
move. -/
def trippedInFinalMove : Env :=
  { limit := fun n => n == 1 || n == 2 || n == 3, stop := fun _ => false }

/-- The switch is met by the CW search at its last allowed position, -50000
(sample number 50000), and never afterwards. -/
def minAtBudgetEdge : Env := { limit := fun n => n == 50000, stop := fun _ => false }

/-- The unsigned value of the `width` bytes stored from address `addr` upward,
least significant first.  A cell holds one byte. -/
def eepromWord (rom : Nat → Nat) : Nat → Nat → Nat
  | _, 0 => 0
  | addr, width + 1 => rom addr % 256 + 256 * eepromWord rom (addr + 1) width

/-- `EEPROM.get(addr, value)` for a signed integer of `width` bytes: the
two's-complement value of the bytes stored from `addr` upward. -/
def eepromGet (addr width : Nat) (rom : Nat → Nat) : Int :=
  let u : Int := eepromWord rom addr width
  if u < (2 : Int) ^ (8 * width - 1) then u else u - (2 : Int) ^ (8 * width)

/-- `loadAxisLimits` (StorageManager.cpp, lines 45-67): read the marker (an
`int`); when it is the magic number, read the two positions (`long`) into
`minPosition` and `maxPosition` and return `true`. -/
def loadAxisLimits (s : State) : Bool × State :=
  let magicNumber := eepromGet EEPROM_INITIALIZED_ADDR INT_BYTES s.eeprom
  if magicNumber == EEPROM_MAGIC_NUMBER then
    let minPos := eepromGet EEPROM_MIN_POS_ADDR LONG_BYTES s.eeprom
    let s := setMinPosition minPos s
    let maxPos := eepromGet EEPROM_MAX_POS_ADDR LONG_BYTES s.eeprom
    let s := setMaxPosition maxPos s
    (true, s)
  else (false, s)

/-- `resetStoredLimits` (StorageManager.cpp, lines 73-77):
`EEPROM.put(EEPROM_INITIALIZED_ADDR, 0)`, the literal being an `int`. -/
def resetStoredLimits (s : State) : State :=
  { s with eeprom := eepromPut EEPROM_INITIALIZED_ADDR INT_BYTES 0 s.eeprom }

/-- Smallest value of a `long` on the target. -/
def LONG_MIN : Int := -2147483648
/-- Largest value of a `long` on the target. -/
def LONG_MAX : Int := 2147483647

/-- The value is one a `long` variable can hold. -/
def IsLong (x : Int) : Prop := LONG_MIN ≤ x ∧ x ≤ LONG_MAX

/-- A state with limits -1000 and 9000 in memory and an EEPROM that holds
arbitrary bytes (every cell 7). -/
def limitsInMemory : State :=
  { State.init (fun _ => 7) with minPosition := -1000, maxPosition := 9000 }

/-- `getPositionPercentage` (PositionManager.cpp, lines 160-175).  The two
differences and the product `relPosition * 100` are 32-bit `long` values and
the quotient is stored in an `int` before the clamp.  The result is `none` if
the division is by zero. -/
def getPositionPercentage (s : State) : Option Int :=
  if !s.limitsInitialized || wrapLong (s.maxPosition - s.minPosition) == 0 then some 0
  else
    let range := wrapLong (s.maxPosition - s.minPosition)
    let relPosition := wrapLong (s.currentPosition - s.minPosition)
    match longDiv (wrapLong (relPosition * 100)) range with
    | none => none
    | some quotient =>
      let percent := longToInt quotient
      let percent := if percent < 0 then 0 else percent
      let percent := if percent > 100 then 100 else percent
      some percent

/-- The formula of the specification for the percentage of travel:
`round(100 * (current - min) / (max - min))` clamped to [0,100], the quotient
being the exact one and `round` rounding it to the nearest integer. -/
def percentageRounded (s : State) : Int :=
  max 0 (min 100
    (round ((100 * ((s.currentPosition : ℚ) - s.minPosition)) / (s.maxPosition - s.minPosition))))

/-- Calibrated limits 0 and 3 with the axis at position 2, two thirds of the
travel. -/
def atTwoThirds : State :=
  { powerUp with
    currentPosition := 2, minPosition := 0, maxPosition := 3, limitsInitialized := true }

/-- `isPositionInRange` (PositionManager.cpp, lines 131-137). -/
def isPositionInRange (position : Int) (s : State) : Bool :=
  if !s.limitsInitialized then true
  else decide (position ≥ s.minPosition) && decide (position ≤ s.maxPosition)

/-- `constrainPosition` (PositionManager.cpp, lines 145-153). -/
def constrainPosition (position : Int) (s : State) : Int :=
  if !s.limitsInitialized then position
  else if position < s.minPosition then s.minPosition
  else if position > s.maxPosition then s.maxPosition
  else position

/-- Calibrated limits -1000 and 9000, as a stored record would restore them. -/
def calibratedAxis : State :=
  { powerUp with minPosition := -1000, maxPosition := 9000, limitsInitialized := true }

/-- The exits of `runHoming` of this variant: the "Cannot home - axis not
calibrated" return and "HOMING COMPLETE" (with the result of the `moveSteps`,
`true` also when the axis was already at the home position). -/
inductive HomingExit where
  | notCalibrated
  | complete (move : Bool)
deriving DecidableEq, Repr

/-- `runHoming` (SystemOperations.cpp, lines 146-181). -/
def runHoming (env : Env) (s : State) : HomingExit × State :=
  if !s.limitsInitialized then (HomingExit.notCalibrated, s)
  else
    let s := enableMotor s
    let homePosition := s.minPosition + BACKOFF_STEPS
    let stepsToHome := homePosition - s.currentPosition
    let direction := decide (stepsToHome > 0)
    let (ok, s) :=
      if stepsToHome != 0 then moveSteps env (labs stepsToHome) direction s
      else (true, s)
    let s := disableMotor s
    (HomingExit.complete ok, s)

/-- Calibrated limits 0 and 30000000 with the axis at the maximum. -/
def atMaxOf30000000 : State :=
  { powerUp with
    currentPosition := 30000000, minPosition := 0, maxPosition := 30000000,
    limitsInitialized := true }

/-- Calibrated limits 0 and 1000 with the axis at `position`. -/
def axisOf1000 (position : Int) : State :=
  { powerUp with
    currentPosition := position, minPosition := 0, maxPosition := 1000,
    limitsInitialized := true }

end Dual

/-! # Theorems -/

/-! ## Pulse logs, delays and phase lengths -/

theorem issuedSince_append (new old : List Pulse) : issuedSince old (new ++ old) = new := by
  simp [issuedSince]

theorem issuedSince_self (old : List Pulse) : issuedSince old old = [] := by
  simp [issuedSince]

theorem signedSteps_append (a b : List Pulse) :
    signedSteps (a ++ b) = signedSteps a + signedSteps b := by
  induction a with
  | nil => simp [signedSteps]
  | cons p ps ih => simp [signedSteps, ih, add_assoc]

theorem signedSteps_replicate (n : Nat) (delay : Int) (dir : Bool) :
    signedSteps (List.replicate n { delay := delay, dir := dir }) =
      n * (if dir then 1 else -1) := by
  induction n with
  | zero => simp [signedSteps]
  | succ n ih =>
    simp only [List.replicate_succ, signedSteps, ih, Pulse.delta]
    push_cast
    ring

theorem delaysInBand_nil : DelaysInBand [] := by
  intro p hp
  cases hp

theorem delaysInBand_append {a b : List Pulse} (ha : DelaysInBand a) (hb : DelaysInBand b) :
    DelaysInBand (a ++ b) := by
  intro p hp
  rcases List.mem_append.mp hp with h | h
  · exact ha p h
  · exact hb p h

theorem delaysInBand_replicate_max (n : Nat) (dir : Bool) :
    DelaysInBand (List.replicate n { delay := MAX_STEP_DELAY, dir := dir }) := by
  intro p hp
  rw [List.mem_replicate] at hp
  rw [hp.2]
  simp [MIN_STEP_DELAY, MAX_STEP_DELAY]

theorem accelDelay_band (x : Int) (h1 : MIN_STEP_DELAY ≤ x) (h2 : x ≤ MAX_STEP_DELAY) :
    MIN_STEP_DELAY ≤ accelDelay x ∧ accelDelay x ≤ MAX_STEP_DELAY := by
  unfold accelDelay
  simp only [MIN_STEP_DELAY, MAX_STEP_DELAY, ACCEL_RATE] at *
  split_ifs <;> omega

theorem decelDelay_band (x : Int) (h1 : MIN_STEP_DELAY ≤ x) (h2 : x ≤ MAX_STEP_DELAY) :
    MIN_STEP_DELAY ≤ decelDelay x ∧ decelDelay x ≤ MAX_STEP_DELAY := by
  unfold decelDelay
  simp only [MIN_STEP_DELAY, MAX_STEP_DELAY, DECEL_RATE] at *
  split_ifs <;> omega

/-- For a positive count at least one of the three phases of `moveSteps` is
not empty, and the cruise phase is empty when the acceleration phase is. -/
theorem phaseSteps_pos (count : Int) (h : 0 < count) :
    0 < (phaseSteps count).1 ∨
      ((phaseSteps count).1 = 0 ∧ (phaseSteps count).2.1 = 0 ∧ 0 < (phaseSteps count).2.2) := by
  have h4 : count.tdiv 4 = count / 4 := Int.tdiv_eq_ediv (le_of_lt h) (by decide)
  have h2 : count.tdiv 2 = count / 2 := Int.tdiv_eq_ediv (le_of_lt h) (by decide)
  unfold phaseSteps
  simp only [h4, h2]
  split_ifs <;> simp <;> omega

/-- For a count below 20 or from 40 on, the three phases of `moveSteps` add up
to the count; from 20 to 39 they add up to more. -/
theorem scheduledPulses_eq (count : Int) (h0 : 0 ≤ count) (h : count < 20 ∨ 40 ≤ count) :
    (scheduledPulses count : Int) = count := by
  have h4 : count.tdiv 4 = count / 4 := Int.tdiv_eq_ediv h0 (by decide)
  have h2 : count.tdiv 2 = count / 2 := Int.tdiv_eq_ediv h0 (by decide)
  unfold scheduledPulses phaseSteps
  simp only [h4, h2]
  split_ifs <;> simp <;> omega

theorem scheduledPulses_gt (count : Int) (h1 : 20 ≤ count) (h2 : count < 40) :
    (scheduledPulses count : Int) = 20 + (count - 2 * (count / 4)) := by
  have h4 : count.tdiv 4 = count / 4 := Int.tdiv_eq_ediv (by omega) (by decide)
  have h2 : count.tdiv 2 = count / 2 := Int.tdiv_eq_ediv (by omega) (by decide)
  unfold scheduledPulses phaseSteps
  simp only [h4, h2]
  split_ifs <;> simp <;> omega

namespace Single

/-! ### Single-limit variant: the pulse primitives -/

theorem backOffLoop_eq (direction : Bool) (n : Nat) (s : State) :
    backOffLoop direction n s =
      { s with
        currentPosition := s.currentPosition + n * (if direction then 1 else -1)
        pulses := List.replicate n { delay := MAX_STEP_DELAY, dir := direction } ++ s.pulses } := by
  induction n generalizing s with
  | zero => simp [backOffLoop]
  | succ n ih =>
    simp only [backOffLoop, ih, stepMotor, updatePosition]
    congr 1
    · push_cast; ring
    · simp [List.replicate_succ']

theorem backOffFromLimit_eq (direction : Bool) (s : State) :
    backOffFromLimit direction s =
      { s with
        currentPosition := s.currentPosition + BACKOFF_STEPS * (if direction then 1 else -1)
        dirPin := direction
        pulses :=
          List.replicate BACKOFF_STEPS { delay := MAX_STEP_DELAY, dir := direction } ++ s.pulses } := by
  simp [backOffFromLimit, backOffLoop_eq, setDirection]

theorem checkLimitSwitch_low (env : Env) (direction : Bool) (s : State)
    (h : env.limit s.reads = true) :
    checkLimitSwitch env direction s =
      (true, backOffFromLimit (!direction)
        (if !direction then { s with reads := s.reads + 1, currentPosition := 0 }
         else { s with reads := s.reads + 1, maxPosition := s.currentPosition })) := by
  simp [checkLimitSwitch, readLimit, h]

theorem checkLimitSwitch_high (env : Env) (direction : Bool) (s : State)
    (h : env.limit s.reads = false) :
    checkLimitSwitch env direction s = (false, { s with reads := s.reads + 1 }) := by
  simp [checkLimitSwitch, readLimit, h]

theorem pollStop_pulses (env : Env) (s : State) : (pollStop env s).2.pulses = s.pulses := by
  unfold pollStop
  split_ifs <;> simp [emergencyStop, disableMotor]

theorem pollStop_currentPosition (env : Env) (s : State) :
    (pollStop env s).2.currentPosition = s.currentPosition := by
  unfold pollStop
  split_ifs <;> simp [emergencyStop, disableMotor]

theorem pollStop_reads (env : Env) (s : State) : (pollStop env s).2.reads = s.reads := by
  unfold pollStop
  split_ifs <;> simp [emergencyStop, disableMotor]

theorem pollStop_polls (env : Env) (s : State) : (pollStop env s).2.polls = s.polls + 1 := by
  unfold pollStop
  split_ifs <;> simp [emergencyStop, disableMotor]

theorem pollStop_stop (env : Env) (s : State) (h : env.stop s.polls = true) :
    (pollStop env s).1 = true := by
  simp [pollStop, h, emergencyStop, disableMotor]

/-- Unfolding of one iteration of a phase loop. -/
theorem phaseLoop_succ (env : Env) (upd : Int → Int) (direction : Bool) (n : Nat)
    (stepDelay : Int) (s : State) :
    phaseLoop env upd direction (n + 1) stepDelay s =
      if (pollStop env s).1 = true then (false, stepDelay, (pollStop env s).2)
      else if (checkLimitSwitch env direction (pollStop env s).2).1 = true then
        (false, stepDelay, (checkLimitSwitch env direction (pollStop env s).2).2)
      else
        phaseLoop env upd direction n (upd stepDelay)
          (stepMotor stepDelay direction (checkLimitSwitch env direction (pollStop env s).2).2) := by
  rfl

/-- Unfolding of `moveSteps` into its three phase loops. -/
theorem moveSteps_eq (env : Env) (stepsToMove : Int) (direction : Bool) (s : State) :
    moveSteps env stepsToMove direction s =
      let s0 := setDirection direction { s with emergencyStopTriggered := false }
      let r1 := phaseLoop env accelDelay direction (phaseSteps stepsToMove).1.toNat MAX_STEP_DELAY s0
      if r1.1 = false then (false, r1.2.2)
      else
        let r2 := phaseLoop env id direction (phaseSteps stepsToMove).2.1.toNat r1.2.1 r1.2.2
        if r2.1 = false then (false, r2.2.2)
        else
          let r3 := phaseLoop env decelDelay direction (phaseSteps stepsToMove).2.2.toNat r2.2.1 r2.2.2
          (r3.1, r3.2.2) := by
  simp only [moveSteps]
  cases h1 : (phaseLoop env accelDelay direction (phaseSteps stepsToMove).1.toNat MAX_STEP_DELAY
    (setDirection direction { s with emergencyStopTriggered := false })).1 <;> simp [h1]

theorem checkLimitSwitch_pulses (env : Env) (direction : Bool) (s : State) :
    ∃ new, (checkLimitSwitch env direction s).2.pulses = new ++ s.pulses ∧ DelaysInBand new := by
  cases h : env.limit s.reads
  · exact ⟨[], by simp [checkLimitSwitch_high env direction s h], delaysInBand_nil⟩
  · refine ⟨List.replicate BACKOFF_STEPS { delay := MAX_STEP_DELAY, dir := !direction }, ?_,
      delaysInBand_replicate_max _ _⟩
    rw [checkLimitSwitch_low env direction s h, backOffFromLimit_eq]
    cases direction <;> simp

/-- Delays stay in the band through a phase loop whose delay update keeps the
band, and so do the delays of all the pulses it issues. -/
theorem phaseLoop_band (env : Env) (upd : Int → Int) (direction : Bool)
    (hupd : ∀ x, MIN_STEP_DELAY ≤ x → x ≤ MAX_STEP_DELAY →
      MIN_STEP_DELAY ≤ upd x ∧ upd x ≤ MAX_STEP_DELAY)
    (n : Nat) (stepDelay : Int) (s : State)
    (h1 : MIN_STEP_DELAY ≤ stepDelay) (h2 : stepDelay ≤ MAX_STEP_DELAY) :
    MIN_STEP_DELAY ≤ (phaseLoop env upd direction n stepDelay s).2.1 ∧
    (phaseLoop env upd direction n stepDelay s).2.1 ≤ MAX_STEP_DELAY ∧
    ∃ new, (phaseLoop env upd direction n stepDelay s).2.2.pulses = new ++ s.pulses ∧
      DelaysInBand new := by
  induction n generalizing stepDelay s with
  | zero => exact ⟨h1, h2, [], by simp [phaseLoop], delaysInBand_nil⟩
  | succ n ih =>
    rw [phaseLoop_succ]
    split_ifs with hs hl
    · exact ⟨h1, h2, [], by simp [pollStop_pulses], delaysInBand_nil⟩
    · obtain ⟨new, hnew, hband⟩ := checkLimitSwitch_pulses env direction (pollStop env s).2
      exact ⟨h1, h2, new, by rw [hnew, pollStop_pulses], hband⟩
    · obtain ⟨new, hnew, hband⟩ := checkLimitSwitch_pulses env direction (pollStop env s).2
      obtain ⟨g1, g2, rest, hrest, hrband⟩ :=
        ih (upd stepDelay)
          (stepMotor stepDelay direction (checkLimitSwitch env direction (pollStop env s).2).2)
          (hupd stepDelay h1 h2).1 (hupd stepDelay h1 h2).2
      refine ⟨g1, g2, rest ++ ({ delay := stepDelay, dir := direction } :: new), ?_, ?_⟩
      · rw [hrest]
        simp [stepMotor, updatePosition, hnew, pollStop_pulses]
      · apply delaysInBand_append hrband
        intro p hp
        rcases List.mem_cons.mp hp with h | h
        · rw [h]; exact ⟨h1, h2⟩
        · exact hband p h

/-- C3. Every pulse issued during a call of `moveSteps`, in any of its three
phases or by a backoff it triggers, is passed a delay between
`MIN_STEP_DELAY` and `MAX_STEP_DELAY`, so that the wait `delay - 10` after the
pulse is positive. -/
theorem moveSteps_delay_in_band (env : Env) (count : Int) (direction : Bool) (s : State) :
    ∀ p ∈ issuedSince s.pulses (moveSteps env count direction s).2.pulses,
      MIN_STEP_DELAY ≤ p.delay ∧ p.delay ≤ MAX_STEP_DELAY ∧ 0 < p.delay - 10 := by
  have key : ∃ new, (moveSteps env count direction s).2.pulses = new ++ s.pulses ∧
      DelaysInBand new := by
    rw [moveSteps_eq]
    dsimp only
    generalize hs0 : setDirection direction { s with emergencyStopTriggered := false } = s0
    have hp0 : s0.pulses = s.pulses := by rw [← hs0]; rfl
    have f1 := phaseLoop_band env accelDelay direction accelDelay_band
      (phaseSteps count).1.toNat MAX_STEP_DELAY s0 (by decide) (by decide)
    generalize phaseLoop env accelDelay direction (phaseSteps count).1.toNat MAX_STEP_DELAY s0 = r1
      at f1 ⊢
    obtain ⟨a1, a2, n1, e1, b1⟩ := f1
    have f2 := phaseLoop_band env id direction (fun x h1 h2 => ⟨h1, h2⟩)
      (phaseSteps count).2.1.toNat r1.2.1 r1.2.2 a1 a2
    generalize phaseLoop env id direction (phaseSteps count).2.1.toNat r1.2.1 r1.2.2 = r2 at f2 ⊢
    obtain ⟨c1, c2, n2, e2, b2⟩ := f2
    have f3 := phaseLoop_band env decelDelay direction decelDelay_band
      (phaseSteps count).2.2.toNat r2.2.1 r2.2.2 c1 c2
    generalize phaseLoop env decelDelay direction (phaseSteps count).2.2.toNat r2.2.1 r2.2.2 = r3
      at f3 ⊢
    obtain ⟨_, _, n3, e3, b3⟩ := f3
    split_ifs
    · exact ⟨n1, by rw [e1, hp0], b1⟩
    · exact ⟨n2 ++ n1, by simp [e2, e1, hp0], delaysInBand_append b2 b1⟩
    · exact ⟨n3 ++ (n2 ++ n1), by simp [e3, e2, e1, hp0],
        delaysInBand_append b3 (delaysInBand_append b2 b1)⟩
  obtain ⟨new, hnew, hband⟩ := key
  intro p hp
  rw [hnew, issuedSince_append] at hp
  have := hband p hp
  simp only [MIN_STEP_DELAY, MAX_STEP_DELAY] at *
  omega

/-- Witness for `moveSteps_delay_in_band`: the pulse at the slowest delay
issued first by an undisturbed `moveSteps(3, CCW)` after power-up. -/
theorem moveSteps_delay_in_band_witness :
    ({ delay := 1000, dir := true } : Pulse) ∈
        issuedSince State.init.pulses (moveSteps Env.quiet 3 CCW State.init).2.pulses ∧
      (MIN_STEP_DELAY ≤ ({ delay := 1000, dir := true } : Pulse).delay ∧
        ({ delay := 1000, dir := true } : Pulse).delay ≤ MAX_STEP_DELAY ∧
        0 < ({ delay := 1000, dir := true } : Pulse).delay - 10) :=
  ⟨by decide!,
    moveSteps_delay_in_band Env.quiet 3 CCW State.init { delay := 1000, dir := true }
      (by decide!)⟩

theorem cleanRun_of_eq (env : Env) {s t : State} (hp : t.pulses = s.pulses)
    (hr : t.reads = s.reads) (hc : t.currentPosition = s.currentPosition) : CleanRun env s t :=
  ⟨[], by simp [hp], by omega, by intro i h1 h2; omega, by simp [hc, signedSteps]⟩

theorem cleanRun_trans {env : Env} {s t u : State} (h1 : CleanRun env s t)
    (h2 : CleanRun env t u) : CleanRun env s u := by
  obtain ⟨n1, p1, r1, q1, c1⟩ := h1
  obtain ⟨n2, p2, r2, q2, c2⟩ := h2
  refine ⟨n2 ++ n1, by simp [p2, p1], by omega, ?_, ?_⟩
  · intro i hi1 hi2
    by_cases h : i < t.reads
    · exact q1 i hi1 h
    · exact q2 i (by omega) hi2
  · rw [c2, c1, signedSteps_append]; ring

theorem cleanRun_limitRun {env : Env} {direction : Bool} {s t u : State}
    (h1 : CleanRun env s t) (h2 : LimitRun env direction t u) : LimitRun env direction s u := by
  obtain ⟨n1, p1, r1, _, c1⟩ := h1
  obtain ⟨n2, p2, r2, q2, c2⟩ := h2
  refine ⟨n2 ++ n1, by simp [p2, p1], by omega, q2, ?_⟩
  split_ifs with hd
  · rw [if_pos hd] at c2
    rw [c2, c1, signedSteps_append]; ring
  · rw [if_neg hd] at c2
    exact c2

theorem cleanRun_not_tripped {env : Env} {s t : State} (h : CleanRun env s t) :
    limitTripped env s t = false := by
  obtain ⟨_, _, r, q, _⟩ := h
  unfold limitTripped
  by_cases hlt : s.reads < t.reads
  · simp [q (t.reads - 1) (by omega) (by omega)]
  · simp [hlt]

theorem limitRun_tripped {env : Env} {direction : Bool} {s t : State}
    (h : LimitRun env direction s t) : limitTripped env s t = true := by
  obtain ⟨_, _, r, q, _⟩ := h
  simp [limitTripped, r, q]

theorem cleanRun_pollStop (env : Env) (s : State) : CleanRun env s (pollStop env s).2 :=
  cleanRun_of_eq env (pollStop_pulses env s) (pollStop_reads env s)
    (pollStop_currentPosition env s)

theorem cleanRun_stepMotor (env : Env) (delay : Int) (direction : Bool) (s : State) :
    CleanRun env s (stepMotor delay direction s) :=
  ⟨[{ delay := delay, dir := direction }], by simp [stepMotor, updatePosition],
    by simp [stepMotor, updatePosition],
    by intro i h1 h2; simp [stepMotor, updatePosition] at h2; omega,
    by simp [stepMotor, updatePosition, signedSteps, Pulse.delta]⟩

theorem cleanRun_checkLimitSwitch_high (env : Env) (direction : Bool) (s : State)
    (h : env.limit s.reads = false) : CleanRun env s (checkLimitSwitch env direction s).2 := by
  rw [checkLimitSwitch_high env direction s h]
  refine ⟨[], by simp, by simp, ?_, by simp [signedSteps]⟩
  intro i h1 h2
  have : i = s.reads := by simp at h2; omega
  rw [this]; exact h

theorem limitRun_checkLimitSwitch_low (env : Env) (direction : Bool) (s : State)
    (h : env.limit s.reads = true) : LimitRun env direction s (checkLimitSwitch env direction s).2 := by
  rw [checkLimitSwitch_low env direction s h, backOffFromLimit_eq]
  refine ⟨List.replicate BACKOFF_STEPS { delay := MAX_STEP_DELAY, dir := !direction }, ?_, ?_, ?_, ?_⟩
  · cases direction <;> simp
  · cases direction <;> simp
  · cases direction <;> simpa using h
  · rw [signedSteps_replicate]
    cases direction <;> simp

theorem checkLimitSwitch_fst (env : Env) (direction : Bool) (s : State) :
    (checkLimitSwitch env direction s).1 = env.limit s.reads := by
  cases h : env.limit s.reads
  · rw [checkLimitSwitch_high env direction s h]
  · rw [checkLimitSwitch_low env direction s h]

/-- What a phase loop does to position, pulse log and switch samples. -/
theorem phaseLoop_run (env : Env) (upd : Int → Int) (direction : Bool) (n : Nat)
    (stepDelay : Int) (s : State) :
    ((phaseLoop env upd direction n stepDelay s).1 = true →
      CleanRun env s (phaseLoop env upd direction n stepDelay s).2.2) ∧
    ((phaseLoop env upd direction n stepDelay s).1 = false →
      CleanRun env s (phaseLoop env upd direction n stepDelay s).2.2 ∨
      LimitRun env direction s (phaseLoop env upd direction n stepDelay s).2.2) := by
  induction n generalizing stepDelay s with
  | zero =>
    simp only [phaseLoop]
    exact ⟨fun _ => cleanRun_of_eq env rfl rfl rfl, fun h => by cases h⟩
  | succ n ih =>
    rw [phaseLoop_succ]
    have hp := cleanRun_pollStop env s
    split_ifs with hs hl
    · exact ⟨fun h => (by cases h), fun _ => Or.inl hp⟩
    · rw [checkLimitSwitch_fst] at hl
      exact ⟨fun h => (by cases h),
        fun _ => Or.inr (cleanRun_limitRun hp (limitRun_checkLimitSwitch_low env direction _ hl))⟩
    · rw [checkLimitSwitch_fst] at hl
      have hc := cleanRun_trans hp
        (cleanRun_checkLimitSwitch_high env direction _ (by simpa using hl))
      have hm := cleanRun_trans hc (cleanRun_stepMotor env stepDelay direction _)
      obtain ⟨i1, i2⟩ := ih (upd stepDelay)
        (stepMotor stepDelay direction (checkLimitSwitch env direction (pollStop env s).2).2)
      refine ⟨fun h => cleanRun_trans hm (i1 h), fun h => ?_⟩
      rcases i2 h with g | g
      · exact Or.inl (cleanRun_trans hm g)
      · exact Or.inr (cleanRun_limitRun hm g)

/-- What `moveSteps` does to position, pulse log and switch samples. -/
theorem moveSteps_run (env : Env) (count : Int) (direction : Bool) (s : State) :
    ((moveSteps env count direction s).1 = true →
      CleanRun env s (moveSteps env count direction s).2) ∧
    ((moveSteps env count direction s).1 = false →
      CleanRun env s (moveSteps env count direction s).2 ∨
      LimitRun env direction s (moveSteps env count direction s).2) := by
  rw [moveSteps_eq]
  dsimp only
  generalize hs0 : setDirection direction { s with emergencyStopTriggered := false } = s0
  have h0 : CleanRun env s s0 := by
    rw [← hs0]; exact cleanRun_of_eq env rfl rfl rfl
  have f1 := phaseLoop_run env accelDelay direction (phaseSteps count).1.toNat MAX_STEP_DELAY s0
  generalize phaseLoop env accelDelay direction (phaseSteps count).1.toNat MAX_STEP_DELAY s0 = r1
    at f1 ⊢
  have f2 := phaseLoop_run env id direction (phaseSteps count).2.1.toNat r1.2.1 r1.2.2
  generalize phaseLoop env id direction (phaseSteps count).2.1.toNat r1.2.1 r1.2.2 = r2 at f2 ⊢
  have f3 := phaseLoop_run env decelDelay direction (phaseSteps count).2.2.toNat r2.2.1 r2.2.2
  generalize phaseLoop env decelDelay direction (phaseSteps count).2.2.toNat r2.2.1 r2.2.2 = r3
    at f3 ⊢
  split_ifs with h1 h2
  · refine ⟨fun h => (by cases h), fun _ => ?_⟩
    rcases f1.2 h1 with g | g
    · exact Or.inl (cleanRun_trans h0 g)
    · exact Or.inr (cleanRun_limitRun h0 g)
  · have c1 := cleanRun_trans h0 (f1.1 (by simpa using h1))
    refine ⟨fun h => (by cases h), fun _ => ?_⟩
    rcases f2.2 h2 with g | g
    · exact Or.inl (cleanRun_trans c1 g)
    · exact Or.inr (cleanRun_limitRun c1 g)
  · have c1 := cleanRun_trans h0 (f1.1 (by simpa using h1))
    have c2 := cleanRun_trans c1 (f2.1 (by simpa using h2))
    refine ⟨fun h => cleanRun_trans c2 (f3.1 h), fun h => ?_⟩
    rcases f3.2 h with g | g
    · exact Or.inl (cleanRun_trans c2 g)
    · exact Or.inr (cleanRun_limitRun c2 g)

/-- C2, amended. Whenever `moveSteps` returns false: if the abort was a
limit-switch trigger while moving CW (the home direction), the position was
zeroed and backed off, so it is `BACKOFF_STEPS` whatever it was at entry; in
every other case (stop request, or trigger while moving CCW) the position
differs from its value at entry by exactly the signed number of pulses issued
during the call, backoff pulses included. -/
theorem moveSteps_abort_position (env : Env) (count : Int) (direction : Bool) (s : State)
    (h : (moveSteps env count direction s).1 = false) :
    ((direction = CW ∧ limitTripped env s (moveSteps env count direction s).2 = true) →
      (moveSteps env count direction s).2.currentPosition = BACKOFF_STEPS) ∧
    (¬ (direction = CW ∧ limitTripped env s (moveSteps env count direction s).2 = true) →
      (moveSteps env count direction s).2.currentPosition =
        s.currentPosition +
          signedSteps (issuedSince s.pulses (moveSteps env count direction s).2.pulses)) := by
  rcases (moveSteps_run env count direction s).2 h with g | g
  · have ht := cleanRun_not_tripped g
    obtain ⟨new, hp, _, _, hc⟩ := g
    refine ⟨fun hx => ?_, fun _ => ?_⟩
    · rw [ht] at hx; cases hx.2
    · rw [hp, issuedSince_append]; exact hc
  · have ht := limitRun_tripped g
    obtain ⟨new, hp, _, _, hc⟩ := g
    refine ⟨fun hx => ?_, fun hx => ?_⟩
    · rw [if_neg (by rw [hx.1]; decide)] at hc
      exact hc
    · have hd : direction = true := by
        cases direction
        · exact absurd ⟨rfl, ht⟩ hx
        · rfl
      rw [if_pos hd] at hc
      rw [hp, issuedSince_append]; exact hc

/-! ### Single-limit variant: undisturbed moves -/

theorem advance_advance (s : State) (n m : Nat) (direction : Bool) (p q : List Pulse) :
    (s.advance n direction p).advance m direction q = s.advance (n + m) direction (q ++ p) := by
  simp only [State.advance]
  congr 1
  · push_cast; ring
  · simp
  · omega
  · omega

theorem pollStop_quiet (env : Env) (s : State) (hflag : s.emergencyStopTriggered = false)
    (h : env.stop s.polls = false) :
    pollStop env s = (false, { s with polls := s.polls + 1 }) := by
  simp [pollStop, h, hflag]

/-- Closed form of a phase loop during which the switch does not trigger and
no stop request arrives. -/
theorem phaseLoop_quiet (env : Env) (upd : Int → Int) (direction : Bool) (n : Nat)
    (stepDelay : Int) (s : State) (hflag : s.emergencyStopTriggered = false)
    (hlimit : ∀ i, i < n → env.limit (s.reads + i) = false)
    (hstop : ∀ i, i < n → env.stop (s.polls + i) = false) :
    phaseLoop env upd direction n stepDelay s =
      (true, rampEnd upd n stepDelay, s.advance n direction (rampPulses upd direction n stepDelay))
      := by
  induction n generalizing stepDelay s with
  | zero => simp [phaseLoop, rampEnd, rampPulses, State.advance]
  | succ n ih =>
    have hl0 : env.limit s.reads = false := by simpa using hlimit 0 (by omega)
    have hs0 : env.stop s.polls = false := by simpa using hstop 0 (by omega)
    simp only [phaseLoop, pollStop_quiet env s hflag hs0, Bool.false_eq_true, if_false]
    rw [checkLimitSwitch_high env direction { s with polls := s.polls + 1 } hl0]
    simp only [Bool.false_eq_true, if_false]
    rw [ih]
    · simp only [stepMotor, updatePosition, rampEnd, rampPulses, State.advance]
      congr 3
      · push_cast; ring
      · simp
      · omega
      · omega
    · simp [stepMotor, updatePosition, hflag]
    · intro i hi
      have := hlimit (i + 1) (by omega)
      simpa [stepMotor, updatePosition, add_assoc, add_comm 1 i] using this
    · intro i hi
      have := hstop (i + 1) (by omega)
      simpa [stepMotor, updatePosition, add_assoc, add_comm 1 i] using this

/-- Closed form of a `moveSteps` during which the switch does not trigger and
no stop request arrives: it returns true after `scheduledPulses count` pulses. -/
theorem moveSteps_quiet (env : Env) (count : Int) (direction : Bool) (s : State)
    (hlimit : ∀ i, i < scheduledPulses count → env.limit (s.reads + i) = false)
    (hstop : ∀ i, i < scheduledPulses count → env.stop (s.polls + i) = false) :
    moveSteps env count direction s =
      (true, (setDirection direction { s with emergencyStopTriggered := false }).advance
        (scheduledPulses count) direction (movePulses count direction)) := by
  rw [moveSteps_eq]
  unfold scheduledPulses at hlimit hstop ⊢
  unfold movePulses
  generalize (phaseSteps count).1.toNat = a at hlimit hstop ⊢
  generalize (phaseSteps count).2.1.toNat = c at hlimit hstop ⊢
  generalize (phaseSteps count).2.2.toNat = d at hlimit hstop ⊢
  generalize hs0 : setDirection direction { s with emergencyStopTriggered := false } = s0
  have hr0 : s0.reads = s.reads := by rw [← hs0]; rfl
  have hp0 : s0.polls = s.polls := by rw [← hs0]; rfl
  have hf0 : s0.emergencyStopTriggered = false := by rw [← hs0]; rfl
  have e1 := phaseLoop_quiet env accelDelay direction a MAX_STEP_DELAY s0 hf0
    (fun i hi => by rw [hr0]; exact hlimit i (by omega))
    (fun i hi => by rw [hp0]; exact hstop i (by omega))
  have e2 := phaseLoop_quiet env id direction c (rampEnd accelDelay a MAX_STEP_DELAY)
    (s0.advance a direction (rampPulses accelDelay direction a MAX_STEP_DELAY)) hf0
    (fun i hi => by
      have := hlimit (a + i) (by omega)
      simpa [State.advance, hr0, add_assoc] using this)
    (fun i hi => by
      have := hstop (a + i) (by omega)
      simpa [State.advance, hp0, add_assoc] using this)
  have e3 := phaseLoop_quiet env decelDelay direction d
    (rampEnd id c (rampEnd accelDelay a MAX_STEP_DELAY))
    ((s0.advance a direction (rampPulses accelDelay direction a MAX_STEP_DELAY)).advance c
      direction (rampPulses id direction c (rampEnd accelDelay a MAX_STEP_DELAY))) hf0
    (fun i hi => by
      have := hlimit (a + c + i) (by omega)
      simpa [State.advance, hr0, add_assoc] using this)
    (fun i hi => by
      have := hstop (a + c + i) (by omega)
      simpa [State.advance, hp0, add_assoc] using this)
  simp only [e1, e2, e3, Bool.true_eq_false, if_false]
  simp only [advance_advance]

/-- An undisturbed `moveSteps` returns true and moves the position by the
scheduled number of pulses, which is the count itself when the count is below
20 or at least 40. -/
theorem moveSteps_quiet_position (env : Env) (count : Int) (direction : Bool) (s : State)
    (hlimit : ∀ i, i < scheduledPulses count → env.limit (s.reads + i) = false)
    (hstop : ∀ i, i < scheduledPulses count → env.stop (s.polls + i) = false) :
    (moveSteps env count direction s).1 = true ∧
    (moveSteps env count direction s).2.currentPosition =
      s.currentPosition + scheduledPulses count * (if direction then 1 else -1) ∧
    (moveSteps env count direction s).2.maxPosition = s.maxPosition := by
  rw [moveSteps_quiet env count direction s hlimit hstop]
  exact ⟨rfl, rfl, rfl⟩

/-! ### Single-limit variant: claims C1, C2, C9 and the safety clamp -/

/-- C1, at the failing input. `moveSteps(20, CCW)` from position 0, with the
switch never triggering and no stop request, returns true after 30 pulses and
leaves the position at 30, not 20: the cruise length `20 - 5 - 5 = 10` is
computed before the two ramps are raised from 5 to 10 steps. -/
theorem moveSteps_twenty_issues_thirty :
    phaseSteps 20 = (10, 10, 10) ∧
    (moveSteps Env.quiet 20 CCW State.init).1 = true ∧
    (moveSteps Env.quiet 20 CCW State.init).2.pulses.length = 30 ∧
    (moveSteps Env.quiet 20 CCW State.init).2.currentPosition = 30 := by
  decide!

/-- C2, counterexample. From position 5000, a CW move that meets the switch at
its first sample returns false after the 1600 CCW pulses of the backoff; the
position is 1600, not 5000 + 1600. -/
theorem moveSteps_cw_trigger_resets_position :
    (moveSteps envPressed 100 CW (stateAt 5000)).1 = false ∧
    signedSteps (issuedSince (stateAt 5000).pulses
      (moveSteps envPressed 100 CW (stateAt 5000)).2.pulses) = 1600 ∧
    (moveSteps envPressed 100 CW (stateAt 5000)).2.currentPosition = 1600 ∧
    (moveSteps envPressed 100 CW (stateAt 5000)).2.currentPosition ≠
      (stateAt 5000).currentPosition +
        signedSteps (issuedSince (stateAt 5000).pulses
          (moveSteps envPressed 100 CW (stateAt 5000)).2.pulses) := by
  decide!

/-- Witness for `moveSteps_abort_position`: a CCW move from position 5000 that
meets the switch at its first sample. -/
theorem moveSteps_abort_position_witness :
    (moveSteps envPressed 100 CCW (stateAt 5000)).1 = false ∧
    (moveSteps envPressed 100 CCW (stateAt 5000)).2.currentPosition =
      (stateAt 5000).currentPosition +
        signedSteps (issuedSince (stateAt 5000).pulses
          (moveSteps envPressed 100 CCW (stateAt 5000)).2.pulses) :=
  ⟨by decide!,
    (moveSteps_abort_position envPressed 100 CCW (stateAt 5000) (by decide!)).2 (by decide)⟩

/-- C9, counterexample. With `emergencyStopTriggered` already set at the call
and no later request, `moveSteps(1, CCW)` returns true, issues one pulse and
moves the position from 0 to 1: the flag is cleared on entry. -/
theorem moveSteps_discards_earlier_stop :
    ({ State.init with emergencyStopTriggered := true } : State).emergencyStopTriggered = true ∧
    (moveSteps Env.quiet 1 CCW { State.init with emergencyStopTriggered := true }).1 = true ∧
    (moveSteps Env.quiet 1 CCW { State.init with emergencyStopTriggered := true }).2.pulses.length
      = 1 ∧
    (moveSteps Env.quiet 1 CCW { State.init with emergencyStopTriggered := true }).2.currentPosition
      = 1 := by
  decide!

/-- C9, amended. Whatever the value of the stop flag at the call (it is cleared
on entry), if a stop request arrives after the call and before the first test
of the flag, `moveSteps` with a positive count returns false without issuing
any pulse and without changing the position. -/
theorem moveSteps_stop_before_first_pulse (env : Env) (count : Int) (direction : Bool)
    (s : State) (hc : 0 < count) (hstop : env.stop s.polls = true) :
    (moveSteps env count direction s).1 = false ∧
    (moveSteps env count direction s).2.pulses = s.pulses ∧
    (moveSteps env count direction s).2.currentPosition = s.currentPosition := by
  rw [moveSteps_eq]
  dsimp only
  generalize hs0 : setDirection direction { s with emergencyStopTriggered := false } = s0
  have hp0 : s0.pulses = s.pulses := by rw [← hs0]; rfl
  have hc0 : s0.currentPosition = s.currentPosition := by rw [← hs0]; rfl
  have hstop0 : env.stop s0.polls = true := by rw [← hs0]; exact hstop
  have first : ∀ (upd : Int → Int) (n : Nat) (d : Int),
      phaseLoop env upd direction (n + 1) d s0 = (false, d, (pollStop env s0).2) := by
    intro upd n d
    rw [phaseLoop_succ, if_pos (pollStop_stop env s0 hstop0)]
  rcases phaseSteps_pos count hc with ha | ⟨ha, hcr, hd⟩
  · obtain ⟨n, hn⟩ : ∃ n, (phaseSteps count).1.toNat = n + 1 :=
      ⟨(phaseSteps count).1.toNat - 1, by omega⟩
    rw [hn, first]
    simp [pollStop_pulses, pollStop_currentPosition, hp0, hc0]
  · obtain ⟨n, hn⟩ : ∃ n, (phaseSteps count).2.2.toNat = n + 1 :=
      ⟨(phaseSteps count).2.2.toNat - 1, by omega⟩
    rw [ha, hcr, hn]
    have zero : ∀ (upd : Int → Int) (d : Int) (u : State),
        phaseLoop env upd direction 0 d u = (true, d, u) := fun _ _ _ => rfl
    simp only [Int.toNat_zero, zero]
    rw [first]
    simp [pollStop_pulses, pollStop_currentPosition, hp0, hc0]

/-- Witness for `moveSteps_stop_before_first_pulse`: the flag is set at the
call and a request arrives before the first test. -/
theorem moveSteps_stop_before_first_pulse_witness :
    (moveSteps envStopping 500 CCW { State.init with emergencyStopTriggered := true }).1 = false ∧
    (moveSteps envStopping 500 CCW { State.init with emergencyStopTriggered := true }).2.pulses
      = [] ∧
    (moveSteps envStopping 500 CCW
      { State.init with emergencyStopTriggered := true }).2.currentPosition = 0 :=
  moveSteps_stop_before_first_pulse envStopping 500 CCW
    { State.init with emergencyStopTriggered := true } (by decide) rfl

/-- When `maxPos` is at least `2 * BACKOFF_STEPS`, the target computed by the
safety clamp lies between the two margins, and the step count computed with it
is the distance from the current position to that target. -/
theorem relativeTarget_within_margins (currentPos maxPos steps : Int)
    (hmax : 2 * (BACKOFF_STEPS : Int) ≤ maxPos) :
    (BACKOFF_STEPS : Int) ≤ (relativeTarget currentPos maxPos steps).1 ∧
    (relativeTarget currentPos maxPos steps).1 ≤ maxPos - (BACKOFF_STEPS : Int) ∧
    (relativeTarget currentPos maxPos steps).2 =
      (relativeTarget currentPos maxPos steps).1 - currentPos := by
  unfold relativeTarget
  simp only [BACKOFF_STEPS] at *
  split_ifs <;> simp <;> omega

end Single

namespace Dual

/-! ### Dual-limit variant: pulse primitives and search loops -/

theorem backOffLoop_eq_dual (direction : Bool) (n : Nat) (s : State) :
    backOffLoop direction n s =
      { s with
        currentPosition := s.currentPosition + n * (if direction then 1 else -1)
        pulses := List.replicate n { delay := MAX_STEP_DELAY, dir := direction } ++ s.pulses } := by
  induction n generalizing s with
  | zero => simp [backOffLoop]
  | succ n ih =>
    simp only [backOffLoop, ih, stepMotor, updatePosition]
    congr 1
    · push_cast; ring
    · simp [List.replicate_succ']

theorem backOffFromLimit_eq_dual (direction : Bool) (s : State) :
    backOffFromLimit direction s =
      { s with
        currentPosition := s.currentPosition + BACKOFF_STEPS * (if direction then 1 else -1)
        dirPin := direction
        pulses :=
          List.replicate BACKOFF_STEPS { delay := MAX_STEP_DELAY, dir := direction } ++ s.pulses } := by
  simp [backOffFromLimit, backOffLoop_eq_dual, setDirection]

/-- Unfolding of one iteration of a search loop. -/
theorem seekLoop_succ (env : Env) (direction : Bool) (tooFar : Int → Bool) (fuel : Nat)
    (s : State) :
    seekLoop env direction tooFar (fuel + 1) s =
      if env.limit s.reads = true then (true, { s with reads := s.reads + 1 })
      else if tooFar (stepMotor MAX_STEP_DELAY direction { s with reads := s.reads + 1 }).currentPosition
          = true then
        (false, stepMotor MAX_STEP_DELAY direction { s with reads := s.reads + 1 })
      else
        seekLoop env direction tooFar fuel
          (stepMotor MAX_STEP_DELAY direction { s with reads := s.reads + 1 }) := by
  simp only [seekLoop, readLimit]

/-- Shape of the state after a search loop: `k` pulses in the search
direction at the slowest speed, `r` samples of the switch, nothing else. -/
theorem seekLoop_shape (env : Env) (direction : Bool) (tooFar : Int → Bool) (fuel : Nat)
    (s : State) :
    ∃ k r, k ≤ fuel ∧ r ≤ k + 1 ∧
      (seekLoop env direction tooFar fuel s).2 =
        { s with
          currentPosition := s.currentPosition + k * (if direction then 1 else -1)
          pulses := List.replicate k { delay := MAX_STEP_DELAY, dir := direction } ++ s.pulses
          reads := s.reads + r } := by
  induction fuel generalizing s with
  | zero => exact ⟨0, 0, le_refl _, by omega, by simp [seekLoop]⟩
  | succ fuel ih =>
    rw [seekLoop_succ]
    by_cases h1 : env.limit s.reads = true
    · rw [if_pos h1]
      exact ⟨0, 1, by omega, by omega, by simp⟩
    · rw [if_neg h1]
      by_cases h2 : tooFar (stepMotor MAX_STEP_DELAY direction
          { s with reads := s.reads + 1 }).currentPosition = true
      · rw [if_pos h2]
        refine ⟨1, 1, by omega, by omega, ?_⟩
        simp [stepMotor, updatePosition]
      · rw [if_neg h2]
        obtain ⟨k, r, hk, hr, he⟩ :=
          ih (stepMotor MAX_STEP_DELAY direction { s with reads := s.reads + 1 })
        refine ⟨k + 1, r + 1, by omega, by omega, ?_⟩
        rw [he]
        simp only [stepMotor, updatePosition]
        congr 1
        · push_cast; ring
        · simp [List.replicate_succ']
        · omega

/-- When the switch never triggers a search loop does not find it. -/
theorem seekLoop_quiet (env : Env) (direction : Bool) (tooFar : Int → Bool) (fuel : Nat)
    (s : State) (h : ∀ n, env.limit n = false) :
    (seekLoop env direction tooFar fuel s).1 = false := by
  induction fuel generalizing s with
  | zero => rfl
  | succ fuel ih =>
    rw [seekLoop_succ]
    simp only [h, Bool.false_eq_true, if_false]
    split_ifs
    · rfl
    · exact ih _

/-- A CW search that reports "not found" has moved beyond the budget: the
iteration bound `seekMinFuel` is never what stops it. -/
theorem seekLoop_min_timeout (env : Env) (fuel : Nat) (s : State) (hf : seekMinFuel s ≤ fuel)
    (h : (seekLoop env false tooFarMin fuel s).1 = false) :
    tooFarMin (seekLoop env false tooFarMin fuel s).2.currentPosition = true := by
  induction fuel generalizing s with
  | zero => simp [seekMinFuel] at hf
  | succ fuel ih =>
    rw [seekLoop_succ] at h ⊢
    by_cases h1 : env.limit s.reads = true
    · rw [if_pos h1] at h
      cases h
    · rw [if_neg h1] at h ⊢
      by_cases h2 : tooFarMin (stepMotor MAX_STEP_DELAY false
          { s with reads := s.reads + 1 }).currentPosition = true
      · rw [if_pos h2]
        exact h2
      · rw [if_neg h2] at h ⊢
        apply ih _ _ h
        simp only [stepMotor, updatePosition, tooFarMin, labs, seekMinFuel] at h2 hf ⊢
        simp only [Bool.false_eq_true, if_false, decide_eq_true_eq] at h2 hf ⊢
        split_ifs at h2 <;> omega

/-- A CCW search that reports "not found" has moved beyond the budget. -/
theorem seekLoop_max_timeout (env : Env) (fuel : Nat) (s : State) (hf : seekMaxFuel s ≤ fuel)
    (h : (seekLoop env true tooFarMax fuel s).1 = false) :
    tooFarMax (seekLoop env true tooFarMax fuel s).2.currentPosition = true := by
  induction fuel generalizing s with
  | zero => simp [seekMaxFuel] at hf
  | succ fuel ih =>
    rw [seekLoop_succ] at h ⊢
    by_cases h1 : env.limit s.reads = true
    · rw [if_pos h1] at h
      cases h
    · rw [if_neg h1] at h ⊢
      by_cases h2 : tooFarMax (stepMotor MAX_STEP_DELAY true
          { s with reads := s.reads + 1 }).currentPosition = true
      · rw [if_pos h2]
        exact h2
      · rw [if_neg h2] at h ⊢
        apply ih _ _ h
        simp only [stepMotor, updatePosition, tooFarMax, seekMaxFuel] at h2 hf ⊢
        simp only [if_true, decide_eq_true_eq] at h2 hf ⊢
        omega

/-- Closed form of a search that meets the switch at its `k`-th sample. -/
theorem seekLoop_found (env : Env) (direction : Bool) (tooFar : Int → Bool) (k fuel : Nat)
    (s : State) (hfuel : k < fuel)
    (hquiet : ∀ i, i < k → env.limit (s.reads + i) = false)
    (hlow : env.limit (s.reads + k) = true)
    (hnear : ∀ i, i < k →
      tooFar (s.currentPosition + ((i : Int) + 1) * (if direction then 1 else -1)) = false) :
    seekLoop env direction tooFar fuel s =
      (true, { s with
        currentPosition := s.currentPosition + k * (if direction then 1 else -1)
        pulses := List.replicate k { delay := MAX_STEP_DELAY, dir := direction } ++ s.pulses
        reads := s.reads + k + 1 }) := by
  induction k generalizing s fuel with
  | zero =>
    obtain ⟨f, rfl⟩ : ∃ f, fuel = f + 1 := ⟨fuel - 1, by omega⟩
    rw [seekLoop_succ, if_pos (by simpa using hlow)]
    simp
  | succ k ih =>
    obtain ⟨f, rfl⟩ : ∃ f, fuel = f + 1 := ⟨fuel - 1, by omega⟩
    have h0 : env.limit s.reads = false := by simpa using hquiet 0 (by omega)
    have hn0 := hnear 0 (by omega)
    rw [seekLoop_succ, if_neg (by simp [h0]), if_neg (by simpa [stepMotor, updatePosition] using hn0)]
    rw [ih f (stepMotor MAX_STEP_DELAY direction { s with reads := s.reads + 1 }) (by omega)]
    · simp only [stepMotor, updatePosition]
      congr 2
      · push_cast; ring
      · simp [List.replicate_succ']
      · omega
    · intro i hi
      have := hquiet (i + 1) (by omega)
      simpa [stepMotor, updatePosition, add_assoc, add_comm 1 i] using this
    · simpa [stepMotor, updatePosition, add_assoc, add_comm 1 k] using hlow
    · intro i hi
      have := hnear (i + 1) (by omega)
      simp only [stepMotor, updatePosition]
      rw [← this]
      congr 1
      push_cast; ring

theorem advance_advance_dual (s : State) (n m : Nat) (direction : Bool) (p q : List Pulse) :
    (s.advance n direction p).advance m direction q = s.advance (n + m) direction (q ++ p) := by
  simp only [State.advance]
  congr 1
  · push_cast; ring
  · simp
  · omega
  · omega

theorem pollStop_quiet_dual (env : Env) (s : State) (hflag : s.emergencyStopTriggered = false)
    (h : env.stop s.polls = false) :
    pollStop env s = (false, { s with polls := s.polls + 1 }) := by
  simp [pollStop, h, hflag]

theorem checkLimitSwitch_high_dual (env : Env) (direction : Bool) (s : State)
    (h : env.limit s.reads = false) :
    checkLimitSwitch env direction s = (false, { s with reads := s.reads + 1 }) := by
  simp [checkLimitSwitch, readLimit, h]

/-- Closed form of a phase loop during which the switch does not trigger and
no stop request arrives. -/
theorem phaseLoop_quiet_dual (env : Env) (upd : Int → Int) (direction : Bool) (n : Nat)
    (stepDelay : Int) (s : State) (hflag : s.emergencyStopTriggered = false)
    (hlimit : ∀ i, i < n → env.limit (s.reads + i) = false)
    (hstop : ∀ i, i < n → env.stop (s.polls + i) = false) :
    phaseLoop env upd direction n stepDelay s =
      (true, rampEnd upd n stepDelay, s.advance n direction (rampPulses upd direction n stepDelay))
      := by
  induction n generalizing stepDelay s with
  | zero => simp [phaseLoop, rampEnd, rampPulses, State.advance]
  | succ n ih =>
    have hl0 : env.limit s.reads = false := by simpa using hlimit 0 (by omega)
    have hs0 : env.stop s.polls = false := by simpa using hstop 0 (by omega)
    simp only [phaseLoop, pollStop_quiet_dual env s hflag hs0, Bool.false_eq_true, if_false]
    rw [checkLimitSwitch_high_dual env direction { s with polls := s.polls + 1 } hl0]
    simp only [Bool.false_eq_true, if_false]
    rw [ih]
    · simp only [stepMotor, updatePosition, rampEnd, rampPulses, State.advance]
      congr 3
      · push_cast; ring
      · simp
      · omega
      · omega
    · simp [stepMotor, updatePosition, hflag]
    · intro i hi
      have := hlimit (i + 1) (by omega)
      simpa [stepMotor, updatePosition, add_assoc, add_comm 1 i] using this
    · intro i hi
      have := hstop (i + 1) (by omega)
      simpa [stepMotor, updatePosition, add_assoc, add_comm 1 i] using this

/-- Unfolding of `moveSteps` into its three phase loops. -/
theorem moveSteps_eq_dual (env : Env) (stepsToMove : Int) (direction : Bool) (s : State) :
    moveSteps env stepsToMove direction s =
      let s0 := setDirection direction { s with emergencyStopTriggered := false }
      let r1 := phaseLoop env accelDelay direction (phaseSteps stepsToMove).1.toNat MAX_STEP_DELAY s0
      if r1.1 = false then (false, r1.2.2)
      else
        let r2 := phaseLoop env id direction (phaseSteps stepsToMove).2.1.toNat r1.2.1 r1.2.2
        if r2.1 = false then (false, r2.2.2)
        else
          let r3 := phaseLoop env decelDelay direction (phaseSteps stepsToMove).2.2.toNat r2.2.1 r2.2.2
          (r3.1, r3.2.2) := by
  simp only [moveSteps]
  cases h1 : (phaseLoop env accelDelay direction (phaseSteps stepsToMove).1.toNat MAX_STEP_DELAY
    (setDirection direction { s with emergencyStopTriggered := false })).1 <;> simp [h1]

/-- Closed form of a `moveSteps` during which the switch does not trigger and
no stop request arrives: it returns true after `scheduledPulses count` pulses. -/
theorem moveSteps_quiet_dual (env : Env) (count : Int) (direction : Bool) (s : State)
    (hlimit : ∀ i, i < scheduledPulses count → env.limit (s.reads + i) = false)
    (hstop : ∀ i, i < scheduledPulses count → env.stop (s.polls + i) = false) :
    moveSteps env count direction s =
      (true, (setDirection direction { s with emergencyStopTriggered := false }).advance
        (scheduledPulses count) direction (movePulses count direction)) := by
  rw [moveSteps_eq_dual]
  unfold scheduledPulses at hlimit hstop ⊢
  unfold movePulses
  generalize (phaseSteps count).1.toNat = a at hlimit hstop ⊢
  generalize (phaseSteps count).2.1.toNat = c at hlimit hstop ⊢
  generalize (phaseSteps count).2.2.toNat = d at hlimit hstop ⊢
  generalize hs0 : setDirection direction { s with emergencyStopTriggered := false } = s0
  have hr0 : s0.reads = s.reads := by rw [← hs0]; rfl
  have hp0 : s0.polls = s.polls := by rw [← hs0]; rfl
  have hf0 : s0.emergencyStopTriggered = false := by rw [← hs0]; rfl
  have e1 := phaseLoop_quiet_dual env accelDelay direction a MAX_STEP_DELAY s0 hf0
    (fun i hi => by rw [hr0]; exact hlimit i (by omega))
    (fun i hi => by rw [hp0]; exact hstop i (by omega))
  have e2 := phaseLoop_quiet_dual env id direction c (rampEnd accelDelay a MAX_STEP_DELAY)
    (s0.advance a direction (rampPulses accelDelay direction a MAX_STEP_DELAY)) hf0
    (fun i hi => by
      have := hlimit (a + i) (by omega)
      simpa [State.advance, hr0, add_assoc] using this)
    (fun i hi => by
      have := hstop (a + i) (by omega)
      simpa [State.advance, hp0, add_assoc] using this)
  have e3 := phaseLoop_quiet_dual env decelDelay direction d
    (rampEnd id c (rampEnd accelDelay a MAX_STEP_DELAY))
    ((s0.advance a direction (rampPulses accelDelay direction a MAX_STEP_DELAY)).advance c
      direction (rampPulses id direction c (rampEnd accelDelay a MAX_STEP_DELAY))) hf0
    (fun i hi => by
      have := hlimit (a + c + i) (by omega)
      simpa [State.advance, hr0, add_assoc] using this)
    (fun i hi => by
      have := hstop (a + c + i) (by omega)
      simpa [State.advance, hp0, add_assoc] using this)
  simp only [e1, e2, e3, Bool.true_eq_false, if_false]
  simp only [advance_advance_dual]

/-! ### Dual-limit variant: `runCalibration` -/

/-- Unfolding of `runCalibration` into its three stages. -/
theorem runCalibration_eq (env : Env) (s : State) :
    runCalibration env s =
      if (calSearchMin env s).1 = false then
        (CalExit.minTimeout, setCalibrationMode false (disableMotor (calSearchMin env s).2))
      else if (calSearchMax env (calSearchMin env s).2).1 = false then
        (CalExit.maxTimeout,
          setCalibrationMode false (disableMotor (calSearchMax env (calSearchMin env s).2).2))
      else
        calFinish env (calSearchMin env s).2.currentPosition
          (calSearchMax env (calSearchMin env s).2).2.currentPosition
          (calSearchMax env (calSearchMin env s).2).2 := by
  simp only [runCalibration]
  cases h1 : (calSearchMin env s).1 <;> simp [h1]

/-- The CW search writes neither the EEPROM nor any limit field. -/
theorem calSearchMin_frame (env : Env) (s : State) :
    (calSearchMin env s).2.eeprom = s.eeprom ∧
    (calSearchMin env s).2.limitsInitialized = s.limitsInitialized ∧
    (calSearchMin env s).2.minPosition = s.minPosition ∧
    (calSearchMin env s).2.maxPosition = s.maxPosition := by
  unfold calSearchMin
  dsimp only
  obtain ⟨k, r, _, _, he⟩ := seekLoop_shape env false tooFarMin
    (seekMinFuel (setDirection false (enableMotor (setCurrentPosition 0 (setCalibrationMode true s)))))
    (setDirection false (enableMotor (setCurrentPosition 0 (setCalibrationMode true s))))
  rw [he]
  exact ⟨rfl, rfl, rfl, rfl⟩

/-- The backoff and the CCW search write neither the EEPROM nor any limit field. -/
theorem calSearchMax_frame (env : Env) (s : State) :
    (calSearchMax env s).2.eeprom = s.eeprom ∧
    (calSearchMax env s).2.limitsInitialized = s.limitsInitialized ∧
    (calSearchMax env s).2.minPosition = s.minPosition ∧
    (calSearchMax env s).2.maxPosition = s.maxPosition := by
  unfold calSearchMax
  dsimp only
  obtain ⟨k, r, _, _, he⟩ := seekLoop_shape env true tooFarMax
    (seekMaxFuel (setDirection true (backOffFromLimit (!false) s)))
    (setDirection true (backOffFromLimit (!false) s))
  rw [he, backOffFromLimit_eq_dual]
  exact ⟨rfl, rfl, rfl, rfl⟩

theorem calFinish_exit (env : Env) (minPos maxPos : Int) (s : State) :
    (calFinish env minPos maxPos s).1 ≠ CalExit.minTimeout ∧
    (calFinish env minPos maxPos s).1 ≠ CalExit.maxTimeout := by
  unfold calFinish
  dsimp only
  split_ifs <;> simp

/-- C7. If either search of `runCalibration` gives up (exit "Moved too far
without finding limit"), the position has really passed the budget of 50000
steps, nothing was written to the EEPROM and `limitsInitialized` is what it
was before the call. -/
theorem runCalibration_timeout_persists_nothing (env : Env) (s : State)
    (h : (runCalibration env s).1 = CalExit.minTimeout ∨
      (runCalibration env s).1 = CalExit.maxTimeout) :
    (runCalibration env s).2.eeprom = s.eeprom ∧
    (runCalibration env s).2.limitsInitialized = s.limitsInitialized ∧
    ((runCalibration env s).1 = CalExit.minTimeout →
      50000 < labs (runCalibration env s).2.currentPosition) ∧
    ((runCalibration env s).1 = CalExit.maxTimeout →
      50000 < (runCalibration env s).2.currentPosition) := by
  rw [runCalibration_eq] at h ⊢
  obtain ⟨m1, m2, _, _⟩ := calSearchMin_frame env s
  obtain ⟨x1, x2, _, _⟩ := calSearchMax_frame env (calSearchMin env s).2
  by_cases h1 : (calSearchMin env s).1 = false
  · rw [if_pos h1]
    refine ⟨m1, m2, fun _ => ?_, fun hx => (by cases hx)⟩
    have := seekLoop_min_timeout env _ _ (le_refl _) h1
    simpa [tooFarMin] using this
  · rw [if_neg h1] at h ⊢
    by_cases h2 : (calSearchMax env (calSearchMin env s).2).1 = false
    · rw [if_pos h2]
      refine ⟨x1.trans m1, x2.trans m2, fun hx => (by cases hx), fun _ => ?_⟩
      have := seekLoop_max_timeout env _ _ (le_refl _) h2
      simpa [tooFarMax] using this
    · rw [if_neg h2] at h
      have := calFinish_exit env (calSearchMin env s).2.currentPosition
        (calSearchMax env (calSearchMin env s).2).2.currentPosition
        (calSearchMax env (calSearchMin env s).2).2
      rcases h with h | h
      · exact absurd h this.1
      · exact absurd h this.2

/-- When the switch never triggers, `runCalibration` leaves by the timeout of
the CW search. -/
theorem runCalibration_quiet (env : Env) (s : State) (h : ∀ n, env.limit n = false) :
    (runCalibration env s).1 = CalExit.minTimeout := by
  have hmin : (calSearchMin env s).1 = false := seekLoop_quiet env false tooFarMin _ _ h
  rw [runCalibration_eq, if_pos hmin]

/-- Witness for `runCalibration_timeout_persists_nothing`: calibration from
power-up with an erased EEPROM and a switch that never triggers. -/
theorem runCalibration_timeout_persists_nothing_witness :
    (runCalibration Env.quiet (State.init fun _ => 255)).1 = CalExit.minTimeout ∧
    (runCalibration Env.quiet (State.init fun _ => 255)).2.eeprom = (fun _ => 255) ∧
    (runCalibration Env.quiet (State.init fun _ => 255)).2.limitsInitialized = false :=
  ⟨runCalibration_quiet Env.quiet _ (fun _ => rfl),
    (runCalibration_timeout_persists_nothing Env.quiet (State.init fun _ => 255)
      (Or.inl (runCalibration_quiet Env.quiet _ (fun _ => rfl)))).1,
    (runCalibration_timeout_persists_nothing Env.quiet (State.init fun _ => 255)
      (Or.inl (runCalibration_quiet Env.quiet _ (fun _ => rfl)))).2.1⟩

/-- `runCalibration` when the CW search meets the switch at its sample number
`ka`, the CCW search at its sample number `kb`, and the final move is not
disturbed: both searches succeed, the run completes, the limit fields are what
they were before the call, and the position has moved from `kb - ka` by the
pulses scheduled for the final move. -/
theorem runCalibration_undisturbed (env : Env) (s : State) (ka kb : Nat)
    (hka : ka ≤ 50000) (hkb : (BACKOFF_STEPS : Int) + kb ≤ 50000 + ka)
    (hq1 : ∀ i, i < ka → env.limit (s.reads + i) = false)
    (hl1 : env.limit (s.reads + ka) = true)
    (hq2 : ∀ i, i < kb → env.limit (s.reads + ka + 1 + i) = false)
    (hl2 : env.limit (s.reads + ka + 1 + kb) = true)
    (hq3 : ∀ i, i < scheduledPulses (labs (s.minPosition + BACKOFF_STEPS - ((kb : Int) - ka))) →
      env.limit (s.reads + ka + 1 + kb + 1 + i) = false)
    (hs3 : ∀ i, i < scheduledPulses (labs (s.minPosition + BACKOFF_STEPS - ((kb : Int) - ka))) →
      env.stop (s.polls + i) = false) :
    (calSearchMin env s).1 = true ∧
    (calSearchMin env s).2.currentPosition = -(ka : Int) ∧
    (calSearchMax env (calSearchMin env s).2).1 = true ∧
    (calSearchMax env (calSearchMin env s).2).2.currentPosition =
      -(ka : Int) + BACKOFF_STEPS + kb ∧
    (runCalibration env s).1 = CalExit.complete true ∧
    (runCalibration env s).2.minPosition = s.minPosition ∧
    (runCalibration env s).2.maxPosition = s.maxPosition ∧
    (runCalibration env s).2.limitsInitialized = true ∧
    (runCalibration env s).2.currentPosition =
      (kb : Int) - ka +
        scheduledPulses (labs (s.minPosition + BACKOFF_STEPS - ((kb : Int) - ka))) *
          (if s.minPosition + BACKOFF_STEPS - ((kb : Int) - ka) > 0 then 1 else -1) := by
  -- the CW search
  have e1 : calSearchMin env s = (true,
      { s with
        calibrationMode := true
        currentPosition := -(ka : Int)
        enaLog := true :: s.enaLog
        dirPin := false
        pulses := List.replicate ka { delay := MAX_STEP_DELAY, dir := false } ++ s.pulses
        reads := s.reads + ka + 1 }) := by
    have key := seekLoop_found env false tooFarMin ka
      (seekMinFuel (setDirection false (enableMotor (setCurrentPosition 0
        (setCalibrationMode true s)))))
      (setDirection false (enableMotor (setCurrentPosition 0 (setCalibrationMode true s))))
      (by
        simp only [seekMinFuel, setDirection, enableMotor, setCurrentPosition, setCalibrationMode]
        omega)
      hq1 hl1
      (by
        intro i hi
        simp only [setDirection, enableMotor, setCurrentPosition, setCalibrationMode, tooFarMin,
          labs, Bool.false_eq_true, if_false, decide_eq_false_iff_not]
        split_ifs <;> omega)
    unfold calSearchMin
    dsimp only
    rw [key]
    simp [setDirection, enableMotor, setCurrentPosition, setCalibrationMode]
  -- the backoff and the CCW search
  have e2 : calSearchMax env (calSearchMin env s).2 = (true,
      { s with
        calibrationMode := true
        currentPosition := -(ka : Int) + BACKOFF_STEPS + kb
        enaLog := true :: s.enaLog
        dirPin := true
        pulses := List.replicate kb { delay := MAX_STEP_DELAY, dir := true } ++
          (List.replicate BACKOFF_STEPS { delay := MAX_STEP_DELAY, dir := true } ++
            (List.replicate ka { delay := MAX_STEP_DELAY, dir := false } ++ s.pulses))
        reads := s.reads + ka + 1 + kb + 1 }) := by
    rw [e1]
    unfold calSearchMax
    dsimp only
    rw [backOffFromLimit_eq_dual]
    simp only [setDirection, Bool.not_false, if_true, mul_one]
    generalize hX : State.mk (-(ka : Int) + BACKOFF_STEPS) _ _ _ _ _ _ _ _ _ _ _ = X
    have hXc : X.currentPosition = -(ka : Int) + BACKOFF_STEPS := by rw [← hX]
    have hXr : X.reads = s.reads + ka + 1 := by rw [← hX]
    have key := seekLoop_found env true tooFarMax kb (seekMaxFuel X) X
      (by
        simp only [seekMaxFuel, hXc]
        simp only [BACKOFF_STEPS] at hkb ⊢
        omega)
      (by rw [hXr]; exact hq2)
      (by rw [hXr]; exact hl2)
      (by
        intro i hi
        simp only [tooFarMax, hXc, if_true, mul_one, decide_eq_false_iff_not]
        simp only [BACKOFF_STEPS] at hkb ⊢
        omega)
    rw [key, ← hX]
    simp only [if_true, mul_one, List.append_assoc]
  refine ⟨by rw [e1], by rw [e1], by rw [e2], by rw [e2], ?_⟩
  rw [runCalibration_eq, e2, e1]
  simp only [Bool.true_eq_false, if_false]
  unfold calFinish
  dsimp only
  rw [backOffFromLimit_eq_dual]
  have hrange : ¬ ((-(ka : Int) + BACKOFF_STEPS + kb) - (-(ka : Int)) ≤ 0) := by
    simp only [BACKOFF_STEPS]; omega
  rw [if_neg hrange]
  simp only [saveAxisLimits, setLimitsInitialized, Bool.not_true, Bool.false_eq_true, if_false]
  have hsteps : s.minPosition + (BACKOFF_STEPS : Int) -
      (-(ka : Int) + BACKOFF_STEPS + kb + (BACKOFF_STEPS : Int) * -1) =
      s.minPosition + BACKOFF_STEPS - ((kb : Int) - ka) := by ring
  rw [hsteps]
  generalize hd : s.minPosition + (BACKOFF_STEPS : Int) - ((kb : Int) - ka) = sth at hq3 hs3 ⊢
  by_cases h0 : sth = 0
  · subst h0
    have hz : scheduledPulses (labs 0) = 0 := by decide
    simp only [hz, bne_self_eq_false, Bool.false_eq_true, if_false, disableMotor,
      setCalibrationMode]
    refine ⟨trivial, trivial, trivial, trivial, ?_⟩
    push_cast
    ring
  · have hne : (sth != 0) = true := by simpa using h0
    rw [if_pos hne]
    generalize hY : State.mk _ _ _ true _ _ _ _ _ _ _ _ = Y
    have hYc : Y.currentPosition = (kb : Int) - ka := by rw [← hY]; ring
    have hYm : Y.minPosition = s.minPosition := by rw [← hY]
    have hYx : Y.maxPosition = s.maxPosition := by rw [← hY]
    have hYi : Y.limitsInitialized = true := by rw [← hY]
    have hYr : Y.reads = s.reads + ka + 1 + kb + 1 := by rw [← hY]
    have hYp : Y.polls = s.polls := by rw [← hY]
    rw [moveSteps_quiet_dual env (labs sth) (decide (sth > 0)) Y (by rw [hYr]; exact hq3)
      (by rw [hYp]; exact hs3)]
    simp only [disableMotor, setCalibrationMode, setDirection, State.advance, hYc, hYm, hYx, hYi]
    refine ⟨trivial, trivial, trivial, trivial, ?_⟩
    by_cases hpos : sth > 0
    · simp [hpos]
    · simp [hpos]

/-! ### Dual-limit variant: claims C4, C5, C6, C8 at their failing inputs -/

/-- C4, at the failing input (scenario 3 of the spec). The CW search finds the
switch at -1000 and the CCW search at 9000, the run completes with an
uninterrupted final move, and `minPosition` and `maxPosition` are still 0: the
searches step with `stepMotor` and never call the handler that records them. -/
theorem runCalibration_scenario3_records_no_limit :
    (calSearchMin scenario3 powerUp).1 = true ∧
    (calSearchMin scenario3 powerUp).2.currentPosition = -1000 ∧
    (calSearchMax scenario3 (calSearchMin scenario3 powerUp).2).1 = true ∧
    (calSearchMax scenario3 (calSearchMin scenario3 powerUp).2).2.currentPosition = 9000 ∧
    (runCalibration scenario3 powerUp).1 = CalExit.complete true ∧
    (runCalibration scenario3 powerUp).2.minPosition = 0 ∧
    (runCalibration scenario3 powerUp).2.maxPosition = 0 := by
  have hp : scheduledPulses (labs (powerUp.minPosition + BACKOFF_STEPS -
      (((8400 : Nat) : Int) - ((1000 : Nat) : Int)))) = 5800 := by decide
  obtain ⟨h1, h2, h3, h4, h5, h6, h7, _, _⟩ :=
    runCalibration_undisturbed scenario3 powerUp 1000 8400 (by norm_num)
      (by norm_num [BACKOFF_STEPS])
      (by intro i hi; simp [scenario3, powerUp, State.init]; omega)
      rfl
      (by intro i hi; simp [scenario3, powerUp, State.init]; omega)
      rfl
      (by rw [hp]; intro i hi; simp [scenario3, powerUp, State.init]; omega)
      (by intro i _; rfl)
  exact ⟨h1, h2, h3, by rw [h4]; decide, h5, h6.trans rfl, h7.trans rfl⟩

/-- C5, at the failing input (scenario 3 of the spec, first calibration after
power-up). The measured range is 10000 > 0, the run completes with an
uninterrupted final move and `limitsInitialized` is true, but
`minPosition = maxPosition = 0`, so `minPosition < maxPosition` fails. -/
theorem runCalibration_initialized_with_equal_limits :
    powerUp.limitsInitialized = false ∧
    (runCalibration scenario3 powerUp).1 = CalExit.complete true ∧
    (runCalibration scenario3 powerUp).2.limitsInitialized = true ∧
    ¬ ((runCalibration scenario3 powerUp).2.minPosition <
        (runCalibration scenario3 powerUp).2.maxPosition) := by
  have hp : scheduledPulses (labs (powerUp.minPosition + BACKOFF_STEPS -
      (((8400 : Nat) : Int) - ((1000 : Nat) : Int)))) = 5800 := by decide
  obtain ⟨_, _, _, _, h5, h6, h7, h8, _⟩ :=
    runCalibration_undisturbed scenario3 powerUp 1000 8400 (by norm_num)
      (by norm_num [BACKOFF_STEPS])
      (by intro i hi; simp [scenario3, powerUp, State.init]; omega)
      rfl
      (by intro i hi; simp [scenario3, powerUp, State.init]; omega)
      rfl
      (by rw [hp]; intro i hi; simp [scenario3, powerUp, State.init]; omega)
      (by intro i _; rfl)
  refine ⟨rfl, h5, h8, ?_⟩
  rw [h6, h7]
  decide

/-- C6, at the failing input. First calibration after power-up with the far
switch met at position 3180: the run completes, the final move of 20 steps is
not interrupted, and the position is 1610, not `minPosition + BACKOFF_STEPS`
= 1600, because `moveSteps(20)` issues 30 pulses. -/
theorem runCalibration_final_move_overshoots :
    (runCalibration farSwitchAt3180 powerUp).1 = CalExit.complete true ∧
    (runCalibration farSwitchAt3180 powerUp).2.minPosition = 0 ∧
    (runCalibration farSwitchAt3180 powerUp).2.currentPosition = 1610 ∧
    (runCalibration farSwitchAt3180 powerUp).2.currentPosition ≠
      (runCalibration farSwitchAt3180 powerUp).2.minPosition + BACKOFF_STEPS := by
  have hp : scheduledPulses (labs (powerUp.minPosition + BACKOFF_STEPS -
      (((1580 : Nat) : Int) - ((0 : Nat) : Int)))) = 30 := by decide
  obtain ⟨_, _, _, _, h5, h6, _, _, h9⟩ :=
    runCalibration_undisturbed farSwitchAt3180 powerUp 0 1580 (by norm_num)
      (by norm_num [BACKOFF_STEPS])
      (by intro i hi; omega)
      rfl
      (by intro i hi; simp [farSwitchAt3180, powerUp, State.init]; omega)
      rfl
      (by rw [hp]; intro i hi; simp [farSwitchAt3180, powerUp, State.init]; omega)
      (by intro i _; rfl)
  rw [hp] at h9
  have hc : (runCalibration farSwitchAt3180 powerUp).2.currentPosition = 1610 := by
    rw [h9]; decide
  refine ⟨h5, h6.trans rfl, hc, ?_⟩
  rw [hc, h6]
  decide

/-- C8, at the failing input. First calibration after power-up in which the
switch triggers again at the first sample of the final move: the run ends with
`limitsInitialized = true`, `minPosition = 0` and `maxPosition = -1`. -/
theorem runCalibration_breaks_limit_order :
    powerUp.currentPosition = 0 ∧ powerUp.limitsInitialized = false ∧
    powerUp.calibrationMode = false ∧
    (runCalibration trippedInFinalMove powerUp).1 = CalExit.complete false ∧
    (runCalibration trippedInFinalMove powerUp).2.limitsInitialized = true ∧
    (runCalibration trippedInFinalMove powerUp).2.minPosition = 0 ∧
    (runCalibration trippedInFinalMove powerUp).2.maxPosition = -1 ∧
    ¬ ((runCalibration trippedInFinalMove powerUp).2.minPosition ≤
        (runCalibration trippedInFinalMove powerUp).2.maxPosition) := by
  decide!

end Dual

namespace Single

/-! ### Single-limit variant: the search loops of `runHoming` -/

/-- The raw pulse and position update of a homing search loop is what
`stepMotor(MAX_STEP_DELAY, direction)` does. -/
theorem rawPulse_eq_stepMotor (direction : Bool) (s : State) :
    updatePosition (if direction == CCW then 1 else -1)
        { s with pulses := { delay := MAX_STEP_DELAY, dir := direction } :: s.pulses } =
      stepMotor MAX_STEP_DELAY direction s := by
  cases direction <;> rfl

/-- Unfolding of one iteration of a homing search loop. -/
theorem homingSeek_succ (env : Env) (direction : Bool) (fuel : Nat) (counter : Int) (s : State) :
    homingSeek env direction (fuel + 1) counter s =
      if env.limit s.reads = true then (SeekExit.found, { s with reads := s.reads + 1 })
      else if (pollStop env { s with reads := s.reads + 1 }).1 = true then
        (SeekExit.stopped, (pollStop env { s with reads := s.reads + 1 }).2)
      else if counter + 1 > HOMING_TIMEOUT then
        (SeekExit.timeout,
          stepMotor MAX_STEP_DELAY direction (pollStop env { s with reads := s.reads + 1 }).2)
      else
        homingSeek env direction fuel (counter + 1)
          (stepMotor MAX_STEP_DELAY direction (pollStop env { s with reads := s.reads + 1 }).2) := by
  simp only [homingSeek, readLimit, rawPulse_eq_stepMotor]

theorem pollStop_maxPosition (env : Env) (s : State) :
    (pollStop env s).2.maxPosition = s.maxPosition := by
  unfold pollStop
  split_ifs <;> simp [emergencyStop, disableMotor]

/-- Shape of the state after a homing search loop that starts with the counter
at `counter`: `k` pulses in the search direction at the slowest delay, the
position moved by them, `maxPosition` untouched; the counter ends at
`counter + k`, at most `HOMING_TIMEOUT + 1`, and a timeout exit means it is
exactly `HOMING_TIMEOUT + 1` unless the iteration bound `fuel` was too small. -/
theorem homingSeek_shape (env : Env) (direction : Bool) (fuel : Nat) (counter : Int) (s : State)
    (hc : counter ≤ HOMING_TIMEOUT) :
    ∃ k : Nat,
      (homingSeek env direction fuel counter s).2.pulses =
        List.replicate k { delay := MAX_STEP_DELAY, dir := direction } ++ s.pulses ∧
      (homingSeek env direction fuel counter s).2.currentPosition =
        s.currentPosition + k * (if direction then 1 else -1) ∧
      (homingSeek env direction fuel counter s).2.maxPosition = s.maxPosition ∧
      counter + k ≤ HOMING_TIMEOUT + 1 ∧
      ((homingSeek env direction fuel counter s).1 = SeekExit.timeout →
        (HOMING_TIMEOUT + 1 - counter).toNat ≤ fuel → counter + k = HOMING_TIMEOUT + 1) := by
  induction fuel generalizing counter s with
  | zero =>
    refine ⟨0, by simp [homingSeek], by simp [homingSeek], rfl, by simp; omega, ?_⟩
    intro _ hf
    simp only [HOMING_TIMEOUT] at hc hf ⊢
    omega
  | succ fuel ih =>
    rw [homingSeek_succ]
    by_cases h1 : env.limit s.reads = true
    · rw [if_pos h1]
      exact ⟨0, by simp, by simp, rfl, by simp; omega, fun h => by cases h⟩
    · rw [if_neg h1]
      by_cases h2 : (pollStop env { s with reads := s.reads + 1 }).1 = true
      · rw [if_pos h2]
        exact ⟨0, by simp [pollStop_pulses], by simp [pollStop_currentPosition],
          by simp [pollStop_maxPosition], by simp; omega, fun h => by cases h⟩
      · rw [if_neg h2]
        by_cases h3 : counter + 1 > HOMING_TIMEOUT
        · rw [if_pos h3]
          refine ⟨1, by simp [stepMotor, updatePosition, pollStop_pulses],
            by simp [stepMotor, updatePosition, pollStop_currentPosition],
            by simp [stepMotor, updatePosition, pollStop_maxPosition], by simp; omega, ?_⟩
          intro _ _
          push_cast
          omega
        · rw [if_neg h3]
          obtain ⟨k, hp, hcur, hmax, hb, ht⟩ := ih (counter + 1)
            (stepMotor MAX_STEP_DELAY direction (pollStop env { s with reads := s.reads + 1 }).2)
            (by omega)
          refine ⟨k + 1, ?_, ?_, ?_, by push_cast; omega, ?_⟩
          · rw [hp]
            simp [stepMotor, updatePosition, pollStop_pulses, List.replicate_succ']
          · rw [hcur]
            simp only [stepMotor, updatePosition, pollStop_currentPosition]
            push_cast
            ring
          · rw [hmax]
            simp [stepMotor, updatePosition, pollStop_maxPosition]
          · intro hx hf
            have := ht hx (by simp only [HOMING_TIMEOUT] at hc h3 hf ⊢; omega)
            push_cast
            omega

end Single

namespace Single

/-- Closed form of a homing search that meets the switch at its `k`-th sample,
with no stop request before. -/
theorem homingSeek_found (env : Env) (direction : Bool) (k fuel : Nat) (counter : Int)
    (s : State) (hfuel : k < fuel) (hflag : s.emergencyStopTriggered = false)
    (hquiet : ∀ i, i < k → env.limit (s.reads + i) = false)
    (hstop : ∀ i, i < k → env.stop (s.polls + i) = false)
    (hlow : env.limit (s.reads + k) = true)
    (hc : counter + k ≤ HOMING_TIMEOUT) :
    homingSeek env direction fuel counter s =
      (SeekExit.found,
        { s.advance k direction (List.replicate k { delay := MAX_STEP_DELAY, dir := direction })
          with reads := s.reads + k + 1 }) := by
  induction k generalizing s fuel counter with
  | zero =>
    obtain ⟨f, rfl⟩ : ∃ f, fuel = f + 1 := ⟨fuel - 1, by omega⟩
    rw [homingSeek_succ, if_pos (by simpa using hlow)]
    simp [State.advance]
  | succ k ih =>
    obtain ⟨f, rfl⟩ : ∃ f, fuel = f + 1 := ⟨fuel - 1, by omega⟩
    have h0 : env.limit s.reads = false := by simpa using hquiet 0 (by omega)
    have hs0 : env.stop s.polls = false := by simpa using hstop 0 (by omega)
    rw [homingSeek_succ, if_neg (by simp [h0]),
      pollStop_quiet env { s with reads := s.reads + 1 } hflag hs0]
    simp only [Bool.false_eq_true, if_false]
    rw [if_neg (by push_cast at hc; omega)]
    rw [ih f (counter + 1) _ (by omega) (by simp [stepMotor, updatePosition, hflag])]
    · simp only [stepMotor, updatePosition, State.advance]
      congr 2
      · push_cast; ring
      · simp [List.replicate_succ']
      · omega
      · omega
    · intro i hi
      have := hquiet (i + 1) (by omega)
      simpa [stepMotor, updatePosition, add_assoc, add_comm 1 i] using this
    · intro i hi
      have := hstop (i + 1) (by omega)
      simpa [stepMotor, updatePosition, add_assoc, add_comm 1 i] using this
    · simpa [stepMotor, updatePosition, add_assoc, add_comm 1 k] using hlow
    · push_cast at hc ⊢; omega

/-- Closed form of a homing search during which the switch never triggers and
no stop request arrives: it gives up after the pulse that takes the counter to
`HOMING_TIMEOUT + 1`. -/
theorem homingSeek_giveup (env : Env) (direction : Bool) (n fuel : Nat) (counter : Int)
    (s : State) (hn : 0 < n) (hfuel : n ≤ fuel) (hflag : s.emergencyStopTriggered = false)
    (hquiet : ∀ i, i < n → env.limit (s.reads + i) = false)
    (hstop : ∀ i, i < n → env.stop (s.polls + i) = false)
    (hc : counter + n = HOMING_TIMEOUT + 1) :
    homingSeek env direction fuel counter s =
      (SeekExit.timeout,
        s.advance n direction (List.replicate n { delay := MAX_STEP_DELAY, dir := direction })) := by
  induction n generalizing s fuel counter with
  | zero => omega
  | succ n ih =>
    obtain ⟨f, rfl⟩ : ∃ f, fuel = f + 1 := ⟨fuel - 1, by omega⟩
    have h0 : env.limit s.reads = false := by simpa using hquiet 0 (by omega)
    have hs0 : env.stop s.polls = false := by simpa using hstop 0 (by omega)
    rw [homingSeek_succ, if_neg (by simp [h0]),
      pollStop_quiet env { s with reads := s.reads + 1 } hflag hs0]
    simp only [Bool.false_eq_true, if_false]
    by_cases hz : n = 0
    · subst hz
      rw [if_pos (by push_cast at hc; omega)]
      simp [stepMotor, updatePosition, State.advance]
    · rw [if_neg (by push_cast at hc; omega)]
      rw [ih f (counter + 1) _ (by omega) (by omega) (by simp [stepMotor, updatePosition, hflag])]
      · simp only [stepMotor, updatePosition, State.advance]
        congr 2
        · push_cast; ring
        · simp [List.replicate_succ']
        · omega
        · omega
      · intro i hi
        have := hquiet (i + 1) (by omega)
        simpa [stepMotor, updatePosition, add_assoc, add_comm 1 i] using this
      · intro i hi
        have := hstop (i + 1) (by omega)
        simpa [stepMotor, updatePosition, add_assoc, add_comm 1 i] using this
      · push_cast at hc ⊢; omega

end Single

namespace Single

/-! ### Single-limit variant: `runHoming` -/

/-- Unfolding of `runHoming` along the exits of its two searches. -/
theorem runHoming_eq (env : Env) (s : State) :
    runHoming env s =
      match (homingSearchHome env s).1 with
      | SeekExit.stopped => (HomingExit.homeStopped, disableMotor (homingSearchHome env s).2)
      | SeekExit.timeout => (HomingExit.homeTimeout, disableMotor (homingSearchHome env s).2)
      | SeekExit.found =>
        match (homingSearchFar env (homingSearchHome env s).2).1 with
        | SeekExit.stopped =>
          (HomingExit.farStopped, disableMotor (homingSearchFar env (homingSearchHome env s).2).2)
        | SeekExit.timeout =>
          (HomingExit.farTimeout, disableMotor (homingSearchFar env (homingSearchHome env s).2).2)
        | SeekExit.found =>
          (HomingExit.complete
              (homingFinish env (homingSearchFar env (homingSearchHome env s).2).2).1,
            (homingFinish env (homingSearchFar env (homingSearchHome env s).2).2).2) := by
  unfold runHoming
  rcases h1 : homingSearchHome env s with ⟨e1, t1⟩
  cases e1 <;> simp only []
  rcases h2 : homingSearchFar env t1 with ⟨e2, t2⟩
  cases e2 <;> simp only []

/-- Closed form of the home search of `runHoming` when the switch is met at the
`ka`-th sample and no stop request arrives before. -/
theorem homingSearchHome_found (env : Env) (s : State) (ka : Nat)
    (hka : (ka : Int) ≤ HOMING_TIMEOUT)
    (hq : ∀ i, i < ka → env.limit (s.reads + i) = false)
    (hs : ∀ i, i < ka → env.stop (s.polls + i) = false)
    (hl : env.limit (s.reads + ka) = true) :
    homingSearchHome env s = (SeekExit.found,
      { currentPosition := s.currentPosition - ka
        maxPosition := s.maxPosition
        emergencyStopTriggered := false
        dirPin := false
        enaLog := true :: s.enaLog
        pulses := List.replicate ka { delay := MAX_STEP_DELAY, dir := false } ++ s.pulses
        reads := s.reads + ka + 1
        polls := s.polls + ka }) := by
  unfold homingSearchHome
  dsimp only
  have key := homingSeek_found env HOME_DIRECTION ka homingFuel 0
    (setDirection HOME_DIRECTION { enableMotor s with emergencyStopTriggered := false })
    (by simp only [homingFuel, HOMING_TIMEOUT] at hka ⊢; omega) rfl hq hs hl (by omega)
  rw [key]
  simp only [State.advance, setDirection, enableMotor, HOME_DIRECTION, CW, Bool.false_eq_true,
    if_false]
  congr 2
  ring

/-- Closed form of the zeroing, the backoff and the far search of `runHoming`
when the far switch is met at the `kb`-th sample of the search and no stop
request arrives before. -/
theorem homingSearchFar_found (env : Env) (h : State) (kb : Nat)
    (hflag : h.emergencyStopTriggered = false)
    (hkb : (kb : Int) ≤ HOMING_TIMEOUT)
    (hq : ∀ i, i < kb → env.limit (h.reads + i) = false)
    (hs : ∀ i, i < kb → env.stop (h.polls + i) = false)
    (hl : env.limit (h.reads + kb) = true) :
    homingSearchFar env h = (SeekExit.found,
      { currentPosition := BACKOFF_STEPS + kb
        maxPosition := h.maxPosition
        emergencyStopTriggered := false
        dirPin := true
        enaLog := h.enaLog
        pulses := List.replicate kb { delay := MAX_STEP_DELAY, dir := true } ++
          (List.replicate BACKOFF_STEPS { delay := MAX_STEP_DELAY, dir := true } ++ h.pulses)
        reads := h.reads + kb + 1
        polls := h.polls + kb }) := by
  unfold homingSearchFar homingBackOffHome homingZero
  dsimp only
  rw [backOffFromLimit_eq]
  simp only [setDirection, setCurrentPosition, HOME_DIRECTION, CW, Bool.not_false, if_true,
    mul_one, zero_add]
  have key := homingSeek_found env true kb homingFuel 0
    { currentPosition := BACKOFF_STEPS
      maxPosition := h.maxPosition
      emergencyStopTriggered := h.emergencyStopTriggered
      dirPin := true
      enaLog := h.enaLog
      pulses := List.replicate BACKOFF_STEPS { delay := MAX_STEP_DELAY, dir := true } ++ h.pulses
      reads := h.reads
      polls := h.polls }
    (by simp only [homingFuel, HOMING_TIMEOUT] at hkb ⊢; omega) hflag hq hs hl (by omega)
  rw [key]
  simp only [State.advance, if_true, mul_one, hflag]

/-- Closed form of the end of `runHoming` when the centring move is not
disturbed: the maximum is the position `f.currentPosition` where the far
switch was found, and the position has moved from the backed-off position by
the pulses scheduled for the centring move. -/
theorem homingFinish_quiet (env : Env) (f : State)
    (hq : ∀ i, i < scheduledPulses (labs (f.currentPosition.tdiv 2 -
        (f.currentPosition - BACKOFF_STEPS))) → env.limit (f.reads + i) = false)
    (hs : ∀ i, i < scheduledPulses (labs (f.currentPosition.tdiv 2 -
        (f.currentPosition - BACKOFF_STEPS))) → env.stop (f.polls + i) = false) :
    (homingFinish env f).1 = true ∧
    (homingFinish env f).2.maxPosition = f.currentPosition ∧
    (homingFinish env f).2.currentPosition =
      f.currentPosition - BACKOFF_STEPS +
        scheduledPulses (labs (f.currentPosition.tdiv 2 - (f.currentPosition - BACKOFF_STEPS))) *
          (if f.currentPosition.tdiv 2 - (f.currentPosition - BACKOFF_STEPS) > 0 then 1 else -1) ∧
    (homingFinish env f).2.enaLog = false :: f.enaLog := by
  unfold homingFinish homingRecordMax
  dsimp only
  rw [backOffFromLimit_eq]
  simp only [setMaxPosition, HOME_DIRECTION, CW, Bool.not_false, Bool.not_true,
    Bool.false_eq_true, if_false]
  have hsteps : f.currentPosition.tdiv 2 - (f.currentPosition + (BACKOFF_STEPS : Int) * -1) =
      f.currentPosition.tdiv 2 - (f.currentPosition - BACKOFF_STEPS) := by ring
  rw [hsteps]
  generalize f.currentPosition.tdiv 2 - (f.currentPosition - (BACKOFF_STEPS : Int)) = stc
    at hq hs ⊢
  by_cases h0 : stc = 0
  · subst h0
    have hz : scheduledPulses (labs 0) = 0 := by decide
    simp only [hz, bne_self_eq_false, Bool.false_eq_true, if_false, disableMotor]
    refine ⟨trivial, trivial, ?_, trivial⟩
    push_cast
    ring
  · have hne : (stc != 0) = true := by simpa using h0
    rw [if_pos hne]
    generalize hY : setDirection (decide (stc > 0)) _ = Y
    have hYc : Y.currentPosition = f.currentPosition - BACKOFF_STEPS := by rw [← hY]; simp [setDirection]; ring
    have hYm : Y.maxPosition = f.currentPosition := by rw [← hY]; rfl
    have hYe : Y.enaLog = f.enaLog := by rw [← hY]; rfl
    have hYr : Y.reads = f.reads := by rw [← hY]; rfl
    have hYp : Y.polls = f.polls := by rw [← hY]; rfl
    rw [moveSteps_quiet env (labs stc) (decide (stc > 0)) Y (by rw [hYr]; exact hq)
      (by rw [hYp]; exact hs)]
    simp only [disableMotor, setDirection, State.advance, hYc, hYm, hYe]
    refine ⟨trivial, trivial, ?_, trivial⟩
    by_cases hpos : stc > 0
    · simp [hpos]
    · simp [hpos]

end Single

namespace Single

/-- A phase loop that runs to its end leaves `maxPosition` untouched. -/
theorem phaseLoop_ok_maxPosition (env : Env) (upd : Int → Int) (direction : Bool) (n : Nat)
    (stepDelay : Int) (s : State)
    (h : (phaseLoop env upd direction n stepDelay s).1 = true) :
    (phaseLoop env upd direction n stepDelay s).2.2.maxPosition = s.maxPosition := by
  induction n generalizing stepDelay s with
  | zero => rfl
  | succ n ih =>
    rw [phaseLoop_succ] at h ⊢
    by_cases h1 : (pollStop env s).1 = true
    · rw [if_pos h1] at h
      cases h
    · rw [if_neg h1] at h ⊢
      by_cases h2 : (checkLimitSwitch env direction (pollStop env s).2).1 = true
      · rw [if_pos h2] at h
        cases h
      · rw [if_neg h2] at h ⊢
        rw [ih _ _ h]
        rw [checkLimitSwitch_fst] at h2
        rw [checkLimitSwitch_high env direction _ (by simpa using h2)]
        simp [stepMotor, updatePosition, pollStop_maxPosition]

/-- A `moveSteps` that returns true leaves `maxPosition` untouched. -/
theorem moveSteps_ok_maxPosition (env : Env) (count : Int) (direction : Bool) (s : State)
    (h : (moveSteps env count direction s).1 = true) :
    (moveSteps env count direction s).2.maxPosition = s.maxPosition := by
  rw [moveSteps_eq] at h ⊢
  dsimp only at h ⊢
  generalize hs0 : setDirection direction { s with emergencyStopTriggered := false } = s0 at h ⊢
  have h0 : s0.maxPosition = s.maxPosition := by rw [← hs0]; rfl
  have f1 := phaseLoop_ok_maxPosition env accelDelay direction (phaseSteps count).1.toNat
    MAX_STEP_DELAY s0
  generalize phaseLoop env accelDelay direction (phaseSteps count).1.toNat MAX_STEP_DELAY s0 = r1
    at f1 h ⊢
  have f2 := phaseLoop_ok_maxPosition env id direction (phaseSteps count).2.1.toNat r1.2.1 r1.2.2
  generalize phaseLoop env id direction (phaseSteps count).2.1.toNat r1.2.1 r1.2.2 = r2 at f2 h ⊢
  have f3 := phaseLoop_ok_maxPosition env decelDelay direction (phaseSteps count).2.2.toNat
    r2.2.1 r2.2.2
  generalize phaseLoop env decelDelay direction (phaseSteps count).2.2.toNat r2.2.1 r2.2.2 = r3
    at f3 h ⊢
  by_cases h1 : r1.1 = false
  · rw [if_pos h1] at h
    cases h
  · rw [if_neg h1] at h ⊢
    by_cases h2 : r2.1 = false
    · rw [if_pos h2] at h
      cases h
    · rw [if_neg h2] at h ⊢
      rw [f3 h, f2 (by simpa using h2), f1 (by simpa using h1), h0]

/-- `runHoming` when the home search meets the switch at its sample number
`ka`, the far search at its sample number `kb`, nobody asks to stop and the
centring move is not disturbed: both searches succeed, the run completes,
`maxPosition` is `BACKOFF_STEPS + kb`, and the position has moved from `kb`
by the pulses scheduled for the centring move. -/
theorem runHoming_undisturbed (env : Env) (s : State) (ka kb : Nat)
    (hka : (ka : Int) ≤ HOMING_TIMEOUT) (hkb : (kb : Int) ≤ HOMING_TIMEOUT)
    (hq1 : ∀ i, i < ka → env.limit (s.reads + i) = false)
    (hs1 : ∀ i, i < ka → env.stop (s.polls + i) = false)
    (hl1 : env.limit (s.reads + ka) = true)
    (hq2 : ∀ i, i < kb → env.limit (s.reads + ka + 1 + i) = false)
    (hs2 : ∀ i, i < kb → env.stop (s.polls + ka + i) = false)
    (hl2 : env.limit (s.reads + ka + 1 + kb) = true)
    (hq3 : ∀ i, i < scheduledPulses (labs (((BACKOFF_STEPS : Int) + kb).tdiv 2 - kb)) →
      env.limit (s.reads + ka + 1 + kb + 1 + i) = false)
    (hs3 : ∀ i, i < scheduledPulses (labs (((BACKOFF_STEPS : Int) + kb).tdiv 2 - kb)) →
      env.stop (s.polls + ka + kb + i) = false) :
    (homingSearchHome env s).1 = SeekExit.found ∧
    (homingSearchFar env (homingSearchHome env s).2).1 = SeekExit.found ∧
    (homingSearchFar env (homingSearchHome env s).2).2.currentPosition = BACKOFF_STEPS + kb ∧
    (runHoming env s).1 = HomingExit.complete true ∧
    (runHoming env s).2.maxPosition = BACKOFF_STEPS + kb ∧
    (runHoming env s).2.currentPosition =
      (kb : Int) + scheduledPulses (labs (((BACKOFF_STEPS : Int) + kb).tdiv 2 - kb)) *
        (if ((BACKOFF_STEPS : Int) + kb).tdiv 2 - kb > 0 then 1 else -1) ∧
    (runHoming env s).2.enaLog.head? = some false := by
  have e1 := homingSearchHome_found env s ka hka hq1 hs1 hl1
  generalize hH : homingSearchHome env s = H at e1 ⊢
  have hHf : H.2.emergencyStopTriggered = false := by rw [e1]
  have hHr : H.2.reads = s.reads + ka + 1 := by rw [e1]
  have hHp : H.2.polls = s.polls + ka := by rw [e1]
  have e2 := homingSearchFar_found env H.2 kb hHf hkb
    (by rw [hHr]; exact hq2) (by rw [hHp]; exact hs2) (by rw [hHr]; exact hl2)
  generalize hF : homingSearchFar env H.2 = F at e2 ⊢
  have hFc : F.2.currentPosition = BACKOFF_STEPS + kb := by rw [e2]
  have hFr : F.2.reads = s.reads + ka + 1 + kb + 1 := by rw [e2, hHr]
  have hFp : F.2.polls = s.polls + ka + kb := by rw [e2, hHp]
  have hstc : F.2.currentPosition.tdiv 2 - (F.2.currentPosition - BACKOFF_STEPS) =
      ((BACKOFF_STEPS : Int) + kb).tdiv 2 - kb := by rw [hFc]; ring
  have e3 := homingFinish_quiet env F.2
    (by rw [hstc, hFr]; exact hq3) (by rw [hstc, hFp]; exact hs3)
  rw [hstc, hFc] at e3
  obtain ⟨g1, g2, g3, g4⟩ := e3
  have hH1 : H.1 = SeekExit.found := by rw [e1]
  have hF1 : F.1 = SeekExit.found := by rw [e2]
  have hrun : runHoming env s = (HomingExit.complete (homingFinish env F.2).1,
      (homingFinish env F.2).2) := by
    rw [runHoming_eq, hH]
    simp only [hH1, hF, hF1]
  refine ⟨hH1, hF1, hFc, ?_, ?_, ?_, ?_⟩
  · rw [hrun, g1]
  · rw [hrun]; exact g2
  · rw [hrun, g3]; ring
  · rw [hrun, g4]; rfl

end Single

namespace Single

/-! ### Single-limit variant: claims C11 to C16 and C20 -/

/-- C11, at the failing input. From position 200000 with the default
`maxPosition`, the request `X20` is not clamped (the target 200020 is inside
both margins), the switch never triggers and nobody asks to stop, yet the
position ends at 200030: `moveSteps(20)` issues 30 pulses. -/
theorem processRelativeMove_twenty_moves_thirty :
    relativeTarget 200000 MAX_TRAVEL 20 = (200020, 20) ∧
    (BACKOFF_STEPS : Int) ≤ 200000 + 20 ∧ (200000 : Int) + 20 ≤ MAX_TRAVEL - BACKOFF_STEPS ∧
    (processRelativeMove Env.quiet 20 (stateAt 200000)).currentPosition = 200030 ∧
    (processRelativeMove Env.quiet 20 (stateAt 200000)).currentPosition ≠ 200000 + 20 := by
  decide!

/-- The step count left by the clamp of `processRelativeMove` is the distance
from the current position to the target. -/
theorem relativeTarget_steps (currentPos maxPos steps : Int) :
    (relativeTarget currentPos maxPos steps).2 =
      (relativeTarget currentPos maxPos steps).1 - currentPos := by
  unfold relativeTarget
  dsimp only
  split_ifs <;> simp

/-- C20. `checkLimitSwitch` of the single-limit variant in closed form. When
the sample reads "triggered" it returns true after `BACKOFF_STEPS` pulses at
`MAX_STEP_DELAY` in the opposite direction: moving CW the position ends at
`BACKOFF_STEPS` and `maxPosition` is unchanged; moving CCW `maxPosition` is the
position at the call and the position ends `BACKOFF_STEPS` below it. Otherwise
it returns false and only the sample counter has moved. -/
theorem checkLimitSwitch_eq (env : Env) (direction : Bool) (s : State) :
    checkLimitSwitch env direction s =
      if env.limit s.reads = true then
        (true,
          { s with
            currentPosition :=
              if direction = CCW then s.currentPosition - BACKOFF_STEPS else BACKOFF_STEPS
            maxPosition := if direction = CCW then s.currentPosition else s.maxPosition
            dirPin := !direction
            pulses := List.replicate BACKOFF_STEPS { delay := MAX_STEP_DELAY, dir := !direction }
              ++ s.pulses
            reads := s.reads + 1 })
      else (false, { s with reads := s.reads + 1 }) := by
  by_cases h : env.limit s.reads = true
  · rw [if_pos h, checkLimitSwitch_low env direction s h, backOffFromLimit_eq]
    cases direction
    · simp [CCW]
    · simp only [CCW, Bool.not_true, Bool.false_eq_true, if_false, if_true, mul_neg, mul_one,
        ← sub_eq_add_neg]
  · rw [if_neg h, checkLimitSwitch_high env direction s (by simpa using h)]

end Single

namespace Single

/-- `homingFinish` records the position where the far switch was found as
`maxPosition`, and that is the final `maxPosition` when the centring move
returns true. -/
theorem homingFinish_maxPosition (env : Env) (f : State)
    (h : (homingFinish env f).1 = true) :
    (homingFinish env f).2.maxPosition = f.currentPosition := by
  unfold homingFinish homingRecordMax at h ⊢
  dsimp only at h ⊢
  rw [backOffFromLimit_eq] at h ⊢
  by_cases h0 : (f.currentPosition.tdiv 2 -
      ({ setMaxPosition f.currentPosition f with
          currentPosition := (setMaxPosition f.currentPosition f).currentPosition +
            BACKOFF_STEPS * (if (!(!HOME_DIRECTION)) = true then 1 else -1)
          dirPin := (!(!HOME_DIRECTION))
          pulses := List.replicate BACKOFF_STEPS
            { delay := MAX_STEP_DELAY, dir := (!(!HOME_DIRECTION)) } ++
              (setMaxPosition f.currentPosition f).pulses } : State).currentPosition != 0) = true
  · rw [if_pos h0] at h ⊢
    simp only [disableMotor]
    rw [moveSteps_ok_maxPosition _ _ _ _ h]
    rfl
  · rw [if_neg h0]
    rfl

end Single

namespace Single

/-- C14, at the failing input. Homing with the far switch met 1560 steps after
the backoff from home: `maxPosition` is 3160, the centring move of 20 steps is
not interrupted, and the position ends at 1590, not at `3160 / 2 = 1580`,
because `moveSteps(20)` issues 30 pulses. -/
theorem runHoming_centre_overshoots :
    (runHoming farSwitchAt3160 (stateAt 5000)).1 = HomingExit.complete true ∧
    (runHoming farSwitchAt3160 (stateAt 5000)).2.maxPosition = 3160 ∧
    (runHoming farSwitchAt3160 (stateAt 5000)).2.currentPosition = 1590 ∧
    (runHoming farSwitchAt3160 (stateAt 5000)).2.currentPosition ≠
      (runHoming farSwitchAt3160 (stateAt 5000)).2.maxPosition.tdiv 2 := by
  have hp : scheduledPulses (labs (((BACKOFF_STEPS : Int) + ((1560 : Nat) : Int)).tdiv 2 -
      ((1560 : Nat) : Int))) = 30 := by decide
  obtain ⟨_, _, _, h4, h5, h6, _⟩ :=
    runHoming_undisturbed farSwitchAt3160 (stateAt 5000) 0 1560 (by decide) (by decide)
      (by intro i hi; omega) (by intro i _; rfl) rfl
      (by intro i hi; simp [farSwitchAt3160, stateAt, State.init]; omega)
      (by intro i _; rfl) rfl
      (by rw [hp]; intro i hi; simp [farSwitchAt3160, stateAt, State.init]; omega)
      (by intro i _; rfl)
  rw [hp] at h6
  have hm : (runHoming farSwitchAt3160 (stateAt 5000)).2.maxPosition = 3160 := by
    rw [h5]; decide
  have hc : (runHoming farSwitchAt3160 (stateAt 5000)).2.currentPosition = 1590 := by
    rw [h6]; decide
  refine ⟨h4, hm, hc, ?_⟩
  rw [hc, hm]
  decide

/-- `runHoming` when the switch does not trigger and nobody asks to stop
during the `n` iterations that take the safety counter to `HOMING_TIMEOUT + 1`:
the home search gives up after `n` pulses. -/
theorem runHoming_home_gives_up (env : Env) (s : State) (n : Nat) (hn : 0 < n)
    (hfuel : n ≤ homingFuel) (hc : (n : Int) = HOMING_TIMEOUT + 1)
    (hq : ∀ i, i < n → env.limit (s.reads + i) = false)
    (hs : ∀ i, i < n → env.stop (s.polls + i) = false) :
    (runHoming env s).1 = HomingExit.homeTimeout ∧
    (issuedSince s.pulses (runHoming env s).2.pulses).length = n := by
  have e1 : homingSearchHome env s = (SeekExit.timeout,
      (setDirection HOME_DIRECTION
        { enableMotor s with emergencyStopTriggered := false }).advance n HOME_DIRECTION
          (List.replicate n { delay := MAX_STEP_DELAY, dir := HOME_DIRECTION })) :=
    homingSeek_giveup env HOME_DIRECTION n homingFuel 0 _ hn hfuel rfl hq hs (by omega)
  have hrun : runHoming env s = (HomingExit.homeTimeout,
      disableMotor (homingSearchHome env s).2) := by
    rw [runHoming_eq, e1]
  rw [hrun, e1]
  refine ⟨rfl, ?_⟩
  simp only [disableMotor, State.advance, setDirection, enableMotor]
  rw [issuedSince_append, List.length_replicate]

/-- C16, at the failing input. Homing after power-up with a switch that never
triggers and no stop request: the home search gives up only after
`HOMING_TIMEOUT + 1` pulses (100000001), one more than `HOMING_TIMEOUT`. -/
theorem runHoming_search_passes_timeout :
    (runHoming Env.quiet State.init).1 = HomingExit.homeTimeout ∧
    ((issuedSince State.init.pulses (runHoming Env.quiet State.init).2.pulses).length : Int) =
      HOMING_TIMEOUT + 1 ∧
    HOMING_TIMEOUT <
      ((issuedSince State.init.pulses (runHoming Env.quiet State.init).2.pulses).length : Int) := by
  have hf : (homingFuel : Int) = HOMING_TIMEOUT + 1 := by
    simp only [homingFuel, HOMING_TIMEOUT]; rfl
  obtain ⟨h1, h2⟩ := runHoming_home_gives_up Env.quiet State.init homingFuel (Nat.succ_pos _)
    (le_refl _) hf (fun _ _ => rfl) (fun _ _ => rfl)
  refine ⟨h1, by rw [h2, hf], by rw [h2, hf]; omega⟩

end Single

namespace Single

/-- C15. If `runHoming` leaves a search on a stop request or on the safety
counter passing `HOMING_TIMEOUT`, the last write to `ENA_PIN` disables the
motor and `maxPosition` is what it was before the call. After an abort of the
home search the only pulses issued are the `k` search pulses in the home
direction (no backoff, no far search, no centring). After an abort of the far
search the pulses are those of the home search, of the backoff from home and
the `j` pulses of the far search (no backoff from the far switch, no
centring), and the position is `BACKOFF_STEPS + j`, counted from the zero set
by the completed home phase. -/
theorem runHoming_abort (env : Env) (s : State)
    (h : (runHoming env s).1 = HomingExit.homeStopped ∨
      (runHoming env s).1 = HomingExit.homeTimeout ∨
      (runHoming env s).1 = HomingExit.farStopped ∨
      (runHoming env s).1 = HomingExit.farTimeout) :
    (runHoming env s).2.enaLog.head? = some false ∧
    (runHoming env s).2.maxPosition = s.maxPosition ∧
    (((runHoming env s).1 = HomingExit.homeStopped ∨
        (runHoming env s).1 = HomingExit.homeTimeout) →
      ∃ k : Nat,
        issuedSince s.pulses (runHoming env s).2.pulses =
          List.replicate k { delay := MAX_STEP_DELAY, dir := HOME_DIRECTION } ∧
        (runHoming env s).2.currentPosition = s.currentPosition - k) ∧
    (((runHoming env s).1 = HomingExit.farStopped ∨
        (runHoming env s).1 = HomingExit.farTimeout) →
      ∃ k j : Nat,
        issuedSince s.pulses (runHoming env s).2.pulses =
          List.replicate j { delay := MAX_STEP_DELAY, dir := !HOME_DIRECTION } ++
            (List.replicate BACKOFF_STEPS { delay := MAX_STEP_DELAY, dir := !HOME_DIRECTION } ++
              List.replicate k { delay := MAX_STEP_DELAY, dir := HOME_DIRECTION }) ∧
        (runHoming env s).2.currentPosition = BACKOFF_STEPS + j) := by
  -- the home search
  obtain ⟨k, hp1, hc1, hm1, _, _⟩ := homingSeek_shape env HOME_DIRECTION homingFuel 0
    (setDirection HOME_DIRECTION { enableMotor s with emergencyStopTriggered := false })
    (by decide)
  have hhs : homingSearchHome env s = homingSeek env HOME_DIRECTION homingFuel 0
      (setDirection HOME_DIRECTION { enableMotor s with emergencyStopTriggered := false }) := rfl
  rw [← hhs] at hp1 hc1 hm1
  simp only [setDirection, enableMotor, HOME_DIRECTION, CW, Bool.false_eq_true, if_false]
    at hp1 hc1 hm1
  -- the backoff and the far search
  obtain ⟨j, hp2, hc2, hm2, _, _⟩ := homingSeek_shape env (!HOME_DIRECTION) homingFuel 0
    (setDirection (!HOME_DIRECTION) (homingBackOffHome (homingSearchHome env s).2)) (by decide)
  have hfs : homingSearchFar env (homingSearchHome env s).2 =
      homingSeek env (!HOME_DIRECTION) homingFuel 0
        (setDirection (!HOME_DIRECTION) (homingBackOffHome (homingSearchHome env s).2)) := rfl
  rw [← hfs] at hp2 hc2 hm2
  unfold homingBackOffHome homingZero at hp2 hc2 hm2
  rw [backOffFromLimit_eq] at hp2 hc2 hm2
  simp only [setDirection, setCurrentPosition, HOME_DIRECTION, CW, Bool.not_false, if_true,
    mul_one, zero_add] at hp2 hc2 hm2
  rw [hp1] at hp2
  rw [hm1] at hm2
  rw [runHoming_eq] at h ⊢
  generalize homingSearchHome env s = H at h hp1 hc1 hm1 hp2 hc2 hm2 ⊢
  generalize homingSearchFar env H.2 = F at h hp2 hc2 hm2 ⊢
  simp only [HOME_DIRECTION, CW, Bool.not_false]
  rcases H with ⟨e1, t1⟩
  rcases F with ⟨e2, t2⟩
  cases e1
  · cases e2
    · simp at h
    · refine ⟨rfl, hm2, fun hx => ?_, fun _ => ⟨k, j, ?_, hc2⟩⟩
      · simp at hx
      · simp only [disableMotor]
        rw [hp2, ← List.append_assoc, ← List.append_assoc, issuedSince_append, List.append_assoc]
    · refine ⟨rfl, hm2, fun hx => ?_, fun _ => ⟨k, j, ?_, hc2⟩⟩
      · simp at hx
      · simp only [disableMotor]
        rw [hp2, ← List.append_assoc, ← List.append_assoc, issuedSince_append, List.append_assoc]
  · refine ⟨rfl, hm1, fun _ => ⟨k, ?_, ?_⟩, fun hx => ?_⟩
    · simp only [disableMotor]
      rw [hp1, issuedSince_append]
    · simp only [disableMotor]
      rw [hc1]; ring
    · simp at hx
  · refine ⟨rfl, hm1, fun _ => ⟨k, ?_, ?_⟩, fun hx => ?_⟩
    · simp only [disableMotor]
      rw [hp1, issuedSince_append]
    · simp only [disableMotor]
      rw [hc1]; ring
    · simp at hx

/-- Witness for `runHoming_abort`: homing from position 5000, home switch met
after two steps, stop request during the far search after two of its pulses. -/
theorem runHoming_abort_witness :
    (runHoming stopInFarSearch (stateAt 5000)).1 = HomingExit.farStopped ∧
    (runHoming stopInFarSearch (stateAt 5000)).2.enaLog.head? = some false ∧
    (runHoming stopInFarSearch (stateAt 5000)).2.maxPosition = (stateAt 5000).maxPosition ∧
    (runHoming stopInFarSearch (stateAt 5000)).2.currentPosition = BACKOFF_STEPS + 2 :=
  ⟨by decide!,
    (runHoming_abort stopInFarSearch (stateAt 5000) (Or.inr (Or.inr (Or.inl (by decide!))))).1,
    (runHoming_abort stopInFarSearch (stateAt 5000) (Or.inr (Or.inr (Or.inl (by decide!))))).2.1,
    by decide!⟩

end Single

namespace Dual

/-! ### Dual-limit variant: the limit handler (claims C18, C19) -/

/-- C18. In calibration mode, when the sample reads "triggered",
`checkLimitSwitch` returns true and the only fields written are the limit of
the direction of travel (`minPosition` moving CW, `maxPosition` moving CCW),
set to the current position, and the sample counter: the position, the other
limit and the pulse log are unchanged. -/
theorem checkLimitSwitch_calibrating (env : Env) (direction : Bool) (s : State)
    (hcal : s.calibrationMode = true) (hlow : env.limit s.reads = true) :
    checkLimitSwitch env direction s =
      (true,
        if direction = CCW then
          { s with maxPosition := s.currentPosition, reads := s.reads + 1 }
        else { s with minPosition := s.currentPosition, reads := s.reads + 1 }) := by
  cases direction <;>
    simp [checkLimitSwitch, readLimit, hlow, hcal, setMinPosition, setMaxPosition, CCW]

/-- Witness for `checkLimitSwitch_calibrating`: a CW trigger at position -1000
in calibration mode. -/
theorem checkLimitSwitch_calibrating_witness :
    (checkLimitSwitch scenario3 CW
      { powerUp with calibrationMode := true, currentPosition := -1000, reads := 1000 }).1
        = true ∧
    (checkLimitSwitch scenario3 CW
      { powerUp with calibrationMode := true, currentPosition := -1000, reads := 1000 }).2.minPosition
        = -1000 ∧
    (checkLimitSwitch scenario3 CW
      { powerUp with calibrationMode := true, currentPosition := -1000, reads := 1000 }).2.pulses
        = [] := by
  rw [checkLimitSwitch_calibrating scenario3 CW
    { powerUp with calibrationMode := true, currentPosition := -1000, reads := 1000 } rfl rfl]
  exact ⟨rfl, rfl, rfl⟩

/-- C19. Outside calibration mode, when the sample reads "triggered",
`checkLimitSwitch` returns true after `BACKOFF_STEPS` pulses at
`MAX_STEP_DELAY` away from the switch; `minPosition` and `maxPosition` are
unchanged and the position is `minPosition + BACKOFF_STEPS` (moving CW) or
`maxPosition - BACKOFF_STEPS` (moving CCW), whatever it was before. -/
theorem checkLimitSwitch_snaps_and_backs_off (env : Env) (direction : Bool) (s : State)
    (hcal : s.calibrationMode = false) (hlow : env.limit s.reads = true) :
    checkLimitSwitch env direction s =
      (true,
        { s with
          currentPosition :=
            if direction = CCW then s.maxPosition - BACKOFF_STEPS
            else s.minPosition + BACKOFF_STEPS
          dirPin := !direction
          pulses := List.replicate BACKOFF_STEPS { delay := MAX_STEP_DELAY, dir := !direction }
            ++ s.pulses
          reads := s.reads + 1 }) := by
  simp only [checkLimitSwitch, readLimit, hlow, hcal, if_true, Bool.false_eq_true, if_false]
  rw [backOffFromLimit_eq_dual]
  cases direction
  · simp [setCurrentPosition, CCW]
  · simp only [setCurrentPosition, CCW, Bool.not_true, Bool.false_eq_true, if_false, if_true,
      mul_neg, mul_one, ← sub_eq_add_neg]

/-- Witness for `checkLimitSwitch_snaps_and_backs_off`: calibrated limits
-1000 and 9000, a CCW trigger while the counter reads 8990. -/
theorem checkLimitSwitch_snaps_and_backs_off_witness :
    (checkLimitSwitch scenario3 CCW
      { powerUp with minPosition := -1000, maxPosition := 9000, limitsInitialized := true,
                     currentPosition := 8990, reads := 1000 }).1 = true ∧
    (checkLimitSwitch scenario3 CCW
      { powerUp with minPosition := -1000, maxPosition := 9000, limitsInitialized := true,
                     currentPosition := 8990, reads := 1000 }).2.currentPosition
        = 9000 - BACKOFF_STEPS := by
  rw [checkLimitSwitch_snaps_and_backs_off scenario3 CCW
    { powerUp with minPosition := -1000, maxPosition := 9000, limitsInitialized := true,
                   currentPosition := 8990, reads := 1000 } rfl rfl]
  exact ⟨rfl, rfl⟩

end Dual

namespace Dual

/-! ### Dual-limit variant: the budgets of the calibration searches (claim C17) -/

/-- The positions tested by the safety check of a search loop: with `k` pulses
issued, the check passed after each of the first `k - 1`, and after the last
one too when the switch was found. -/
theorem seekLoop_checked (env : Env) (direction : Bool) (tooFar : Int → Bool) (fuel : Nat)
    (s : State) :
    ∃ k : Nat,
      (seekLoop env direction tooFar fuel s).2.pulses =
        List.replicate k { delay := MAX_STEP_DELAY, dir := direction } ++ s.pulses ∧
      (seekLoop env direction tooFar fuel s).2.currentPosition =
        s.currentPosition + k * (if direction then 1 else -1) ∧
      (∀ j : Nat, 1 ≤ j → j < k →
        tooFar (s.currentPosition + j * (if direction then 1 else -1)) = false) ∧
      ((seekLoop env direction tooFar fuel s).1 = true → ∀ j : Nat, 1 ≤ j → j ≤ k →
        tooFar (s.currentPosition + j * (if direction then 1 else -1)) = false) := by
  induction fuel generalizing s with
  | zero => exact ⟨0, by simp [seekLoop], by simp [seekLoop], by intro j h1 h2; omega,
      by intro h; cases h⟩
  | succ fuel ih =>
    rw [seekLoop_succ]
    by_cases h1 : env.limit s.reads = true
    · rw [if_pos h1]
      exact ⟨0, by simp, by simp, by intro j h1 h2; omega, by intro _ j h1 h2; omega⟩
    · rw [if_neg h1]
      by_cases h2 : tooFar (stepMotor MAX_STEP_DELAY direction
          { s with reads := s.reads + 1 }).currentPosition = true
      · rw [if_pos h2]
        exact ⟨1, by simp [stepMotor, updatePosition], by simp [stepMotor, updatePosition],
          by intro j h1 h2; omega, by intro h; cases h⟩
      · rw [if_neg h2]
        obtain ⟨k, hp, hc, hnear, hfound⟩ :=
          ih (stepMotor MAX_STEP_DELAY direction { s with reads := s.reads + 1 })
        have hstep : ∀ j : Nat, 1 ≤ j →
            (stepMotor MAX_STEP_DELAY direction { s with reads := s.reads + 1 }).currentPosition +
                ((j - 1 : Nat) : Int) * (if direction then 1 else -1) =
              s.currentPosition + (j : Int) * (if direction then 1 else -1) := by
          intro j hj
          simp only [stepMotor, updatePosition]
          have : ((j - 1 : Nat) : Int) = (j : Int) - 1 := by omega
          rw [this]
          ring
        have hfirst : tooFar (s.currentPosition + ((1 : Nat) : Int) *
            (if direction then 1 else -1)) = false := by
          have := hstep 1 (le_refl _)
          simp only [Nat.sub_self, Nat.cast_zero, zero_mul, add_zero] at this
          rw [← this]
          simpa using h2
        refine ⟨k + 1, ?_, ?_, ?_, ?_⟩
        · rw [hp]
          simp [stepMotor, updatePosition, List.replicate_succ']
        · rw [hc]
          simp only [stepMotor, updatePosition]
          push_cast
          ring
        · intro j hj1 hj2
          by_cases hj : j = 1
          · subst hj; exact hfirst
          · rw [← hstep j hj1]
            exact hnear (j - 1) (by omega) (by omega)
        · intro hf j hj1 hj2
          by_cases hj : j = 1
          · subst hj; exact hfirst
          · rw [← hstep j hj1]
            exact hfound hf (j - 1) (by omega) (by omega)

/-- Closed form of a search loop during which the switch does not trigger: it
gives up after the first pulse that takes the position too far. -/
theorem seekLoop_giveup (env : Env) (direction : Bool) (tooFar : Int → Bool) (n fuel : Nat)
    (s : State) (hn : 0 < n) (hfuel : n ≤ fuel)
    (hquiet : ∀ i, i < n → env.limit (s.reads + i) = false)
    (hnear : ∀ i : Nat, i + 1 < n →
      tooFar (s.currentPosition + ((i : Int) + 1) * (if direction then 1 else -1)) = false)
    (hfar : tooFar (s.currentPosition + (n : Int) * (if direction then 1 else -1)) = true) :
    seekLoop env direction tooFar fuel s =
      (false, { s with
        currentPosition := s.currentPosition + n * (if direction then 1 else -1)
        pulses := List.replicate n { delay := MAX_STEP_DELAY, dir := direction } ++ s.pulses
        reads := s.reads + n }) := by
  induction n generalizing s fuel with
  | zero => omega
  | succ n ih =>
    obtain ⟨f, rfl⟩ : ∃ f, fuel = f + 1 := ⟨fuel - 1, by omega⟩
    have h0 : env.limit s.reads = false := by simpa using hquiet 0 (by omega)
    rw [seekLoop_succ, if_neg (by simp [h0])]
    by_cases hz : n = 0
    · subst hz
      rw [if_pos (by simpa [stepMotor, updatePosition] using hfar)]
      simp [stepMotor, updatePosition]
    · have hn0 := hnear 0 (by omega)
      rw [if_neg (by simpa [stepMotor, updatePosition] using hn0)]
      rw [ih f (stepMotor MAX_STEP_DELAY direction { s with reads := s.reads + 1 }) (by omega)
        (by omega)]
      · simp only [stepMotor, updatePosition]
        congr 2
        · push_cast; ring
        · simp [List.replicate_succ']
        · omega
      · intro i hi
        have := hquiet (i + 1) (by omega)
        simpa [stepMotor, updatePosition, add_assoc, add_comm 1 i] using this
      · intro i hi
        have := hnear (i + 1) (by omega)
        simp only [stepMotor, updatePosition]
        rw [← this]
        congr 1
        push_cast; ring
      · have e : (stepMotor MAX_STEP_DELAY direction
            { s with reads := s.reads + 1 }).currentPosition +
              (n : Int) * (if direction then 1 else -1) =
            s.currentPosition + ((n + 1 : Nat) : Int) * (if direction then 1 else -1) := by
          simp only [stepMotor, updatePosition]
          push_cast
          ring
        rw [e]
        exact hfar

end Dual

namespace Dual

/-- Closed form of the CW search of `runCalibration` when the switch is met at
the `ka`-th sample. -/
theorem calSearchMin_found (env : Env) (s : State) (ka : Nat) (hka : ka ≤ 50000)
    (hq : ∀ i, i < ka → env.limit (s.reads + i) = false)
    (hl : env.limit (s.reads + ka) = true) :
    calSearchMin env s = (true,
      { s with
        calibrationMode := true
        currentPosition := -(ka : Int)
        enaLog := true :: s.enaLog
        dirPin := false
        pulses := List.replicate ka { delay := MAX_STEP_DELAY, dir := false } ++ s.pulses
        reads := s.reads + ka + 1 }) := by
  have key := seekLoop_found env false tooFarMin ka
    (seekMinFuel (setDirection false (enableMotor (setCurrentPosition 0
      (setCalibrationMode true s)))))
    (setDirection false (enableMotor (setCurrentPosition 0 (setCalibrationMode true s))))
    (by
      simp only [seekMinFuel, setDirection, enableMotor, setCurrentPosition, setCalibrationMode]
      omega)
    hq hl
    (by
      intro i hi
      simp only [setDirection, enableMotor, setCurrentPosition, setCalibrationMode, tooFarMin,
        labs, Bool.false_eq_true, if_false, decide_eq_false_iff_not]
      split_ifs <;> omega)
  unfold calSearchMin
  dsimp only
  rw [key]
  simp [setDirection, enableMotor, setCurrentPosition, setCalibrationMode]

/-- `runCalibration` when the CW search meets the switch at its sample number
`ka` and the switch does not trigger during the `n` pulses that take the CCW
search from `BACKOFF_STEPS - ka` to 50001: the CCW search gives up after `n`
pulses. -/
theorem calSearchMax_gives_up (env : Env) (s : State) (ka n : Nat) (hka : ka ≤ 50000)
    (hn : (n : Int) = 50001 + ka - BACKOFF_STEPS)
    (hq1 : ∀ i, i < ka → env.limit (s.reads + i) = false)
    (hl1 : env.limit (s.reads + ka) = true)
    (hq2 : ∀ i, i < n → env.limit (s.reads + ka + 1 + i) = false) :
    (calSearchMin env s).1 = true ∧
    (calSearchMin env s).2.currentPosition = -(ka : Int) ∧
    (calSearchMax env (calSearchMin env s).2).1 = false ∧
    issuedSince (calSearchMin env s).2.pulses (calSearchMax env (calSearchMin env s).2).2.pulses =
      List.replicate n { delay := MAX_STEP_DELAY, dir := true } ++
        List.replicate BACKOFF_STEPS { delay := MAX_STEP_DELAY, dir := true } ∧
    (runCalibration env s).1 = CalExit.maxTimeout := by
  have e1 := calSearchMin_found env s ka hka hq1 hl1
  have hMc : (calSearchMin env s).2.currentPosition = -(ka : Int) := by rw [e1]
  have hMr : (calSearchMin env s).2.reads = s.reads + ka + 1 := by rw [e1]
  have hM1 : (calSearchMin env s).1 = true := by rw [e1]
  have e2 : calSearchMax env (calSearchMin env s).2 = (false,
      { (calSearchMin env s).2 with
        currentPosition := (calSearchMin env s).2.currentPosition + BACKOFF_STEPS + n
        dirPin := true
        pulses := List.replicate n { delay := MAX_STEP_DELAY, dir := true } ++
          (List.replicate BACKOFF_STEPS { delay := MAX_STEP_DELAY, dir := true } ++ (calSearchMin env s).2.pulses)
        reads := (calSearchMin env s).2.reads + n }) := by
    unfold calSearchMax
    dsimp only
    rw [backOffFromLimit_eq_dual]
    simp only [setDirection, Bool.not_false, if_true, mul_one]
    generalize hX : State.mk ((calSearchMin env s).2.currentPosition + BACKOFF_STEPS) _ _ _ _ _ _ _ _ _ _ _ = X
    have hXc : X.currentPosition = (calSearchMin env s).2.currentPosition + BACKOFF_STEPS := by rw [← hX]
    have hXr : X.reads = (calSearchMin env s).2.reads := by rw [← hX]
    have key := seekLoop_giveup env true tooFarMax n (seekMaxFuel X) X
      (by simp only [BACKOFF_STEPS] at hn; omega)
      (by
        simp only [seekMaxFuel, hXc, hMc]
        simp only [BACKOFF_STEPS] at hn ⊢
        omega)
      (by rw [hXr, hMr]; exact hq2)
      (by
        intro i hi
        simp only [tooFarMax, hXc, hMc, if_true, mul_one, decide_eq_false_iff_not]
        simp only [BACKOFF_STEPS] at hn ⊢
        omega)
      (by
        simp only [tooFarMax, hXc, hMc, if_true, mul_one, decide_eq_true_eq]
        simp only [BACKOFF_STEPS] at hn ⊢
        omega)
    rw [key, ← hX]
    simp only [if_true, mul_one]
  refine ⟨hM1, hMc, by rw [e2], ?_, ?_⟩
  · rw [e2]
    simp only []
    rw [← List.append_assoc, issuedSince_append]
  · rw [runCalibration_eq, if_neg (by rw [hM1]; decide), if_pos (by rw [e2])]

end Dual

namespace Dual

/-- C17, counterexample. Calibration after power-up with the CW switch met at
-50000 and a CCW switch that never triggers: the CCW search starts at -48400
and gives up only at 50001, after 98401 pulses, more than 50001. -/
theorem calSearchMax_exceeds_step_budget :
    (calSearchMin minAtBudgetEdge powerUp).1 = true ∧
    (calSearchMin minAtBudgetEdge powerUp).2.currentPosition = -50000 ∧
    (calSearchMax minAtBudgetEdge (calSearchMin minAtBudgetEdge powerUp).2).1 = false ∧
    (issuedSince (calSearchMin minAtBudgetEdge powerUp).2.pulses
      (calSearchMax minAtBudgetEdge (calSearchMin minAtBudgetEdge powerUp).2).2.pulses).length =
        98401 + BACKOFF_STEPS ∧
    ¬ (98401 ≤ 50001) := by
  obtain ⟨h1, h2, h3, h4, _⟩ :=
    calSearchMax_gives_up minAtBudgetEdge powerUp 50000 98401 (le_refl _)
      (by norm_num [BACKOFF_STEPS])
      (by intro i hi; simp [minAtBudgetEdge, powerUp, State.init]; omega)
      rfl
      (by intro i hi; simp [minAtBudgetEdge, powerUp, State.init]; omega)
  refine ⟨h1, by rw [h2]; rfl, h3, ?_, by omega⟩
  rw [h4, List.length_append, List.length_replicate, List.length_replicate]

/-- C17, amended. Whatever the switch does, the CW search of `runCalibration`
issues at most 50001 pulses; and when it finds the switch, the pulses issued
next are the `BACKOFF_STEPS` backoff pulses followed by the `k` pulses of the
CCW search, with `k` at most `50001 - (minPos + BACKOFF_STEPS)`, where `minPos`
is the position where the CW switch was found, hence at most 98401. -/
theorem calSearch_pulse_bounds (env : Env) (s : State) :
    (∃ k : Nat, k ≤ 50001 ∧
      issuedSince s.pulses (calSearchMin env s).2.pulses =
        List.replicate k { delay := MAX_STEP_DELAY, dir := false }) ∧
    ((calSearchMin env s).1 = true →
      ∃ k : Nat,
        (k : Int) ≤ 50001 - ((calSearchMin env s).2.currentPosition + BACKOFF_STEPS) ∧
        k ≤ 98401 ∧
        issuedSince (calSearchMin env s).2.pulses
            (calSearchMax env (calSearchMin env s).2).2.pulses =
          List.replicate k { delay := MAX_STEP_DELAY, dir := true } ++
            List.replicate BACKOFF_STEPS { delay := MAX_STEP_DELAY, dir := true }) := by
  obtain ⟨k, hp, hc, hnear, hfound⟩ := seekLoop_checked env false tooFarMin
    (seekMinFuel (setDirection false (enableMotor (setCurrentPosition 0
      (setCalibrationMode true s)))))
    (setDirection false (enableMotor (setCurrentPosition 0 (setCalibrationMode true s))))
  have hms : calSearchMin env s = seekLoop env false tooFarMin
      (seekMinFuel (setDirection false (enableMotor (setCurrentPosition 0
        (setCalibrationMode true s)))))
      (setDirection false (enableMotor (setCurrentPosition 0 (setCalibrationMode true s)))) := rfl
  rw [← hms] at hp hc hfound
  simp only [setDirection, enableMotor, setCurrentPosition, setCalibrationMode,
    Bool.false_eq_true, if_false, zero_add] at hp hc hnear hfound
  have hk : k ≤ 50001 := by
    by_contra hgt
    have := hnear (k - 1) (by omega) (by omega)
    simp only [tooFarMin, labs, decide_eq_false_iff_not] at this
    split_ifs at this <;> omega
  refine ⟨⟨k, hk, by rw [hp, issuedSince_append]⟩, fun hf => ?_⟩
  have hpos : -50000 ≤ (calSearchMin env s).2.currentPosition ∧
      (calSearchMin env s).2.currentPosition ≤ 0 := by
    rw [hc]
    by_cases hk0 : k = 0
    · subst hk0; simp
    · have := hfound hf k (by omega) (le_refl _)
      simp only [tooFarMin, labs, decide_eq_false_iff_not] at this
      split_ifs at this <;> omega
  obtain ⟨k2, hp2, _, hnear2, _⟩ := seekLoop_checked env true tooFarMax
    (seekMaxFuel (setDirection true (backOffFromLimit (!false) (calSearchMin env s).2)))
    (setDirection true (backOffFromLimit (!false) (calSearchMin env s).2))
  have hxs : calSearchMax env (calSearchMin env s).2 = seekLoop env true tooFarMax
      (seekMaxFuel (setDirection true (backOffFromLimit (!false) (calSearchMin env s).2)))
      (setDirection true (backOffFromLimit (!false) (calSearchMin env s).2)) := rfl
  rw [← hxs] at hp2
  rw [backOffFromLimit_eq_dual] at hp2 hnear2
  simp only [setDirection, Bool.not_false, if_true, mul_one] at hp2 hnear2
  have hk2 : (k2 : Int) ≤ 50001 - ((calSearchMin env s).2.currentPosition + BACKOFF_STEPS) := by
    by_cases hsmall : k2 ≤ 1
    · simp only [BACKOFF_STEPS]; omega
    · have := hnear2 (k2 - 1) (by omega) (by omega)
      simp only [tooFarMax, decide_eq_false_iff_not] at this
      omega
  refine ⟨k2, hk2, by simp only [BACKOFF_STEPS] at hk2; omega, ?_⟩
  rw [hp2, ← List.append_assoc, issuedSince_append]

/-- Witness for `calSearch_pulse_bounds`: scenario 3 of the spec, in which the
CW search finds the switch. -/
theorem calSearch_pulse_bounds_witness :
    (calSearchMin scenario3 powerUp).1 = true ∧
    ∃ k : Nat,
      (k : Int) ≤ 50001 - ((calSearchMin scenario3 powerUp).2.currentPosition + BACKOFF_STEPS) ∧
      k ≤ 98401 ∧
      issuedSince (calSearchMin scenario3 powerUp).2.pulses
          (calSearchMax scenario3 (calSearchMin scenario3 powerUp).2).2.pulses =
        List.replicate k { delay := MAX_STEP_DELAY, dir := true } ++
          List.replicate BACKOFF_STEPS { delay := MAX_STEP_DELAY, dir := true } := by
  have hfound : (calSearchMin scenario3 powerUp).1 = true := by
    rw [calSearchMin_found scenario3 powerUp 1000 (by norm_num)
      (by intro i hi; simp [scenario3, powerUp, State.init]; omega) rfl]
  exact ⟨hfound, (calSearch_pulse_bounds scenario3 powerUp).2 hfound⟩

end Dual

namespace Single

/-! ### Single-limit variant: the backoff (claim C21) -/

/-- C21. `backOffFromLimit` is a total function of the direction and the state
alone (it takes no sample of the switch and makes no test of the stop flag:
both counters are unchanged).  It issues exactly `BACKOFF_STEPS` pulses, each at
`MAX_STEP_DELAY` in the given direction, moves `currentPosition` by
`+BACKOFF_STEPS` (CCW) or `-BACKOFF_STEPS` (CW), and leaves `maxPosition`, the
stop flag and the enable output as they were; the direction output is set to
the backoff direction. -/
theorem backOffFromLimit_fixed_count (direction : Bool) (s : State) :
    issuedSince s.pulses (backOffFromLimit direction s).pulses =
      List.replicate BACKOFF_STEPS { delay := MAX_STEP_DELAY, dir := direction } ∧
    (issuedSince s.pulses (backOffFromLimit direction s).pulses).length = 1600 ∧
    (backOffFromLimit direction s).currentPosition =
      s.currentPosition + (if direction = CCW then (BACKOFF_STEPS : Int) else -(BACKOFF_STEPS : Int)) ∧
    (backOffFromLimit direction s).reads = s.reads ∧
    (backOffFromLimit direction s).polls = s.polls ∧
    backOffFromLimit direction s =
      { s with
        currentPosition := (backOffFromLimit direction s).currentPosition
        pulses := (backOffFromLimit direction s).pulses
        dirPin := direction } := by
  rw [backOffFromLimit_eq]
  refine ⟨issuedSince_append _ _, ?_, ?_, rfl, rfl, rfl⟩
  · rw [issuedSince_append, List.length_replicate]; rfl
  · cases direction <;> simp [CCW]

end Single

namespace Dual

/-! ### Dual-limit variant: the EEPROM record (claims C22, C23, C24) -/

theorem eepromPut_outside (addr width : Nat) (value : Int) (rom : Nat → Nat) (a : Nat)
    (h : a < addr ∨ addr + width ≤ a) : eepromPut addr width value rom a = rom a := by
  unfold eepromPut
  rw [if_neg (by omega)]

theorem eepromWord_congr (rom rom2 : Nat → Nat) (width addr : Nat)
    (h : ∀ a, addr ≤ a → a < addr + width → rom a = rom2 a) :
    eepromWord rom addr width = eepromWord rom2 addr width := by
  induction width generalizing addr with
  | zero => rfl
  | succ w ih =>
    simp only [eepromWord]
    rw [h addr (le_refl _) (by omega), ih (addr + 1) (fun a h1 h2 => h a (by omega) (by omega))]

theorem eepromGet_congr (rom rom2 : Nat → Nat) (width addr : Nat)
    (h : ∀ a, addr ≤ a → a < addr + width → rom a = rom2 a) :
    eepromGet addr width rom = eepromGet addr width rom2 := by
  unfold eepromGet
  rw [eepromWord_congr rom rom2 width addr h]

/-- The byte that `EEPROM.put` leaves in the cell `addr + i` of the value. -/
theorem eepromPut_inside (addr width : Nat) (value : Int) (rom : Nat → Nat) (i : Nat)
    (h : i < width) :
    eepromPut addr width value rom (addr + i) =
      ((value % (2 : Int) ^ (8 * width)) / (2 : Int) ^ (8 * i) % 256).toNat := by
  unfold eepromPut
  rw [if_pos ⟨by omega, by omega⟩, Nat.add_sub_cancel_left]

/-- A `long` written with `EEPROM.put` is read back by `EEPROM.get`. -/
theorem eepromGet_put_long (addr : Nat) (value : Int) (rom : Nat → Nat) (h : IsLong value) :
    eepromGet addr LONG_BYTES (eepromPut addr LONG_BYTES value rom) = value := by
  obtain ⟨h1, h2⟩ := h
  simp only [LONG_MIN, LONG_MAX] at h1 h2
  have c0 := eepromPut_inside addr 4 value rom 0 (by omega)
  have c1 := eepromPut_inside addr 4 value rom 1 (by omega)
  have c2 := eepromPut_inside addr 4 value rom 2 (by omega)
  have c3 := eepromPut_inside addr 4 value rom 3 (by omega)
  norm_num only at c0 c1 c2 c3
  simp only [eepromGet, LONG_BYTES, eepromWord, Nat.add_assoc]
  norm_num only
  rw [Nat.add_zero] at c0
  rw [c0, c1, c2, c3]
  have hv0 : 0 ≤ value % 4294967296 := Int.emod_nonneg _ (by norm_num)
  have hv1 : value % 4294967296 < 4294967296 := Int.emod_lt_of_pos _ (by norm_num)
  have hv2 : value = value % 4294967296 ∨ value = value % 4294967296 - 4294967296 := by omega
  generalize value % 4294967296 = v at *
  have e1 : v / 65536 = v / 256 / 256 := by omega
  have e2 : v / 16777216 = v / 256 / 256 / 256 := by omega
  rw [e1, e2, Int.ediv_one]
  generalize hq1 : v / 256 = q1
  generalize hq2 : q1 / 256 = q2
  generalize hq3 : q2 / 256 = q3
  have k0 : ((v % 256).toNat : Int) = v % 256 :=
    Int.toNat_of_nonneg (Int.emod_nonneg _ (by norm_num))
  have k1 : ((q1 % 256).toNat : Int) = q1 % 256 :=
    Int.toNat_of_nonneg (Int.emod_nonneg _ (by norm_num))
  have k2 : ((q2 % 256).toNat : Int) = q2 % 256 :=
    Int.toNat_of_nonneg (Int.emod_nonneg _ (by norm_num))
  have k3 : ((q3 % 256).toNat : Int) = q3 % 256 :=
    Int.toNat_of_nonneg (Int.emod_nonneg _ (by norm_num))
  push_cast
  rw [k0, k1, k2, k3]
  clear c0 c1 c2 c3 k0 k1 k2 k3 e1 e2
  split_ifs <;> omega

/-- An `int` written with `EEPROM.put` is read back by `EEPROM.get`. -/
theorem eepromGet_put_int (addr : Nat) (value : Int) (rom : Nat → Nat)
    (h1 : -32768 ≤ value) (h2 : value ≤ 32767) :
    eepromGet addr INT_BYTES (eepromPut addr INT_BYTES value rom) = value := by
  have c0 := eepromPut_inside addr 2 value rom 0 (by omega)
  have c1 := eepromPut_inside addr 2 value rom 1 (by omega)
  norm_num only at c0 c1
  simp only [eepromGet, INT_BYTES, eepromWord, Nat.add_assoc]
  norm_num only
  rw [Nat.add_zero] at c0
  rw [c0, c1]
  have hv0 : 0 ≤ value % 65536 := Int.emod_nonneg _ (by norm_num)
  have hv1 : value % 65536 < 65536 := Int.emod_lt_of_pos _ (by norm_num)
  have hv2 : value = value % 65536 ∨ value = value % 65536 - 65536 := by omega
  generalize value % 65536 = v at *
  rw [Int.ediv_one]
  generalize hq1 : v / 256 = q1
  have k0 : ((v % 256).toNat : Int) = v % 256 :=
    Int.toNat_of_nonneg (Int.emod_nonneg _ (by norm_num))
  have k1 : ((q1 % 256).toNat : Int) = q1 % 256 :=
    Int.toNat_of_nonneg (Int.emod_nonneg _ (by norm_num))
  push_cast
  rw [k0, k1]
  clear c0 c1 k0 k1
  split_ifs <;> omega

/-- The marker read by `loadAxisLimits` is the magic number exactly when the
cell at address 0 holds 42 and the cell at address 1 holds 0. -/
theorem marker_eq_magic_iff (rom : Nat → Nat) :
    eepromGet EEPROM_INITIALIZED_ADDR INT_BYTES rom = EEPROM_MAGIC_NUMBER ↔
      rom 0 % 256 = 42 ∧ rom 1 % 256 = 0 := by
  simp only [eepromGet, INT_BYTES, eepromWord, EEPROM_INITIALIZED_ADDR, EEPROM_MAGIC_NUMBER]
  norm_num only
  push_cast
  split_ifs <;> omega

/-- The three fields of the record after `saveAxisLimits`. -/
theorem saveAxisLimits_fields (s : State) (hmin : IsLong s.minPosition)
    (hmax : IsLong s.maxPosition) :
    eepromGet EEPROM_INITIALIZED_ADDR INT_BYTES (saveAxisLimits s).eeprom = EEPROM_MAGIC_NUMBER ∧
    eepromGet EEPROM_MIN_POS_ADDR LONG_BYTES (saveAxisLimits s).eeprom = s.minPosition ∧
    eepromGet EEPROM_MAX_POS_ADDR LONG_BYTES (saveAxisLimits s).eeprom = s.maxPosition := by
  simp only [saveAxisLimits]
  refine ⟨?_, ?_, ?_⟩
  · rw [eepromGet_congr _ (eepromPut EEPROM_INITIALIZED_ADDR INT_BYTES EEPROM_MAGIC_NUMBER s.eeprom)]
    · exact eepromGet_put_int _ _ _ (by decide) (by decide)
    · intro a h1 h2
      simp only [EEPROM_INITIALIZED_ADDR, INT_BYTES] at h1 h2
      rw [eepromPut_outside _ _ _ _ _ (by simp only [EEPROM_MAX_POS_ADDR]; omega),
        eepromPut_outside _ _ _ _ _ (by simp only [EEPROM_MIN_POS_ADDR]; omega)]
  · rw [eepromGet_congr _ (eepromPut EEPROM_MIN_POS_ADDR LONG_BYTES s.minPosition
      (eepromPut EEPROM_INITIALIZED_ADDR INT_BYTES EEPROM_MAGIC_NUMBER s.eeprom))]
    · exact eepromGet_put_long _ _ _ hmin
    · intro a h1 h2
      simp only [EEPROM_MIN_POS_ADDR, LONG_BYTES] at h1 h2
      rw [eepromPut_outside _ _ _ _ _ (by simp only [EEPROM_MAX_POS_ADDR]; omega)]
  · exact eepromGet_put_long _ _ _ hmax

/-- `loadAxisLimits` on a store whose marker is not the magic number. -/
theorem loadAxisLimits_no_marker (s : State)
    (h : eepromGet EEPROM_INITIALIZED_ADDR INT_BYTES s.eeprom ≠ EEPROM_MAGIC_NUMBER) :
    loadAxisLimits s = (false, s) := by
  unfold loadAxisLimits
  dsimp only
  rw [if_neg (fun hc => h (beq_iff_eq.mp hc))]

theorem setMinPosition_eeprom (position : Int) (s : State) :
    (setMinPosition position s).eeprom = s.eeprom := rfl

theorem setMaxPosition_setMinPosition (lo hi : Int) (s : State) :
    setMaxPosition hi (setMinPosition lo s) = { s with minPosition := lo, maxPosition := hi } :=
  rfl

/-- `loadAxisLimits` on a store whose marker is the magic number. -/
theorem loadAxisLimits_with_marker (s : State)
    (h : eepromGet EEPROM_INITIALIZED_ADDR INT_BYTES s.eeprom = EEPROM_MAGIC_NUMBER) :
    loadAxisLimits s =
      (true, { s with
        minPosition := eepromGet EEPROM_MIN_POS_ADDR LONG_BYTES s.eeprom
        maxPosition := eepromGet EEPROM_MAX_POS_ADDR LONG_BYTES s.eeprom }) := by
  unfold loadAxisLimits
  dsimp only
  rw [if_pos (beq_iff_eq.mpr h), setMinPosition_eeprom, setMaxPosition_setMinPosition]

/-- The marker after `resetStoredLimits` is 0. -/
theorem resetStoredLimits_marker (s : State) :
    eepromGet EEPROM_INITIALIZED_ADDR INT_BYTES (resetStoredLimits s).eeprom = 0 := by
  simp only [resetStoredLimits]
  exact eepromGet_put_int _ _ _ (by decide) (by decide)

/-- C22. Round trip of the calibration record: whatever the EEPROM held
before, after `saveAxisLimits` in a state whose limits are `long` values, the
marker read from address 0 is the magic number, the `long` read from address 4
is the saved `minPosition` and the `long` read from address 8 is the saved
`maxPosition`; `loadAxisLimits` in any later state `t` with that EEPROM (the
limits in memory may have changed) returns `true` and sets the two limits to
the saved values, changing nothing else. -/
theorem saveAxisLimits_loadAxisLimits (s t : State) (hmin : IsLong s.minPosition)
    (hmax : IsLong s.maxPosition) (ht : t.eeprom = (saveAxisLimits s).eeprom) :
    loadAxisLimits t =
      (true, { t with minPosition := s.minPosition, maxPosition := s.maxPosition }) ∧
    eepromGet EEPROM_INITIALIZED_ADDR INT_BYTES t.eeprom = EEPROM_MAGIC_NUMBER ∧
    eepromGet EEPROM_MIN_POS_ADDR LONG_BYTES t.eeprom = s.minPosition ∧
    eepromGet EEPROM_MAX_POS_ADDR LONG_BYTES t.eeprom = s.maxPosition := by
  obtain ⟨f1, f2, f3⟩ := saveAxisLimits_fields s hmin hmax
  rw [← ht] at f1 f2 f3
  refine ⟨?_, f1, f2, f3⟩
  rw [loadAxisLimits_with_marker t f1, f2, f3]

/-- C22 at a concrete input: limits -1000 and 9000 are saved over an EEPROM
full of other bytes, the limits in memory are then overwritten with 5 and 6,
and `loadAxisLimits` brings -1000 and 9000 back. -/
theorem saveAxisLimits_loadAxisLimits_witness :
    IsLong limitsInMemory.minPosition ∧ IsLong limitsInMemory.maxPosition ∧
    loadAxisLimits { saveAxisLimits limitsInMemory with minPosition := 5, maxPosition := 6 } =
      (true, { saveAxisLimits limitsInMemory with minPosition := -1000, maxPosition := 9000 }) :=
  ⟨by simp [IsLong, LONG_MIN, LONG_MAX, limitsInMemory, State.init],
   by simp [IsLong, LONG_MIN, LONG_MAX, limitsInMemory, State.init],
   (saveAxisLimits_loadAxisLimits limitsInMemory
      { saveAxisLimits limitsInMemory with minPosition := 5, maxPosition := 6 }
      (by simp [IsLong, LONG_MIN, LONG_MAX, limitsInMemory, State.init])
      (by simp [IsLong, LONG_MIN, LONG_MAX, limitsInMemory, State.init]) rfl).1⟩

/-- C23. `loadAxisLimits` returns `true` exactly when the marker stored at
address 0 (an `int`: the cells 0 and 1) is the magic number 42, that is when
cell 0 holds 42 and cell 1 holds 0.  With any other marker it returns `false`
and the state, in particular `minPosition`, `maxPosition` and
`limitsInitialized`, is what it was; this covers the erased EEPROM, whose cells
all hold 255. -/
theorem loadAxisLimits_marker (s : State) :
    ((loadAxisLimits s).1 = true ↔
      eepromGet EEPROM_INITIALIZED_ADDR INT_BYTES s.eeprom = EEPROM_MAGIC_NUMBER) ∧
    ((loadAxisLimits s).1 = true ↔ s.eeprom 0 % 256 = 42 ∧ s.eeprom 1 % 256 = 0) ∧
    (eepromGet EEPROM_INITIALIZED_ADDR INT_BYTES s.eeprom ≠ EEPROM_MAGIC_NUMBER →
      loadAxisLimits s = (false, s)) ∧
    ((∀ a, s.eeprom a = 255) → loadAxisLimits s = (false, s)) := by
  have key : (loadAxisLimits s).1 = true ↔
      eepromGet EEPROM_INITIALIZED_ADDR INT_BYTES s.eeprom = EEPROM_MAGIC_NUMBER := by
    constructor
    · intro h1
      by_contra hne
      rw [loadAxisLimits_no_marker s hne] at h1
      cases h1
    · intro h
      rw [loadAxisLimits_with_marker s h]
  refine ⟨key, key.trans (marker_eq_magic_iff _), loadAxisLimits_no_marker s, ?_⟩
  intro h
  apply loadAxisLimits_no_marker
  rw [Ne, marker_eq_magic_iff, h 0]
  exact fun hc => absurd hc.1 (by norm_num)

/-- C23 at a concrete input: after power-up with an erased EEPROM
`loadAxisLimits` returns `false` and changes nothing. -/
theorem loadAxisLimits_marker_witness :
    (∀ a, powerUp.eeprom a = 255) ∧ loadAxisLimits powerUp = (false, powerUp) :=
  ⟨fun _ => rfl, (loadAxisLimits_marker powerUp).2.2.2 (fun _ => rfl)⟩

/-- C24. `resetStoredLimits` writes the `int` 0 over the marker and nothing
else: every cell from address 2 upward keeps its byte, so the stored minimum
and maximum read as before; the state in memory is unchanged; the marker reads
0 afterwards and a following `loadAxisLimits` returns `false` and changes
nothing. -/
theorem resetStoredLimits_clears_marker_only (s : State) :
    resetStoredLimits s = { s with eeprom := (resetStoredLimits s).eeprom } ∧
    (∀ a, EEPROM_INITIALIZED_ADDR + INT_BYTES ≤ a → (resetStoredLimits s).eeprom a = s.eeprom a) ∧
    eepromGet EEPROM_MIN_POS_ADDR LONG_BYTES (resetStoredLimits s).eeprom =
      eepromGet EEPROM_MIN_POS_ADDR LONG_BYTES s.eeprom ∧
    eepromGet EEPROM_MAX_POS_ADDR LONG_BYTES (resetStoredLimits s).eeprom =
      eepromGet EEPROM_MAX_POS_ADDR LONG_BYTES s.eeprom ∧
    eepromGet EEPROM_INITIALIZED_ADDR INT_BYTES (resetStoredLimits s).eeprom = 0 ∧
    loadAxisLimits (resetStoredLimits s) = (false, resetStoredLimits s) := by
  have frame : ∀ a, EEPROM_INITIALIZED_ADDR + INT_BYTES ≤ a →
      (resetStoredLimits s).eeprom a = s.eeprom a := by
    intro a ha
    simp only [resetStoredLimits]
    exact eepromPut_outside _ _ _ _ _ (Or.inr ha)
  refine ⟨rfl, frame, ?_, ?_, resetStoredLimits_marker s, ?_⟩
  · apply eepromGet_congr
    intro a h1 _
    exact frame a (by simp only [EEPROM_MIN_POS_ADDR, EEPROM_INITIALIZED_ADDR, INT_BYTES] at *; omega)
  · apply eepromGet_congr
    intro a h1 _
    exact frame a (by simp only [EEPROM_MAX_POS_ADDR, EEPROM_INITIALIZED_ADDR, INT_BYTES] at *; omega)
  · apply loadAxisLimits_no_marker
    rw [resetStoredLimits_marker]
    decide

/-- C24 at a concrete input: after saving the limits -1000 and 9000,
`resetStoredLimits` leaves the cell at address 4 (first byte of the stored
minimum) as it was. -/
theorem resetStoredLimits_clears_marker_only_witness :
    EEPROM_INITIALIZED_ADDR + INT_BYTES ≤ 4 ∧
    (resetStoredLimits (saveAxisLimits limitsInMemory)).eeprom 4 =
      (saveAxisLimits limitsInMemory).eeprom 4 :=
  ⟨by decide,
   (resetStoredLimits_clears_marker_only (saveAxisLimits limitsInMemory)).2.1 4 (by decide)⟩

end Dual

/-! ## Percentage of travel (claims C25, C26) -/

theorem longToInt_of_fits (x : Int) (h1 : -32768 ≤ x) (h2 : x ≤ 32767) : longToInt x = x := by
  unfold longToInt
  omega

theorem longToInt_bounds (x : Int) : -32768 ≤ longToInt x ∧ longToInt x ≤ 32767 := by
  unfold longToInt
  omega

/-- The two clamping statements of `getPositionPercentage` leave a value
between 0 and 100. -/
theorem clampPercent_bounds (x : Int) :
    0 ≤ (if (if x < 0 then 0 else x) > 100 then 100 else (if x < 0 then 0 else x)) ∧
    (if (if x < 0 then 0 else x) > 100 then 100 else (if x < 0 then 0 else x)) ≤ 100 := by
  split_ifs <;> omega

theorem clampPercent_eq (x : Int) :
    (if (if x < 0 then 0 else x) > 100 then 100 else (if x < 0 then 0 else x)) =
      max 0 (min 100 x) := by
  split_ifs <;> omega

namespace Single

theorem getPositionPercentage_eq (s : State) :
    getPositionPercentage s =
      if s.maxPosition ≤ 0 then some 0
      else some (max 0 (min 100 (longToInt
        ((wrapLong (s.currentPosition * 100)).tdiv s.maxPosition)))) := by
  unfold getPositionPercentage longDiv
  by_cases h : s.maxPosition ≤ 0
  · rw [if_pos h, if_pos h]
  · rw [if_neg h, if_neg h, if_neg (by omega)]
    dsimp only
    rw [clampPercent_eq]

end Single

namespace Dual

theorem getPositionPercentage_eq_dual (s : State) :
    getPositionPercentage s =
      if s.limitsInitialized = false ∨ wrapLong (s.maxPosition - s.minPosition) = 0 then some 0
      else some (max 0 (min 100 (longToInt
        ((wrapLong (wrapLong (s.currentPosition - s.minPosition) * 100)).tdiv
          (wrapLong (s.maxPosition - s.minPosition)))))) := by
  unfold getPositionPercentage longDiv
  by_cases h : s.limitsInitialized = false ∨ wrapLong (s.maxPosition - s.minPosition) = 0
  · rw [if_pos h, if_pos]
    rcases h with h | h
    · simp [h]
    · simp [h]
  · rw [if_neg h]
    have h1 : s.limitsInitialized = true := by
      cases hb : s.limitsInitialized
      · exact absurd (Or.inl hb) h
      · rfl
    have h2 : wrapLong (s.maxPosition - s.minPosition) ≠ 0 := fun hc => h (Or.inr hc)
    rw [if_neg (by simp [h1, h2])]
    dsimp only
    rw [if_neg h2]
    dsimp only
    rw [clampPercent_eq]

end Dual

/-- C25. In both variants `getPositionPercentage` returns a result for every
state (no division by zero is reached) and the result is between 0 and 100.
The single-limit variant returns 0 whenever `maxPosition <= 0`; the dual-limit
variant returns 0 whenever the limits are not initialized or
`maxPosition == minPosition`. -/
theorem getPositionPercentage_in_range (s : Single.State) (d : Dual.State) :
    (∃ p, Single.getPositionPercentage s = some p ∧ 0 ≤ p ∧ p ≤ 100 ∧
      (s.maxPosition ≤ 0 → p = 0)) ∧
    (∃ p, Dual.getPositionPercentage d = some p ∧ 0 ≤ p ∧ p ≤ 100 ∧
      (d.limitsInitialized = false ∨ d.maxPosition = d.minPosition → p = 0)) := by
  constructor
  · rw [Single.getPositionPercentage_eq]
    by_cases h : s.maxPosition ≤ 0
    · exact ⟨0, by rw [if_pos h], le_refl _, by decide, fun _ => rfl⟩
    · refine ⟨_, by rw [if_neg h], le_max_left _ _, ?_, fun hc => absurd hc h⟩
      exact max_le (by decide) (min_le_left _ _)
  · rw [Dual.getPositionPercentage_eq_dual]
    by_cases h : d.limitsInitialized = false ∨ wrapLong (d.maxPosition - d.minPosition) = 0
    · exact ⟨0, by rw [if_pos h], le_refl _, by decide, fun _ => rfl⟩
    · refine ⟨_, by rw [if_neg h], le_max_left _ _, ?_, fun hc => absurd ?_ h⟩
      · exact max_le (by decide) (min_le_left _ _)
      · rcases hc with hc | hc
        · exact Or.inl hc
        · exact Or.inr (by rw [hc, sub_self]; rfl)

/-- C25 at concrete inputs: the single-limit state with `maxPosition = 0` and
the dual-limit state after power-up (limits not initialized) both report 0. -/
theorem getPositionPercentage_in_range_witness :
    (Single.setMaxPosition 0 (Single.stateAt 5000)).maxPosition ≤ 0 ∧
    Dual.powerUp.limitsInitialized = false ∧
    Single.getPositionPercentage (Single.setMaxPosition 0 (Single.stateAt 5000)) = some 0 ∧
    Dual.getPositionPercentage Dual.powerUp = some 0 :=
  have h := getPositionPercentage_in_range (Single.setMaxPosition 0 (Single.stateAt 5000))
    Dual.powerUp
  ⟨by decide, rfl,
   h.1.elim fun _ hp => (hp.2.2.2 (by decide)) ▸ hp.1,
   h.2.elim fun _ hp => (hp.2.2.2 (Or.inl rfl)) ▸ hp.1⟩

namespace Dual

/-- After clamping to [0,100], the quotient truncated toward zero and the
floor of the exact quotient agree (positive divisor). -/
theorem clamp_tdiv_natCast (a : Int) (n : Nat) (hn : 0 < n) :
    max 0 (min 100 (a.tdiv (n : Int))) = max 0 (min 100 ⌊(a : ℚ) / (n : ℚ)⌋) := by
  rw [Rat.floor_intCast_div_natCast]
  by_cases ha : 0 ≤ a
  · rw [Int.tdiv_eq_ediv ha (Int.ofNat_nonneg n)]
  · have ha2 : a < 0 := by omega
    have hn2 : (0 : Int) < n := by exact_mod_cast hn
    have h1 : a / (n : Int) < 0 := Int.ediv_neg' ha2 hn2
    have h2 : a.tdiv (n : Int) ≤ 0 := by
      have e : a.tdiv (n : Int) = -((-a).tdiv (n : Int)) := by rw [Int.neg_tdiv, neg_neg]
      rw [e]
      have := Int.tdiv_nonneg (a := -a) (b := (n : Int)) (by omega) (by omega)
      omega
    rw [max_eq_left (le_trans (min_le_right _ _) h2),
      max_eq_left (le_trans (min_le_right _ _) (le_of_lt h1))]

/-- After clamping to [0,100], the quotient truncated toward zero and the
floor of the exact quotient agree. -/
theorem clamp_tdiv_eq_clamp_floor (a b : Int) (hb : b ≠ 0) :
    max 0 (min 100 (a.tdiv b)) = max 0 (min 100 ⌊(a : ℚ) / (b : ℚ)⌋) := by
  rcases lt_or_gt_of_ne hb with hneg | hpos
  · have e1 : a.tdiv b = (-a).tdiv ((-b).toNat : Int) := by
      rw [Int.toNat_of_nonneg (by omega), Int.neg_tdiv_neg]
    have e2 : (a : ℚ) / (b : ℚ) = ((-a : Int) : ℚ) / (((-b).toNat : Nat) : ℚ) := by
      have : (((-b).toNat : Nat) : ℚ) = ((-b : Int) : ℚ) := by
        rw [← Int.cast_natCast, Int.toNat_of_nonneg (by omega)]
      rw [this]
      push_cast
      rw [neg_div_neg_eq]
    rw [e1, e2]
    exact clamp_tdiv_natCast (-a) (-b).toNat (by omega)
  · have e1 : a.tdiv b = a.tdiv ((b.toNat : Nat) : Int) := by
      rw [Int.toNat_of_nonneg (by omega)]
    have e2 : (a : ℚ) / (b : ℚ) = (a : ℚ) / ((b.toNat : Nat) : ℚ) := by
      have : ((b.toNat : Nat) : ℚ) = (b : ℚ) := by
        rw [← Int.cast_natCast, Int.toNat_of_nonneg (by omega)]
      rw [this]
    rw [e1, e2]
    exact clamp_tdiv_natCast a b.toNat (by omega)

/-- C26, counterexample. With calibrated limits 0 and 3 and the axis at
position 2 the exact quotient is 66.67: the formula of the specification
rounds it to 67, while `getPositionPercentage` returns 66. -/
theorem getPositionPercentage_two_thirds_is_66 :
    atTwoThirds.limitsInitialized = true ∧ atTwoThirds.maxPosition ≠ atTwoThirds.minPosition ∧
    getPositionPercentage atTwoThirds = some 66 ∧ percentageRounded atTwoThirds = 67 := by
  refine ⟨rfl, by decide, by decide, ?_⟩
  simp only [percentageRounded, atTwoThirds, powerUp, State.init]
  have h : round ((100 * (((2 : Int) : ℚ) - ((0 : Int) : ℚ))) / (((3 : Int) : ℚ) - ((0 : Int) : ℚ))) = 67 := by
    rw [round_eq, Int.floor_eq_iff]
    norm_num
  rw [h]
  decide

end Dual

namespace Dual

/-! ### Dual-limit variant: range check and clamp (claim C27) -/

theorem constrainPosition_uninit (p : Int) (s : State) (h : s.limitsInitialized = false) :
    constrainPosition p s = p := by
  unfold constrainPosition
  rw [if_pos (by rw [h]; rfl)]

theorem constrainPosition_init (p : Int) (s : State) (h : s.limitsInitialized = true) :
    constrainPosition p s =
      if p < s.minPosition then s.minPosition
      else if p > s.maxPosition then s.maxPosition else p := by
  unfold constrainPosition
  rw [if_neg (by rw [h]; decide)]

theorem isPositionInRange_uninit (p : Int) (s : State) (h : s.limitsInitialized = false) :
    isPositionInRange p s = true := by
  unfold isPositionInRange
  rw [if_pos (by rw [h]; rfl)]

theorem isPositionInRange_init (p : Int) (s : State) (h : s.limitsInitialized = true) :
    isPositionInRange p s = true ↔ s.minPosition ≤ p ∧ p ≤ s.maxPosition := by
  unfold isPositionInRange
  rw [if_neg (by rw [h]; decide)]
  simp only [Bool.and_eq_true, decide_eq_true_eq, ge_iff_le]

/-- C27. With limits not initialized `constrainPosition` is the identity and
`isPositionInRange` is true of every position.  With limits initialized and
`minPosition <= maxPosition`, `constrainPosition p` lies in
`[minPosition, maxPosition]` and no position of that interval is nearer to `p`.
In both cases `constrainPosition p` is in range, `constrainPosition` is
idempotent and `constrainPosition p = p` exactly when `isPositionInRange p`. -/
theorem constrainPosition_nearest_in_range (p : Int) (s : State) :
    (s.limitsInitialized = false → constrainPosition p s = p ∧ isPositionInRange p s = true) ∧
    (s.limitsInitialized = true → s.minPosition ≤ s.maxPosition →
      s.minPosition ≤ constrainPosition p s ∧ constrainPosition p s ≤ s.maxPosition ∧
      (∀ q, s.minPosition ≤ q → q ≤ s.maxPosition → |constrainPosition p s - p| ≤ |q - p|)) ∧
    (s.limitsInitialized = false ∨ s.minPosition ≤ s.maxPosition →
      isPositionInRange (constrainPosition p s) s = true ∧
      constrainPosition (constrainPosition p s) s = constrainPosition p s ∧
      (constrainPosition p s = p ↔ isPositionInRange p s = true)) := by
  refine ⟨fun h => ⟨constrainPosition_uninit p s h, isPositionInRange_uninit p s h⟩, ?_, ?_⟩
  · intro hinit hle
    rw [constrainPosition_init p s hinit]
    refine ⟨by split_ifs <;> omega, by split_ifs <;> omega, ?_⟩
    intro q h1 h2
    split_ifs with c1 c2
    · rw [abs_of_nonneg (by omega), abs_of_nonneg (by omega)]; omega
    · rw [abs_of_nonpos (by omega), abs_of_nonpos (by omega)]; omega
    · rw [sub_self, abs_zero]; exact abs_nonneg _
  · intro h
    cases hinit : s.limitsInitialized
    · rw [constrainPosition_uninit p s hinit, constrainPosition_uninit p s hinit]
      exact ⟨isPositionInRange_uninit p s hinit, rfl,
        ⟨fun _ => isPositionInRange_uninit p s hinit, fun _ => rfl⟩⟩
    · have hle : s.minPosition ≤ s.maxPosition := by
        rcases h with h | h
        · rw [hinit] at h; cases h
        · exact h
      rw [isPositionInRange_init _ s hinit, isPositionInRange_init _ s hinit,
        constrainPosition_init p s hinit, constrainPosition_init _ s hinit]
      refine ⟨⟨by split_ifs <;> omega, by split_ifs <;> omega⟩, by split_ifs <;> omega, ?_⟩
      constructor
      · intro e
        split_ifs at e <;> omega
      · intro ⟨e1, e2⟩
        rw [if_neg (by omega), if_neg (by omega)]

/-- C27 at a concrete input: with calibrated limits -1000 and 9000 the
position 12000 is constrained to 9000, which is in range, and 12000 is not. -/
theorem constrainPosition_nearest_in_range_witness :
    calibratedAxis.limitsInitialized = true ∧
    calibratedAxis.minPosition ≤ calibratedAxis.maxPosition ∧
    constrainPosition 12000 calibratedAxis = 9000 ∧
    isPositionInRange (constrainPosition 12000 calibratedAxis) calibratedAxis = true ∧
    isPositionInRange 12000 calibratedAxis = false ∧
    calibratedAxis.minPosition ≤ constrainPosition 12000 calibratedAxis :=
  ⟨rfl, by decide, by decide,
   ((constrainPosition_nearest_in_range 12000 calibratedAxis).2.2 (Or.inr (by decide))).1,
   by decide,
   ((constrainPosition_nearest_in_range 12000 calibratedAxis).2.1 rfl (by decide)).1⟩

end Dual

namespace Dual

/-! ### Dual-limit variant: `runHoming` -/

theorem runHoming_uncalibrated (env : Env) (s : State) (h : s.limitsInitialized = false) :
    runHoming env s = (HomingExit.notCalibrated, s) := by
  unfold runHoming
  rw [if_pos (by rw [h]; rfl)]

/-- When the limits are initialized `runHoming` ends with `disableMotor`. -/
theorem runHoming_calibrated (env : Env) (s : State) (h : s.limitsInitialized = true) :
    ∃ ok t, runHoming env s = (HomingExit.complete ok, disableMotor t) ∧
      (t = enableMotor s ∨
        ∃ n direction, t = (moveSteps env n direction (enableMotor s)).2) := by
  unfold runHoming
  rw [if_neg (by rw [h]; decide)]
  dsimp only
  by_cases hz : ((enableMotor s).minPosition + (BACKOFF_STEPS : Int) -
      (enableMotor s).currentPosition != 0) = true
  · rw [if_pos hz]
    exact ⟨_, _, rfl, Or.inr ⟨_, _, rfl⟩⟩
  · rw [if_neg hz]
    exact ⟨_, _, rfl, Or.inl rfl⟩

/-- C28. When the limits are not initialized, `runHoming` of the dual-limit
variant takes its "not calibrated" exit and returns the state it was given: no
pulse, no write to the enable output, no field changed. -/
theorem runHoming_rejected_when_uncalibrated (env : Env) (s : State)
    (h : s.limitsInitialized = false) :
    runHoming env s = (HomingExit.notCalibrated, s) ∧
    (runHoming env s).2.pulses = s.pulses ∧
    (runHoming env s).2.enaLog = s.enaLog := by
  rw [runHoming_uncalibrated env s h]
  exact ⟨rfl, rfl, rfl⟩

/-- C28 at a concrete input: homing right after power-up, before any
calibration. -/
theorem runHoming_rejected_when_uncalibrated_witness :
    powerUp.limitsInitialized = false ∧
    runHoming Env.quiet powerUp = (HomingExit.notCalibrated, powerUp) :=
  ⟨rfl, (runHoming_rejected_when_uncalibrated Env.quiet powerUp rfl).1⟩

end Dual

/-! ## The enable output at the end of a command (claim C29) -/

namespace Single

theorem processRelativeMove_enaLog (env : Env) (steps : Int) (s : State) :
    (processRelativeMove env steps s).enaLog = s.enaLog ∨
      MotorOff (processRelativeMove env steps s).enaLog := by
  unfold processRelativeMove
  by_cases h0 : steps = 0
  · left; simp [h0]
  · by_cases h1 : (relativeTarget s.currentPosition s.maxPosition steps).2 = 0
    · left; simp [h0, h1]
    · right
      simp only [beq_iff_eq, h0, h1, if_false]
      rfl

theorem homingFinish_motorOff (env : Env) (s : State) :
    MotorOff (homingFinish env s).2.enaLog := by
  unfold homingFinish
  dsimp only
  rfl

theorem runHoming_motorOff (env : Env) (s : State) : MotorOff (runHoming env s).2.enaLog := by
  rw [runHoming_eq]
  cases (homingSearchHome env s).1
  · dsimp only
    cases (homingSearchFar env (homingSearchHome env s).2).1
    · exact homingFinish_motorOff env _
    · rfl
    · rfl
  · rfl
  · rfl

end Single

namespace Dual

theorem runHoming_enaLog (env : Env) (s : State) :
    (runHoming env s).2.enaLog = s.enaLog ∨ MotorOff (runHoming env s).2.enaLog := by
  cases h : s.limitsInitialized
  · left; rw [runHoming_uncalibrated env s h]
  · right
    obtain ⟨ok, t, e, _⟩ := runHoming_calibrated env s h
    rw [e]
    rfl

theorem calFinish_motorOff (env : Env) (minPos maxPos : Int) (s : State) :
    MotorOff (calFinish env minPos maxPos s).2.enaLog := by
  unfold calFinish
  dsimp only
  split_ifs <;> rfl

theorem runCalibration_motorOff (env : Env) (s : State) :
    MotorOff (runCalibration env s).2.enaLog := by
  rw [runCalibration_eq]
  split_ifs
  · rfl
  · rfl
  · exact calFinish_motorOff env _ _ _

end Dual

/-- C29. Every command ends with the motor de-energized.  `runHoming` of the
single-limit variant and `runCalibration` enable the motor on every path, and
on each of their exits the last write to the enable output is "disabled".
`processRelativeMove` and `runHoming` of the dual-limit variant either return
without any write to the enable output (the paths that never enable the motor)
or end with the write "disabled".  Hence a motor that is disabled before
one of these commands is disabled after it. -/
theorem commands_end_with_motor_disabled (env : Env) (steps : Int) (s : Single.State)
    (d : Dual.State) :
    ((Single.processRelativeMove env steps s).enaLog = s.enaLog ∨
      MotorOff (Single.processRelativeMove env steps s).enaLog) ∧
    MotorOff (Single.runHoming env s).2.enaLog ∧
    ((Dual.runHoming env d).2.enaLog = d.enaLog ∨ MotorOff (Dual.runHoming env d).2.enaLog) ∧
    MotorOff (Dual.runCalibration env d).2.enaLog ∧
    (MotorOff s.enaLog → MotorOff (Single.processRelativeMove env steps s).enaLog) ∧
    (MotorOff d.enaLog → MotorOff (Dual.runHoming env d).2.enaLog) := by
  refine ⟨Single.processRelativeMove_enaLog env steps s, Single.runHoming_motorOff env s,
    Dual.runHoming_enaLog env d, Dual.runCalibration_motorOff env d, ?_, ?_⟩
  · intro h
    rcases Single.processRelativeMove_enaLog env steps s with e | e
    · rw [e]; exact h
    · exact e
  · intro h
    rcases Dual.runHoming_enaLog env d with e | e
    · rw [e]; exact h
    · exact e

/-- C29 at a concrete input: after `setup()` the motor is disabled, and it is
disabled again after a relative move that is stopped by a stop request and
after a homing request on the uncalibrated dual-limit axis. -/
theorem commands_end_with_motor_disabled_witness :
    MotorOff (Single.stateAt 5000).enaLog ∧ MotorOff Dual.powerUp.enaLog ∧
    MotorOff (Single.processRelativeMove Single.envStopping 500 (Single.stateAt 5000)).enaLog ∧
    MotorOff (Dual.runHoming Env.quiet Dual.powerUp).2.enaLog :=
  ⟨rfl, rfl,
   (commands_end_with_motor_disabled Single.envStopping 500 (Single.stateAt 5000)
      Dual.powerUp).2.2.2.2.1 rfl,
   (commands_end_with_motor_disabled Env.quiet 500 (Single.stateAt 5000)
      Dual.powerUp).2.2.2.2.2 rfl⟩

namespace Dual

/-! ### Dual-limit variant: who writes `calibrationMode` (claim C30) -/

theorem pollStop_calibrationMode (env : Env) (s : State) :
    (pollStop env s).2.calibrationMode = s.calibrationMode := by
  unfold pollStop
  dsimp only
  split_ifs <;> rfl

theorem backOffFromLimit_calibrationMode (direction : Bool) (s : State) :
    (backOffFromLimit direction s).calibrationMode = s.calibrationMode := by
  rw [backOffFromLimit_eq_dual]

theorem checkLimitSwitch_calibrationMode (env : Env) (direction : Bool) (s : State) :
    (checkLimitSwitch env direction s).2.calibrationMode = s.calibrationMode := by
  unfold checkLimitSwitch readLimit
  dsimp only
  split_ifs
  · rfl
  · rfl
  · rw [backOffFromLimit_calibrationMode]; rfl
  · rw [backOffFromLimit_calibrationMode]; rfl
  · rfl

theorem phaseLoop_calibrationMode (env : Env) (upd : Int → Int) (direction : Bool) (n : Nat)
    (stepDelay : Int) (s : State) :
    (phaseLoop env upd direction n stepDelay s).2.2.calibrationMode = s.calibrationMode := by
  induction n generalizing stepDelay s with
  | zero => rfl
  | succ n ih =>
    unfold phaseLoop
    dsimp only
    split_ifs
    · exact pollStop_calibrationMode env s
    · rw [checkLimitSwitch_calibrationMode, pollStop_calibrationMode]
    · rw [ih]
      show (checkLimitSwitch env direction (pollStop env s).2).2.calibrationMode = _
      rw [checkLimitSwitch_calibrationMode, pollStop_calibrationMode]

theorem moveSteps_calibrationMode (env : Env) (count : Int) (direction : Bool) (s : State) :
    (moveSteps env count direction s).2.calibrationMode = s.calibrationMode := by
  rw [moveSteps_eq_dual]
  dsimp only
  split_ifs <;> simp only [phaseLoop_calibrationMode] <;> rfl

theorem runHoming_calibrationMode (env : Env) (s : State) :
    (runHoming env s).2.calibrationMode = s.calibrationMode := by
  cases h : s.limitsInitialized
  · rw [runHoming_uncalibrated env s h]
  · obtain ⟨ok, t, e, ht⟩ := runHoming_calibrated env s h
    rw [e]
    rcases ht with ht | ⟨n, direction, ht⟩
    · rw [ht]; rfl
    · rw [ht]
      show (moveSteps env n direction (enableMotor s)).2.calibrationMode = _
      rw [moveSteps_calibrationMode]
      rfl

/-- `loadAxisLimits` writes at most the two limits. -/
theorem loadAxisLimits_frame (s : State) :
    ∃ lo hi, (loadAxisLimits s).2 = { s with minPosition := lo, maxPosition := hi } := by
  by_cases h : eepromGet EEPROM_INITIALIZED_ADDR INT_BYTES s.eeprom = EEPROM_MAGIC_NUMBER
  · exact ⟨_, _, congrArg Prod.snd (loadAxisLimits_with_marker s h)⟩
  · exact ⟨s.minPosition, s.maxPosition, congrArg Prod.snd (loadAxisLimits_no_marker s h)⟩

theorem loadAxisLimits_calibrationMode (s : State) :
    (loadAxisLimits s).2.calibrationMode = s.calibrationMode := by
  obtain ⟨lo, hi, e⟩ := loadAxisLimits_frame s
  rw [e]

theorem calFinish_calibrationMode (env : Env) (minPos maxPos : Int) (s : State) :
    (calFinish env minPos maxPos s).2.calibrationMode = false := by
  unfold calFinish
  dsimp only
  split_ifs <;> rfl

/-- C30. On every exit of `runCalibration` (timeout of either search, invalid
range, completion) `calibrationMode` is false.  No other operation writes it:
`moveSteps`, `checkLimitSwitch`, `backOffFromLimit`, `runHoming`,
`emergencyStop`, `saveAxisLimits`, `loadAxisLimits` and `resetStoredLimits`
return it as they found it, so it is never set to true outside
`runCalibration`. -/
theorem calibrationMode_written_by_runCalibration_only (env : Env) (s : State) (count : Int)
    (direction : Bool) :
    (runCalibration env s).2.calibrationMode = false ∧
    (moveSteps env count direction s).2.calibrationMode = s.calibrationMode ∧
    (checkLimitSwitch env direction s).2.calibrationMode = s.calibrationMode ∧
    (backOffFromLimit direction s).calibrationMode = s.calibrationMode ∧
    (runHoming env s).2.calibrationMode = s.calibrationMode ∧
    (emergencyStop s).calibrationMode = s.calibrationMode ∧
    (saveAxisLimits s).calibrationMode = s.calibrationMode ∧
    (loadAxisLimits s).2.calibrationMode = s.calibrationMode ∧
    (resetStoredLimits s).calibrationMode = s.calibrationMode := by
  refine ⟨?_, moveSteps_calibrationMode env count direction s,
    checkLimitSwitch_calibrationMode env direction s, backOffFromLimit_calibrationMode direction s,
    runHoming_calibrationMode env s, rfl, rfl, loadAxisLimits_calibrationMode s, rfl⟩
  rw [runCalibration_eq]
  split_ifs
  · rfl
  · rfl
  · exact calFinish_calibrationMode env _ _ _

end Dual

/-! ## Phase lengths of `moveSteps` (claim C31) -/

/-- C31. The phase lengths computed at the head of `moveSteps` for a count
that is not negative.  For `count >= 40` acceleration and deceleration are both
`count / 4` and the cruise phase is the remainder, so the three phases add up
to `count`.  For `count >= 20` acceleration and deceleration are both at least
10.  For `count < 20` acceleration is `count / 2`, deceleration is
`count - count / 2` and there is no cruise phase. -/
theorem phaseSteps_lengths (count : Int) (h0 : 0 ≤ count) :
    (40 ≤ count →
      phaseSteps count = (count / 4, count - count / 4 - count / 4, count / 4) ∧
      (phaseSteps count).1 + (phaseSteps count).2.1 + (phaseSteps count).2.2 = count) ∧
    (20 ≤ count → 10 ≤ (phaseSteps count).1 ∧ 10 ≤ (phaseSteps count).2.2) ∧
    (count < 20 → phaseSteps count = (count / 2, 0, count - count / 2)) := by
  have h4 : count.tdiv 4 = count / 4 := Int.tdiv_eq_ediv h0 (by decide)
  have h2 : count.tdiv 2 = count / 2 := Int.tdiv_eq_ediv h0 (by decide)
  unfold phaseSteps
  simp only [h4, h2]
  refine ⟨?_, ?_, ?_⟩
  · intro h
    split_ifs <;> first | omega | exact ⟨rfl, by dsimp only; omega⟩
  · intro h
    split_ifs <;> dsimp only <;> omega
  · intro h
    split_ifs <;> first | omega | rfl

/-- C31 at concrete inputs: 100 steps are scheduled as 25 + 50 + 25, and 7
steps as 3 + 0 + 4. -/
theorem phaseSteps_lengths_witness :
    (0 : Int) ≤ 100 ∧ (40 : Int) ≤ 100 ∧ phaseSteps 100 = (25, 50, 25) ∧
    (0 : Int) ≤ 7 ∧ (7 : Int) < 20 ∧ phaseSteps 7 = (3, 0, 4) :=
  ⟨by decide, by decide, ((phaseSteps_lengths 100 (by decide)).1 (by decide)).1,
   by decide, by decide, (phaseSteps_lengths 7 (by decide)).2.2 (by decide)⟩

/-! ## The delay schedule of an uninterrupted move (claim C32) -/

theorem rampEnd_eq_iterate (upd : Int → Int) (n : Nat) (stepDelay : Int) :
    rampEnd upd n stepDelay = upd^[n] stepDelay := by
  induction n generalizing stepDelay with
  | zero => rfl
  | succ n ih => rw [rampEnd, ih, Function.iterate_succ_apply]

/-- The delays of a phase, oldest first, are the iterates of the delay update. -/
theorem rampPulses_delays (upd : Int → Int) (direction : Bool) (n : Nat) (stepDelay : Int) :
    (rampPulses upd direction n stepDelay).reverse.map Pulse.delay =
      (List.range n).map fun i => upd^[i] stepDelay := by
  induction n generalizing stepDelay with
  | zero => rfl
  | succ n ih =>
    rw [rampPulses, List.reverse_append, List.map_append, ih, List.range_succ_eq_map,
      List.map_cons, List.map_map]
    rfl

theorem accelDelay_iterate (i : Nat) :
    accelDelay^[i] MAX_STEP_DELAY = max MIN_STEP_DELAY (MAX_STEP_DELAY - ACCEL_RATE * (i : Int)) := by
  induction i with
  | zero => simp [MIN_STEP_DELAY, MAX_STEP_DELAY]
  | succ i ih =>
    rw [Function.iterate_succ_apply', ih]
    unfold accelDelay
    simp only [MIN_STEP_DELAY, MAX_STEP_DELAY, ACCEL_RATE]
    push_cast
    split_ifs <;> omega

theorem decelDelay_iterate (c : Int) (hc : c ≤ MAX_STEP_DELAY) (j : Nat) :
    decelDelay^[j] c = min MAX_STEP_DELAY (c + DECEL_RATE * (j : Int)) := by
  induction j with
  | zero => simp [hc]
  | succ j ih =>
    rw [Function.iterate_succ_apply', ih]
    unfold decelDelay
    simp only [MAX_STEP_DELAY, DECEL_RATE] at hc ⊢
    push_cast
    split_ifs <;> omega

theorem cruiseDelay_le (a : Nat) : cruiseDelay a ≤ MAX_STEP_DELAY := by
  unfold cruiseDelay
  simp only [MIN_STEP_DELAY, MAX_STEP_DELAY, ACCEL_RATE]
  omega

/-- The pulses of an uninterrupted `moveSteps`, oldest first, have the delays
of the closed form. -/
theorem movePulses_delays (count : Int) (direction : Bool) :
    (movePulses count direction).reverse.map Pulse.delay = delaySchedule count := by
  unfold movePulses delaySchedule
  dsimp only
  generalize (phaseSteps count).1.toNat = a
  generalize (phaseSteps count).2.1.toNat = c
  generalize (phaseSteps count).2.2.toNat = d
  have hcruise : accelDelay^[a] MAX_STEP_DELAY = cruiseDelay a := accelDelay_iterate a
  have hid : ∀ n (x : Int), id^[n] x = x := fun n x => by rw [Function.iterate_id]; rfl
  rw [List.reverse_append, List.reverse_append, List.map_append, List.map_append,
    rampPulses_delays, rampPulses_delays, rampPulses_delays]
  simp only [rampEnd_eq_iterate, hid, List.append_assoc]
  rw [hcruise]
  congr 1
  · unfold accelSchedule
    exact List.map_congr_left fun i _ => accelDelay_iterate i
  · congr 1
    · rw [List.map_const', List.length_range]
    · unfold decelSchedule
      exact List.map_congr_left fun j _ => decelDelay_iterate _ (cruiseDelay_le a) j

theorem accelSchedule_pairwise (a : Nat) :
    List.Pairwise (fun x y => y ≤ x) (accelSchedule a) := by
  unfold accelSchedule
  rw [List.pairwise_map]
  refine List.Pairwise.imp ?_ (List.pairwise_lt_range a)
  intro i j hij
  simp only [MIN_STEP_DELAY, MAX_STEP_DELAY, ACCEL_RATE]
  omega

theorem decelSchedule_pairwise (a d : Nat) :
    List.Pairwise (fun x y => x ≤ y) (decelSchedule a d) := by
  unfold decelSchedule
  rw [List.pairwise_map]
  refine List.Pairwise.imp ?_ (List.pairwise_lt_range d)
  intro i j hij
  simp only [MAX_STEP_DELAY, DECEL_RATE]
  omega

theorem delaySchedule_head (count : Int) (h : 0 < scheduledPulses count) :
    (delaySchedule count).head? = some MAX_STEP_DELAY := by
  unfold scheduledPulses at h
  unfold delaySchedule
  dsimp only
  generalize (phaseSteps count).1.toNat = a at h ⊢
  generalize (phaseSteps count).2.1.toNat = c at h ⊢
  generalize (phaseSteps count).2.2.toNat = d at h ⊢
  have h0 : cruiseDelay 0 = MAX_STEP_DELAY := by decide
  cases a with
  | succ a =>
    simp only [accelSchedule, List.range_succ_eq_map, List.map_cons, List.cons_append,
      List.head?_cons]
    decide
  | zero =>
    cases c with
    | succ c => simp only [accelSchedule, List.range_zero, List.map_nil, List.nil_append,
        List.replicate_succ, List.cons_append, List.head?_cons, h0]
    | zero =>
      cases d with
      | succ d =>
        simp only [accelSchedule, decelSchedule, List.range_zero, List.map_nil, List.nil_append,
          List.replicate_zero, List.range_succ_eq_map, List.map_cons, List.head?_cons, h0]
        decide
      | zero => omega

namespace Single

/-- C32. In a run of `moveSteps` in which the switch does not trigger and no
stop request arrives, the delays of the pulses issued, oldest first, are the
closed form `delaySchedule`: the i-th acceleration pulse uses
`max(MIN_STEP_DELAY, MAX_STEP_DELAY - ACCEL_RATE * i)`, every cruise pulse uses
`c = max(MIN_STEP_DELAY, MAX_STEP_DELAY - ACCEL_RATE * A)`, `A` being the
acceleration length, and the j-th deceleration pulse uses
`min(MAX_STEP_DELAY, c + DECEL_RATE * j)`.  If any pulse is issued the first one
is at `MAX_STEP_DELAY`; the acceleration delays never increase and the
deceleration delays never decrease. -/
theorem moveSteps_delay_schedule (env : Env) (count : Int) (direction : Bool) (s : State)
    (hlimit : ∀ i, i < scheduledPulses count → env.limit (s.reads + i) = false)
    (hstop : ∀ i, i < scheduledPulses count → env.stop (s.polls + i) = false) :
    (issuedSince s.pulses (moveSteps env count direction s).2.pulses).reverse.map Pulse.delay =
      delaySchedule count ∧
    (0 < scheduledPulses count → (delaySchedule count).head? = some MAX_STEP_DELAY) ∧
    (∀ a, List.Pairwise (fun x y => y ≤ x) (accelSchedule a)) ∧
    (∀ a d, List.Pairwise (fun x y => x ≤ y) (decelSchedule a d)) := by
  refine ⟨?_, delaySchedule_head count, accelSchedule_pairwise, decelSchedule_pairwise⟩
  rw [moveSteps_quiet env count direction s hlimit hstop]
  show (issuedSince s.pulses (movePulses count direction ++ s.pulses)).reverse.map Pulse.delay = _
  rw [issuedSince_append, movePulses_delays]

/-- C32 at a concrete input: 100 steps CCW after `setup()`, switch never
triggered, no stop request. -/
theorem moveSteps_delay_schedule_witness :
    (issuedSince State.init.pulses
        (moveSteps Env.quiet 100 CCW State.init).2.pulses).reverse.map Pulse.delay =
      delaySchedule 100 ∧
    (delaySchedule 100).head? = some MAX_STEP_DELAY :=
  ⟨(moveSteps_delay_schedule Env.quiet 100 CCW State.init (fun _ _ => rfl) (fun _ _ => rfl)).1,
   (moveSteps_delay_schedule Env.quiet 100 CCW State.init (fun _ _ => rfl)
      (fun _ _ => rfl)).2.1 (by decide)⟩

end Single

namespace Dual

/-! ### Dual-limit variant: the measured travel range (claim C33) -/

/-- The CCW search of `runCalibration` ends at least `BACKOFF_STEPS` above the
position at which it was entered. -/
theorem calSearchMax_position (env : Env) (s : State) :
    s.currentPosition + (BACKOFF_STEPS : Int) ≤ (calSearchMax env s).2.currentPosition := by
  unfold calSearchMax
  dsimp only
  obtain ⟨k, r, _, _, he⟩ := seekLoop_shape env true tooFarMax
    (seekMaxFuel (setDirection true (backOffFromLimit (!false) s)))
    (setDirection true (backOffFromLimit (!false) s))
  rw [he, backOffFromLimit_eq_dual]
  show s.currentPosition + (BACKOFF_STEPS : Int) ≤
    s.currentPosition + (BACKOFF_STEPS : Int) * (if (!false) = true then 1 else -1) +
      (k : Int) * (if true = true then 1 else -1)
  simp only [Bool.not_false, if_true, mul_one]
  omega

/-- C33. In `runCalibration`, when both searches find the switch, the travel
range measured from the two positions read at the end of the searches,
`maxPos - minPos`, is at least `BACKOFF_STEPS`; `runCalibration` never takes
its "Invalid travel range" exit, whatever the switch does. -/
theorem runCalibration_range_never_invalid (env : Env) (s : State) :
    ((calSearchMin env s).1 = true → (calSearchMax env (calSearchMin env s).2).1 = true →
      (BACKOFF_STEPS : Int) ≤
        (calSearchMax env (calSearchMin env s).2).2.currentPosition -
          (calSearchMin env s).2.currentPosition) ∧
    (runCalibration env s).1 ≠ CalExit.invalidRange := by
  have key := calSearchMax_position env (calSearchMin env s).2
  refine ⟨fun _ _ => by omega, ?_⟩
  rw [runCalibration_eq]
  split_ifs
  · simp
  · simp
  · unfold calFinish
    dsimp only
    have hpos : (0 : Int) < BACKOFF_STEPS := by decide
    rw [if_neg (by omega)]
    simp

/-- C33 at a concrete input: the switch is met after one CW step (position
-1) and at the first sample of the CCW search (position 1599); the measured
range is 1600. -/
theorem runCalibration_range_never_invalid_witness :
    (calSearchMin trippedInFinalMove powerUp).1 = true ∧
    (calSearchMax trippedInFinalMove (calSearchMin trippedInFinalMove powerUp).2).1 = true ∧
    (BACKOFF_STEPS : Int) ≤
      (calSearchMax trippedInFinalMove (calSearchMin trippedInFinalMove powerUp).2).2.currentPosition -
        (calSearchMin trippedInFinalMove powerUp).2.currentPosition :=
  ⟨by decide!, by decide!,
   (runCalibration_range_never_invalid trippedInFinalMove powerUp).1 (by decide!) (by decide!)⟩

end Dual

namespace Single

/-! ### Single-limit variant: the clamp of `processRelativeMove` (claim C34) -/

/-- The path of `processRelativeMove` on which the motor runs. -/
theorem processRelativeMove_moves (env : Env) (steps : Int) (s : State) (h0 : steps ≠ 0)
    (h1 : (relativeTarget s.currentPosition s.maxPosition steps).2 ≠ 0) :
    processRelativeMove env steps s =
      disableMotor (moveSteps env (labs (relativeTarget s.currentPosition s.maxPosition steps).2)
        (decide ((relativeTarget s.currentPosition s.maxPosition steps).2 > 0))
        (enableMotor s)).2 := by
  unfold processRelativeMove
  simp only [beq_iff_eq, h0, h1, if_false]

/-- C34, counterexample. After `setup()` (position 0, which is below the safe
margin) the request `X-100` is clamped to the target `BACKOFF_STEPS`: the step
count executed is +1600, opposite in sign to the request and sixteen times
its magnitude, and with the switch silent and no stop request the axis ends at
position 1600 after 1600 pulses in the CCW direction. -/
theorem processRelativeMove_reverses_and_lengthens :
    State.init.currentPosition = 0 ∧
    relativeTarget State.init.currentPosition State.init.maxPosition (-100) = (1600, 1600) ∧
    ¬ ((relativeTarget State.init.currentPosition State.init.maxPosition (-100)).2 = 0 ∨
        (relativeTarget State.init.currentPosition State.init.maxPosition (-100)).2 < 0) ∧
    ¬ (|(relativeTarget State.init.currentPosition State.init.maxPosition (-100)).2| ≤
        |(-100 : Int)|) ∧
    (processRelativeMove Env.quiet (-100) State.init).currentPosition = 1600 ∧
    issuedSince State.init.pulses (processRelativeMove Env.quiet (-100) State.init).pulses =
      movePulses 1600 CCW := by
  have ht : relativeTarget State.init.currentPosition State.init.maxPosition (-100) =
      (1600, 1600) := by decide
  have e : processRelativeMove Env.quiet (-100) State.init =
      disableMotor (moveSteps Env.quiet 1600 CCW (enableMotor State.init)).2 := by
    rw [processRelativeMove_moves Env.quiet (-100) State.init (by decide) (by rw [ht]; decide), ht]
    rfl
  have q := moveSteps_quiet Env.quiet 1600 CCW (enableMotor State.init) (fun _ _ => rfl)
    (fun _ _ => rfl)
  have n : scheduledPulses 1600 = 1600 := by decide
  rw [e, q, n]
  exact ⟨rfl, by decide, by decide, by decide, rfl, issuedSince_append _ _⟩

/-- When the current position is inside the safe band
`[BACKOFF_STEPS, maxPos - BACKOFF_STEPS]`, the step count left by the safety
clamp is zero or has the sign of the request, and its magnitude does not exceed
the requested magnitude. -/
theorem relativeTarget_shortens_inside_band (currentPos maxPos steps : Int)
    (h1 : (BACKOFF_STEPS : Int) ≤ currentPos) (h2 : currentPos ≤ maxPos - BACKOFF_STEPS) :
    ((relativeTarget currentPos maxPos steps).2 = 0 ∨
      (0 < (relativeTarget currentPos maxPos steps).2 ∧ 0 < steps) ∨
      ((relativeTarget currentPos maxPos steps).2 < 0 ∧ steps < 0)) ∧
    |(relativeTarget currentPos maxPos steps).2| ≤ |steps| := by
  unfold relativeTarget
  dsimp only
  simp only [BACKOFF_STEPS, Nat.cast_ofNat] at h1 h2 ⊢
  rw [abs_le]
  split_ifs <;> dsimp only <;> refine ⟨?_, ?_, ?_⟩ <;> rcases abs_cases steps with ⟨e, _⟩ | ⟨e, _⟩ <;>
    omega

end Single

/-! ## Monotonicity of the percentage of travel (claim C35) -/

/-- Division truncated toward zero by a positive divisor is monotone in the
dividend. -/
theorem tdiv_mono (a b c : Int) (hc : 0 < c) (h : a ≤ b) : a.tdiv c ≤ b.tdiv c := by
  by_cases ha : 0 ≤ a
  · rw [Int.tdiv_eq_ediv ha (le_of_lt hc), Int.tdiv_eq_ediv (le_trans ha h) (le_of_lt hc)]
    exact Int.ediv_le_ediv hc h
  · have ea : a.tdiv c = -((-a) / c) := by
      rw [← Int.tdiv_eq_ediv (by omega) (le_of_lt hc), Int.neg_tdiv, neg_neg]
    by_cases hb : 0 ≤ b
    · have h1 : 0 ≤ (-a) / c := Int.ediv_nonneg (by omega) (le_of_lt hc)
      have h2 : 0 ≤ b.tdiv c := Int.tdiv_nonneg hb (le_of_lt hc)
      omega
    · have eb : b.tdiv c = -((-b) / c) := by
        rw [← Int.tdiv_eq_ediv (by omega) (le_of_lt hc), Int.neg_tdiv, neg_neg]
      have h1 : (-b) / c ≤ (-a) / c := Int.ediv_le_ediv hc (by omega)
      omega

namespace Dual

/-- C35, counterexample. With calibrated limits 0 and 1000 the percentage is
100 at position 327000 and 0 at position 328000: the quotient 32800 does not
fit the 16-bit `int` it is stored in and becomes negative before the clamp.
With limits 0 and 30000000 the percentage at the maximum is 0, not 100: the
product 3000000000 does not fit the 32-bit `long`. -/
theorem getPositionPercentage_drops_beyond_int :
    (axisOf1000 327000).limitsInitialized = true ∧
    (axisOf1000 327000).minPosition < (axisOf1000 327000).maxPosition ∧
    axisOf1000 328000 = setCurrentPosition 328000 (axisOf1000 327000) ∧
    (axisOf1000 327000).currentPosition ≤ (axisOf1000 328000).currentPosition ∧
    getPositionPercentage (axisOf1000 327000) = some 100 ∧
    getPositionPercentage (axisOf1000 328000) = some 0 ∧
    atMaxOf30000000.limitsInitialized = true ∧
    atMaxOf30000000.minPosition < atMaxOf30000000.maxPosition ∧
    atMaxOf30000000.currentPosition = atMaxOf30000000.maxPosition ∧
    getPositionPercentage atMaxOf30000000 = some 0 := by
  refine ⟨rfl, by decide, rfl, by decide, by decide, by decide, rfl, by decide, rfl, by decide⟩

end Dual

/-! ## Percentage of travel inside the range of the machine integers (claims C26, C35) -/

theorem wrapLong_of_fits (x : Int) (h1 : -2147483648 ≤ x) (h2 : x ≤ 2147483647) :
    wrapLong x = x := by
  unfold wrapLong
  omega

namespace Dual

theorem wrapLong_of_isLong (x : Int) (h : IsLong x) : wrapLong x = x :=
  wrapLong_of_fits x h.1 h.2

/-- A value whose product by 100 is a `long` is a `long`. -/
theorem isLong_of_mul_100 (x : Int) (h : IsLong (x * 100)) : IsLong x := by
  unfold IsLong LONG_MIN LONG_MAX at h ⊢
  omega

/-- Closed form of `getPositionPercentage` when the limits are initialized and
the difference of the limits and the product by 100 are `long` values. -/
theorem getPositionPercentage_of_isLong (s : State) (hinit : s.limitsInitialized = true)
    (hne : s.maxPosition ≠ s.minPosition)
    (hrange : IsLong (s.maxPosition - s.minPosition))
    (hprod : IsLong ((s.currentPosition - s.minPosition) * 100)) :
    getPositionPercentage s = some (max 0 (min 100 (longToInt
      (((s.currentPosition - s.minPosition) * 100).tdiv (s.maxPosition - s.minPosition))))) := by
  have hb : s.maxPosition - s.minPosition ≠ 0 := fun hc => hne (by omega)
  rw [getPositionPercentage_eq_dual, wrapLong_of_isLong _ hrange,
    wrapLong_of_isLong _ (isLong_of_mul_100 _ hprod), wrapLong_of_isLong _ hprod,
    if_neg (by simp [hinit, hb])]

/-- C26, amended. When the limits are initialized, `maxPosition != minPosition`,
the difference `max - min` and the product `100 * (current - min)` are values
of the 32-bit `long` and the truncated quotient fits the 16-bit `int`,
`getPositionPercentage` returns the quotient `100 * (current - min) / (max - min)`
truncated toward zero and clamped to [0,100]; this is the floor of the exact
quotient clamped to [0,100]. -/
theorem getPositionPercentage_truncates (s : State) (hinit : s.limitsInitialized = true)
    (hne : s.maxPosition ≠ s.minPosition)
    (hrange : IsLong (s.maxPosition - s.minPosition))
    (hprod : IsLong ((s.currentPosition - s.minPosition) * 100))
    (hlo : -32768 ≤
      ((s.currentPosition - s.minPosition) * 100).tdiv (s.maxPosition - s.minPosition))
    (hhi : ((s.currentPosition - s.minPosition) * 100).tdiv (s.maxPosition - s.minPosition) ≤
      32767) :
    getPositionPercentage s = some (max 0 (min 100
      (((s.currentPosition - s.minPosition) * 100).tdiv (s.maxPosition - s.minPosition)))) ∧
    getPositionPercentage s = some (max 0 (min 100
      ⌊(100 * ((s.currentPosition : ℚ) - s.minPosition)) / (s.maxPosition - s.minPosition)⌋)) := by
  have hb : s.maxPosition - s.minPosition ≠ 0 := fun hc => hne (by omega)
  have key : getPositionPercentage s = some (max 0 (min 100
      (((s.currentPosition - s.minPosition) * 100).tdiv (s.maxPosition - s.minPosition)))) := by
    rw [getPositionPercentage_of_isLong s hinit hne hrange hprod, longToInt_of_fits _ hlo hhi]
  refine ⟨key, ?_⟩
  rw [key, clamp_tdiv_eq_clamp_floor _ _ hb]
  push_cast
  rw [mul_comm ((s.currentPosition : ℚ) - (s.minPosition : ℚ)) 100]

/-- C26, amended, at the input of the counterexample: limits 0 and 3, position
2: the result is 66, the floor of 66.67. -/
theorem getPositionPercentage_truncates_witness :
    atTwoThirds.limitsInitialized = true ∧ atTwoThirds.maxPosition ≠ atTwoThirds.minPosition ∧
    IsLong (atTwoThirds.maxPosition - atTwoThirds.minPosition) ∧
    IsLong ((atTwoThirds.currentPosition - atTwoThirds.minPosition) * 100) ∧
    getPositionPercentage atTwoThirds = some (max 0 (min 100
      (((atTwoThirds.currentPosition - atTwoThirds.minPosition) * 100).tdiv
        (atTwoThirds.maxPosition - atTwoThirds.minPosition)))) :=
  ⟨rfl, by decide, by unfold IsLong; decide, by unfold IsLong; decide,
   (getPositionPercentage_truncates atTwoThirds rfl (by decide) (by unfold IsLong; decide)
      (by unfold IsLong; decide) (by decide) (by decide)).1⟩

/-- C35, amended. With initialized limits `minPosition < maxPosition` whose
difference is a value of the 32-bit `long`, the percentage is 0 at
`minPosition`; it is 100 at `maxPosition` when `100 * (max - min)` is a `long`;
and it does not decrease from a position `p` to a position `q >= p` when the
products `100 * (p - min)` and `100 * (q - min)` are `long` values and the
truncated quotients stay inside the range of the 16-bit `int` (not below
-32768 at `p`, not above 32767 at `q`). -/
theorem getPositionPercentage_monotone_within_int (s : State) (p q : Int)
    (hinit : s.limitsInitialized = true) (hlt : s.minPosition < s.maxPosition)
    (hrange : IsLong (s.maxPosition - s.minPosition)) :
    getPositionPercentage (setCurrentPosition s.minPosition s) = some 0 ∧
    (IsLong ((s.maxPosition - s.minPosition) * 100) →
      getPositionPercentage (setCurrentPosition s.maxPosition s) = some 100) ∧
    (p ≤ q → IsLong ((p - s.minPosition) * 100) → IsLong ((q - s.minPosition) * 100) →
      -32768 ≤ ((p - s.minPosition) * 100).tdiv (s.maxPosition - s.minPosition) →
      ((q - s.minPosition) * 100).tdiv (s.maxPosition - s.minPosition) ≤ 32767 →
      ∃ a b, getPositionPercentage (setCurrentPosition p s) = some a ∧
        getPositionPercentage (setCurrentPosition q s) = some b ∧ a ≤ b) := by
  have hne : s.maxPosition ≠ s.minPosition := by omega
  have form : ∀ x, IsLong ((x - s.minPosition) * 100) →
      getPositionPercentage (setCurrentPosition x s) =
        some (max 0 (min 100 (longToInt
          (((x - s.minPosition) * 100).tdiv (s.maxPosition - s.minPosition))))) :=
    fun x hx => getPositionPercentage_of_isLong (setCurrentPosition x s) hinit hne hrange hx
  have hpos : 0 < s.maxPosition - s.minPosition := by omega
  refine ⟨?_, ?_, ?_⟩
  · rw [form _ (by rw [sub_self, zero_mul]; unfold IsLong; decide), sub_self, zero_mul,
      Int.zero_tdiv]
    rfl
  · intro h
    rw [form _ h, Int.mul_tdiv_cancel_left _ (by omega)]
    rfl
  · intro hpq hp1 hq1 hp hq
    have hmono := tdiv_mono ((p - s.minPosition) * 100) ((q - s.minPosition) * 100)
      (s.maxPosition - s.minPosition) hpos (by omega)
    refine ⟨_, _, form p hp1, form q hq1, ?_⟩
    rw [longToInt_of_fits _ hp (by omega), longToInt_of_fits _ (by omega) hq]
    exact max_le_max (le_refl _) (min_le_min (le_refl _) hmono)

/-- C35, amended, at a concrete input: limits 0 and 1000, positions 250 and
900. -/
theorem getPositionPercentage_monotone_within_int_witness :
    (axisOf1000 0).limitsInitialized = true ∧
    (axisOf1000 0).minPosition < (axisOf1000 0).maxPosition ∧ (250 : Int) ≤ 900 ∧
    getPositionPercentage (setCurrentPosition (axisOf1000 0).minPosition (axisOf1000 0)) = some 0 ∧
    getPositionPercentage (setCurrentPosition (axisOf1000 0).maxPosition (axisOf1000 0)) =
      some 100 ∧
    ∃ a b, getPositionPercentage (setCurrentPosition 250 (axisOf1000 0)) = some a ∧
      getPositionPercentage (setCurrentPosition 900 (axisOf1000 0)) = some b ∧ a ≤ b :=
  have h := getPositionPercentage_monotone_within_int (axisOf1000 0) 250 900 rfl (by decide)
    (by unfold IsLong; decide)
  ⟨rfl, by decide, by decide, h.1, h.2.1 (by unfold IsLong; decide),
   h.2.2 (by decide) (by unfold IsLong; decide) (by unfold IsLong; decide) (by decide)
     (by decide)⟩

end Dual

/-! ## Pulses of an uninterrupted move -/

theorem rampPulses_length (upd : Int → Int) (direction : Bool) (n : Nat) (stepDelay : Int) :
    (rampPulses upd direction n stepDelay).length = n := by
  induction n generalizing stepDelay with
  | zero => rfl
  | succ n ih => rw [rampPulses, List.length_append, ih]; rfl

theorem rampPulses_dir (upd : Int → Int) (direction : Bool) (n : Nat) (stepDelay : Int) :
    ∀ p ∈ rampPulses upd direction n stepDelay, p.dir = direction := by
  induction n generalizing stepDelay with
  | zero => intro p hp; cases hp
  | succ n ih =>
    intro p hp
    rw [rampPulses, List.mem_append] at hp
    rcases hp with hp | hp
    · exact ih _ p hp
    · rw [List.mem_singleton] at hp
      rw [hp]

theorem movePulses_length (count : Int) (direction : Bool) :
    (movePulses count direction).length = scheduledPulses count := by
  unfold movePulses scheduledPulses
  simp only [List.length_append, rampPulses_length]
  omega

theorem movePulses_dir (count : Int) (direction : Bool) :
    ∀ p ∈ movePulses count direction, p.dir = direction := by
  intro p hp
  unfold movePulses at hp
  simp only [List.mem_append] at hp
  rcases hp with hp | hp | hp <;> exact rampPulses_dir _ _ _ _ p hp

theorem labs_eq_abs (x : Int) : labs x = |x| := by
  unfold labs
  split_ifs with h
  · rw [abs_of_pos h]
  · rw [abs_of_nonpos (by omega)]

namespace Single

/-! ### Single-limit variant: `processRelativeMove` in an undisturbed run
(claims C10, C34) -/

/-- Closed form of `processRelativeMove` when the clamped step count is not
zero, the switch does not trigger and no stop request arrives. -/
theorem processRelativeMove_quiet (env : Env) (steps : Int) (s : State) (h0 : steps ≠ 0)
    (h1 : (relativeTarget s.currentPosition s.maxPosition steps).2 ≠ 0)
    (hlimit : ∀ i, i < scheduledPulses
        (labs (relativeTarget s.currentPosition s.maxPosition steps).2) →
      env.limit (s.reads + i) = false)
    (hstop : ∀ i, i < scheduledPulses
        (labs (relativeTarget s.currentPosition s.maxPosition steps).2) →
      env.stop (s.polls + i) = false) :
    (processRelativeMove env steps s).currentPosition =
      s.currentPosition +
        scheduledPulses (labs (relativeTarget s.currentPosition s.maxPosition steps).2) *
          (if (relativeTarget s.currentPosition s.maxPosition steps).2 > 0 then 1 else -1) ∧
    (processRelativeMove env steps s).pulses =
      movePulses (labs (relativeTarget s.currentPosition s.maxPosition steps).2)
        (decide ((relativeTarget s.currentPosition s.maxPosition steps).2 > 0)) ++ s.pulses ∧
    (processRelativeMove env steps s).maxPosition = s.maxPosition := by
  rw [processRelativeMove_moves env steps s h0 h1,
    moveSteps_quiet env _ _ (enableMotor s) hlimit hstop]
  refine ⟨?_, rfl, rfl⟩
  show s.currentPosition + _ * (if decide _ = true then 1 else -1) = _
  simp only [decide_eq_true_eq]

/-- C10, counterexample. On a short axis (`maxPosition` 3000, so that the
upper margin is at 1400) with the axis at 1500, the request `X10` is clamped to
the target 1600: `processRelativeMove` moves 100 steps CCW and ends at 1600,
which is above `maxPosition - BACKOFF_STEPS`. -/
theorem processRelativeMove_ends_above_upper_margin :
    shortAxis.currentPosition = 1500 ∧ shortAxis.maxPosition = 3000 ∧ (10 : Int) ≠ 0 ∧
    (relativeTarget shortAxis.currentPosition shortAxis.maxPosition 10).1 = 1600 ∧
    (processRelativeMove Env.quiet 10 shortAxis).currentPosition = 1600 ∧
    ¬ ((BACKOFF_STEPS : Int) ≤ (processRelativeMove Env.quiet 10 shortAxis).currentPosition ∧
        (processRelativeMove Env.quiet 10 shortAxis).currentPosition ≤
          shortAxis.maxPosition - (BACKOFF_STEPS : Int)) := by
  decide!

/-- C10, amended. When `maxPosition` is at least `2 * BACKOFF_STEPS` and
`current + steps` and the distance to the target are values of the 32-bit
`long`, for every current position and every nonzero request the target of the
safety clamp lies between
`BACKOFF_STEPS` and `maxPosition - BACKOFF_STEPS`.  `processRelativeMove`
returns without moving when the axis is at that target, and otherwise calls
`moveSteps` with the distance to the target, in the direction of the
target.  When that distance is below 20 or at least 40 and the run is not
disturbed by the switch or by a stop request, the axis ends at the target. -/
theorem processRelativeMove_target_within_margins (env : Env) (steps : Int) (s : State)
    (hs : steps ≠ 0) (hmax : 2 * (BACKOFF_STEPS : Int) ≤ s.maxPosition)
    (_hfit : -2147483648 ≤ s.currentPosition + steps ∧ s.currentPosition + steps ≤ 2147483647)
    (_hdist : -2147483648 ≤
        (relativeTarget s.currentPosition s.maxPosition steps).1 - s.currentPosition ∧
      (relativeTarget s.currentPosition s.maxPosition steps).1 - s.currentPosition ≤ 2147483647) :
    ((BACKOFF_STEPS : Int) ≤ (relativeTarget s.currentPosition s.maxPosition steps).1 ∧
      (relativeTarget s.currentPosition s.maxPosition steps).1 ≤
        s.maxPosition - (BACKOFF_STEPS : Int)) ∧
    ((relativeTarget s.currentPosition s.maxPosition steps).1 = s.currentPosition →
      processRelativeMove env steps s = s) ∧
    ((relativeTarget s.currentPosition s.maxPosition steps).1 ≠ s.currentPosition →
      processRelativeMove env steps s =
        disableMotor (moveSteps env
          (labs ((relativeTarget s.currentPosition s.maxPosition steps).1 - s.currentPosition))
          (decide ((relativeTarget s.currentPosition s.maxPosition steps).1 - s.currentPosition
            > 0))
          (enableMotor s)).2) ∧
    ((labs ((relativeTarget s.currentPosition s.maxPosition steps).1 - s.currentPosition) < 20 ∨
        40 ≤ labs ((relativeTarget s.currentPosition s.maxPosition steps).1 - s.currentPosition)) →
      (∀ i, i < scheduledPulses
          (labs ((relativeTarget s.currentPosition s.maxPosition steps).1 - s.currentPosition)) →
        env.limit (s.reads + i) = false) →
      (∀ i, i < scheduledPulses
          (labs ((relativeTarget s.currentPosition s.maxPosition steps).1 - s.currentPosition)) →
        env.stop (s.polls + i) = false) →
      (processRelativeMove env steps s).currentPosition =
          (relativeTarget s.currentPosition s.maxPosition steps).1 ∧
        (BACKOFF_STEPS : Int) ≤ (processRelativeMove env steps s).currentPosition ∧
        (processRelativeMove env steps s).currentPosition ≤
          s.maxPosition - (BACKOFF_STEPS : Int)) := by
  have hst := relativeTarget_steps s.currentPosition s.maxPosition steps
  obtain ⟨hm1, hm2, _⟩ := relativeTarget_within_margins s.currentPosition s.maxPosition steps hmax
  rw [← hst]
  generalize hT : (relativeTarget s.currentPosition s.maxPosition steps).1 = T at hst hm1 hm2 ⊢
  refine ⟨⟨hm1, hm2⟩, ?_, ?_, ?_⟩
  · intro hz
    have h2 : (relativeTarget s.currentPosition s.maxPosition steps).2 = 0 := by
      rw [hst, hz, sub_self]
    unfold processRelativeMove
    simp [hs, h2]
  · intro hnz
    exact processRelativeMove_moves env steps s hs (by rw [hst]; omega)
  · intro hcount hlimit hstop
    by_cases hz : (relativeTarget s.currentPosition s.maxPosition steps).2 = 0
    · have e : processRelativeMove env steps s = s := by
        unfold processRelativeMove
        simp [hs, hz]
      rw [e]
      have : s.currentPosition = T := by rw [hz] at hst; omega
      rw [this]
      exact ⟨rfl, hm1, by rw [← this] at hm2 ⊢; exact hm2⟩
    · obtain ⟨hp, _, _⟩ := processRelativeMove_quiet env steps s hs hz hlimit hstop
      have hn := scheduledPulses_eq
        (labs (relativeTarget s.currentPosition s.maxPosition steps).2)
        (by rw [labs_eq_abs]; exact abs_nonneg _) hcount
      have hpos : (processRelativeMove env steps s).currentPosition = T := by
        rw [hp, hn, labs_eq_abs, hst]
        split_ifs with hc
        · rw [abs_of_pos hc]; ring
        · rw [abs_of_nonpos (by omega)]; ring
      rw [hpos]
      exact ⟨rfl, hm1, hm2⟩

/-- C10, amended, at a concrete input: from position 2000 with the default
`maxPosition`, the request `X-5000` is clamped to the target 1600 and, with
the switch silent and no stop request, the axis ends there. -/
theorem processRelativeMove_target_within_margins_witness :
    (-5000 : Int) ≠ 0 ∧ 2 * (BACKOFF_STEPS : Int) ≤ (stateAt 2000).maxPosition ∧
    (relativeTarget (stateAt 2000).currentPosition (stateAt 2000).maxPosition (-5000)).1 = 1600 ∧
    (processRelativeMove Env.quiet (-5000) (stateAt 2000)).currentPosition =
      (relativeTarget (stateAt 2000).currentPosition (stateAt 2000).maxPosition (-5000)).1 ∧
    (BACKOFF_STEPS : Int) ≤ (processRelativeMove Env.quiet (-5000) (stateAt 2000)).currentPosition :=
  have h := (processRelativeMove_target_within_margins Env.quiet (-5000) (stateAt 2000)
    (by decide) (by decide) (by decide) (by decide)).2.2.2 (by decide) (fun _ _ => rfl)
    (fun _ _ => rfl)
  ⟨by decide, by decide, by decide, h.1, h.2.1⟩

/-- C34, amended. When the current position is inside the safe band
`[BACKOFF_STEPS, maxPosition - BACKOFF_STEPS]`, `current + steps` is a value of
the 32-bit `long`, the clamped distance is below 20 or at least 40 and the run
is not disturbed by the switch or by a stop request, `processRelativeMove`
issues `n` pulses, all in the direction of the nonzero request, with
`n <= |steps|`, and the position moves by `n` in that direction (`n` may be
zero). -/
theorem processRelativeMove_shortens_inside_band (env : Env) (steps : Int) (s : State)
    (hs : steps ≠ 0) (h1 : (BACKOFF_STEPS : Int) ≤ s.currentPosition)
    (h2 : s.currentPosition ≤ s.maxPosition - BACKOFF_STEPS)
    (_hfit : -2147483648 ≤ s.currentPosition + steps ∧ s.currentPosition + steps ≤ 2147483647)
    (hcount : labs (relativeTarget s.currentPosition s.maxPosition steps).2 < 20 ∨
      40 ≤ labs (relativeTarget s.currentPosition s.maxPosition steps).2)
    (hlimit : ∀ i, i < scheduledPulses
        (labs (relativeTarget s.currentPosition s.maxPosition steps).2) →
      env.limit (s.reads + i) = false)
    (hstop : ∀ i, i < scheduledPulses
        (labs (relativeTarget s.currentPosition s.maxPosition steps).2) →
      env.stop (s.polls + i) = false) :
    ∃ n : Nat,
      (issuedSince s.pulses (processRelativeMove env steps s).pulses).length = n ∧
      (∀ p ∈ issuedSince s.pulses (processRelativeMove env steps s).pulses,
        p.dir = decide (steps > 0)) ∧
      (n : Int) ≤ |steps| ∧
      (processRelativeMove env steps s).currentPosition =
        s.currentPosition + (if steps > 0 then (n : Int) else -(n : Int)) := by
  obtain ⟨hsign, hle⟩ :=
    relativeTarget_shortens_inside_band s.currentPosition s.maxPosition steps h1 h2
  by_cases hz : (relativeTarget s.currentPosition s.maxPosition steps).2 = 0
  · have e : processRelativeMove env steps s = s := by
      unfold processRelativeMove
      simp [hs, hz]
    rw [e, issuedSince_self]
    refine ⟨0, rfl, (fun p hp => by cases hp), ?_, ?_⟩
    · exact_mod_cast abs_nonneg steps
    · split_ifs <;> simp
  · obtain ⟨hp, hpul, _⟩ := processRelativeMove_quiet env steps s hs hz hlimit hstop
    have hn := scheduledPulses_eq
      (labs (relativeTarget s.currentPosition s.maxPosition steps).2)
      (by rw [labs_eq_abs]; exact abs_nonneg _) hcount
    rw [hpul, issuedSince_append, movePulses_length]
    generalize hc : (relativeTarget s.currentPosition s.maxPosition steps).2 = c at *
    have hdir : decide (c > 0) = decide (steps > 0) := by
      rcases hsign with h | ⟨ha, hb⟩ | ⟨ha, hb⟩
      · exact absurd h hz
      · simp [ha, hb]
      · have hc' : ¬ c > 0 := by omega
        have hs' : ¬ steps > 0 := by omega
        simp [hc', hs']
    refine ⟨scheduledPulses (labs c), rfl, ?_, ?_, ?_⟩
    · intro p hp2
      rw [movePulses_dir _ _ p hp2, hdir]
    · rw [hn, labs_eq_abs]
      exact hle
    · rw [hp, hn, labs_eq_abs]
      rcases hsign with h | ⟨ha, hb⟩ | ⟨ha, hb⟩
      · exact absurd h hz
      · rw [if_pos ha, if_pos hb, mul_one]
      · rw [if_neg (by omega), if_neg (by omega)]
        ring

/-- C34, amended, at a concrete input: from position 5000 the request `X-4000`
is clamped to the target 1600, and 3400 pulses are issued in the CW
direction. -/
theorem processRelativeMove_shortens_inside_band_witness :
    (BACKOFF_STEPS : Int) ≤ (stateAt 5000).currentPosition ∧
    (stateAt 5000).currentPosition ≤ (stateAt 5000).maxPosition - BACKOFF_STEPS ∧
    ∃ n : Nat,
      (issuedSince (stateAt 5000).pulses
        (processRelativeMove Env.quiet (-4000) (stateAt 5000)).pulses).length = n ∧
      (∀ p ∈ issuedSince (stateAt 5000).pulses
          (processRelativeMove Env.quiet (-4000) (stateAt 5000)).pulses,
        p.dir = decide ((-4000 : Int) > 0)) ∧
      (n : Int) ≤ |(-4000 : Int)| ∧
      (processRelativeMove Env.quiet (-4000) (stateAt 5000)).currentPosition =
        (stateAt 5000).currentPosition + (if (-4000 : Int) > 0 then (n : Int) else -(n : Int)) :=
  ⟨by decide, by decide,
   processRelativeMove_shortens_inside_band Env.quiet (-4000) (stateAt 5000) (by decide)
     (by decide) (by decide) (by decide) (by decide) (fun _ _ => rfl) (fun _ _ => rfl)⟩

end Single

namespace Single

/-! ### Single-limit variant: the references set by `runHoming` (claim C13) -/

/-- Unfolding of the last stage of `runHoming`. -/
theorem homingFinish_eq (env : Env) (f : State) :
    homingFinish env f =
      if (f.currentPosition.tdiv 2 -
          (backOffFromLimit (!(!HOME_DIRECTION)) (homingRecordMax f)).currentPosition != 0) = true
      then
        ((moveSteps env
            (labs (f.currentPosition.tdiv 2 -
              (backOffFromLimit (!(!HOME_DIRECTION)) (homingRecordMax f)).currentPosition))
            (decide (f.currentPosition.tdiv 2 -
              (backOffFromLimit (!(!HOME_DIRECTION)) (homingRecordMax f)).currentPosition > 0))
            (setDirection
              (decide (f.currentPosition.tdiv 2 -
                (backOffFromLimit (!(!HOME_DIRECTION)) (homingRecordMax f)).currentPosition > 0))
              (backOffFromLimit (!(!HOME_DIRECTION)) (homingRecordMax f)))).1,
          disableMotor (moveSteps env
            (labs (f.currentPosition.tdiv 2 -
              (backOffFromLimit (!(!HOME_DIRECTION)) (homingRecordMax f)).currentPosition))
            (decide (f.currentPosition.tdiv 2 -
              (backOffFromLimit (!(!HOME_DIRECTION)) (homingRecordMax f)).currentPosition > 0))
            (setDirection
              (decide (f.currentPosition.tdiv 2 -
                (backOffFromLimit (!(!HOME_DIRECTION)) (homingRecordMax f)).currentPosition > 0))
              (backOffFromLimit (!(!HOME_DIRECTION)) (homingRecordMax f)))).2)
      else (true, disableMotor (backOffFromLimit (!(!HOME_DIRECTION)) (homingRecordMax f))) := by
  unfold homingFinish
  dsimp only
  generalize backOffFromLimit (!(!HOME_DIRECTION)) (homingRecordMax f) = B
  by_cases h : (f.currentPosition.tdiv 2 - B.currentPosition != 0) = true
  · rw [if_pos h, if_pos h]
  · rw [if_neg h, if_neg h]

/-- The pulses of `moveSteps` are added to the log, and a completed move
changes the position by their signed count. -/
theorem moveSteps_log (env : Env) (count : Int) (direction : Bool) (s : State) :
    ∃ new, (moveSteps env count direction s).2.pulses = new ++ s.pulses ∧
      ((moveSteps env count direction s).1 = true →
        (moveSteps env count direction s).2.currentPosition =
          s.currentPosition + signedSteps new) := by
  obtain ⟨h1, h2⟩ := moveSteps_run env count direction s
  cases hok : (moveSteps env count direction s).1
  · rcases h2 hok with ⟨new, hp, _⟩ | ⟨new, hp, _⟩
    · exact ⟨new, hp, fun hc => by cases hc⟩
    · exact ⟨new, hp, fun hc => by cases hc⟩
  · obtain ⟨new, hp, _, _, hc⟩ := h1 hok
    exact ⟨new, hp, fun _ => hc⟩

/-- The last stage of `runHoming`: the backoff from the far switch, then the
pulses of the centring move; when the centring move completes, the position is
the position at the far trigger less the backoff plus the signed count of the
centring pulses. -/
theorem homingFinish_shape (env : Env) (f : State) :
    ∃ centre,
      (homingFinish env f).2.pulses =
        centre ++ (List.replicate BACKOFF_STEPS { delay := MAX_STEP_DELAY, dir := CW } ++
          f.pulses) ∧
      ((homingFinish env f).1 = true →
        (homingFinish env f).2.currentPosition =
          f.currentPosition - BACKOFF_STEPS + signedSteps centre) := by
  have hB : backOffFromLimit (!(!HOME_DIRECTION)) (homingRecordMax f) =
      { homingRecordMax f with
        currentPosition := f.currentPosition - BACKOFF_STEPS
        dirPin := CW
        pulses := List.replicate BACKOFF_STEPS { delay := MAX_STEP_DELAY, dir := CW } ++
          f.pulses } := by
    rw [backOffFromLimit_eq]
    simp only [HOME_DIRECTION, CW, Bool.not_false, Bool.not_true, Bool.false_eq_true, if_false,
      homingRecordMax, setMaxPosition]
    congr 1
  rw [homingFinish_eq]
  generalize backOffFromLimit (!(!HOME_DIRECTION)) (homingRecordMax f) = B at hB ⊢
  have hBp : B.pulses = List.replicate BACKOFF_STEPS { delay := MAX_STEP_DELAY, dir := CW } ++
      f.pulses := by rw [hB]
  have hBc : B.currentPosition = f.currentPosition - BACKOFF_STEPS := by rw [hB]
  split_ifs with hmove
  · obtain ⟨new, hp, hc⟩ := moveSteps_log env (labs (f.currentPosition.tdiv 2 - B.currentPosition))
      (decide (f.currentPosition.tdiv 2 - B.currentPosition > 0))
      (setDirection (decide (f.currentPosition.tdiv 2 - B.currentPosition > 0)) B)
    refine ⟨new, ?_, fun hok => ?_⟩
    · show (moveSteps env _ _ _).2.pulses = _
      rw [hp]
      show new ++ B.pulses = _
      rw [hBp]
    · show (moveSteps env _ _ _).2.currentPosition = _
      rw [hc hok]
      show B.currentPosition + signedSteps new = _
      rw [hBc]
  · refine ⟨[], ?_, fun _ => ?_⟩
    · show B.pulses = _
      rw [hBp]
      rfl
    · show B.currentPosition = _
      rw [hBc]
      simp [signedSteps]

/-- C13. Let the home search of `runHoming` meet the switch at its `ka`-th
sample, with no stop request before.  Then, whatever the position was at the
call: the position is set to 0 at the trigger and is `BACKOFF_STEPS` after the
backoff; the pulse log continues with the `BACKOFF_STEPS` pulses of the backoff
(CCW) and the `j` pulses of the far search (CCW); if the far search is
aborted, `runHoming` returns with the position at `BACKOFF_STEPS + j`, so the
position was 0 at the home trigger and `BACKOFF_STEPS` after the backoff; if
the far search finds the switch, the value recorded as `maxPosition` is
`BACKOFF_STEPS + j`, `runHoming` takes its "complete" exit after the second
backoff (CW) and the centring move, and when the centring move completes the
final `maxPosition` is `BACKOFF_STEPS + j` and the final position is `j` plus
the signed count of the centring pulses.  When the far switch is met at the
`kb`-th sample of the far search with no stop request before, `j = kb` and
`runHoming` completes. -/
theorem runHoming_zero_and_maximum (env : Env) (s : State) (ka : Nat)
    (hka : (ka : Int) ≤ HOMING_TIMEOUT)
    (hq1 : ∀ i, i < ka → env.limit (s.reads + i) = false)
    (hs1 : ∀ i, i < ka → env.stop (s.polls + i) = false)
    (hl1 : env.limit (s.reads + ka) = true) :
    (homingZero (homingSearchHome env s).2).currentPosition = 0 ∧
    (homingBackOffHome (homingSearchHome env s).2).currentPosition = BACKOFF_STEPS ∧
    ∃ (j : Nat) (rest : List Pulse),
      issuedSince s.pulses (runHoming env s).2.pulses =
        rest ++ (List.replicate j { delay := MAX_STEP_DELAY, dir := CCW } ++
          (List.replicate BACKOFF_STEPS { delay := MAX_STEP_DELAY, dir := CCW } ++
            List.replicate ka { delay := MAX_STEP_DELAY, dir := CW })) ∧
      ((((runHoming env s).1 = HomingExit.farStopped ∨
            (runHoming env s).1 = HomingExit.farTimeout) ∧
          rest = [] ∧ (runHoming env s).2.currentPosition = BACKOFF_STEPS + j) ∨
        ∃ ok centre, (runHoming env s).1 = HomingExit.complete ok ∧
          rest = centre ++ List.replicate BACKOFF_STEPS { delay := MAX_STEP_DELAY, dir := CW } ∧
          (homingRecordMax (homingSearchFar env (homingSearchHome env s).2).2).maxPosition =
            BACKOFF_STEPS + j ∧
          (ok = true →
            (runHoming env s).2.maxPosition = BACKOFF_STEPS + j ∧
            (runHoming env s).2.currentPosition = j + signedSteps centre)) ∧
      (∀ kb : Nat, (kb : Int) ≤ HOMING_TIMEOUT →
        (∀ i, i < kb → env.limit (s.reads + ka + 1 + i) = false) →
        (∀ i, i < kb → env.stop (s.polls + ka + i) = false) →
        env.limit (s.reads + ka + 1 + kb) = true →
        j = kb ∧ ∃ ok, (runHoming env s).1 = HomingExit.complete ok) := by
  have hH := homingSearchHome_found env s ka hka hq1 hs1 hl1
  have hb : (homingBackOffHome (homingSearchHome env s).2).currentPosition = BACKOFF_STEPS := by
    unfold homingBackOffHome homingZero
    rw [backOffFromLimit_eq]
    simp [setCurrentPosition, HOME_DIRECTION, CW]
  refine ⟨rfl, hb, ?_⟩
  clear hb
  -- the backoff and the far search
  obtain ⟨j, hp2, hc2, _, _, _⟩ := homingSeek_shape env (!HOME_DIRECTION) homingFuel 0
    (setDirection (!HOME_DIRECTION) (homingBackOffHome (homingSearchHome env s).2)) (by decide)
  have hfs : homingSearchFar env (homingSearchHome env s).2 =
      homingSeek env (!HOME_DIRECTION) homingFuel 0
        (setDirection (!HOME_DIRECTION) (homingBackOffHome (homingSearchHome env s).2)) := rfl
  rw [← hfs] at hp2 hc2
  unfold homingBackOffHome homingZero at hp2 hc2
  rw [backOffFromLimit_eq] at hp2 hc2
  simp only [setDirection, setCurrentPosition, HOME_DIRECTION, CW, Bool.not_false, if_true,
    mul_one, zero_add] at hp2 hc2
  have hfound : ∀ kb : Nat, (kb : Int) ≤ HOMING_TIMEOUT →
      (∀ i, i < kb → env.limit (s.reads + ka + 1 + i) = false) →
      (∀ i, i < kb → env.stop (s.polls + ka + i) = false) →
      env.limit (s.reads + ka + 1 + kb) = true →
      (homingSearchFar env (homingSearchHome env s).2).1 = SeekExit.found ∧
      (homingSearchFar env (homingSearchHome env s).2).2.currentPosition = BACKOFF_STEPS + kb := by
    intro kb hkb hq2 hs2 hl2
    have hF := homingSearchFar_found env (homingSearchHome env s).2 kb (by rw [hH]) hkb
      (by rw [hH]; exact hq2) (by rw [hH]; exact hs2) (by rw [hH]; exact hl2)
    rw [hF]
    exact ⟨rfl, rfl⟩
  have hHp : (homingSearchHome env s).2.pulses =
      List.replicate ka { delay := MAX_STEP_DELAY, dir := false } ++ s.pulses := by rw [hH]
  have hH1 : (homingSearchHome env s).1 = SeekExit.found := by rw [hH]
  rw [hHp] at hp2
  rw [runHoming_eq, hH1]
  simp only []
  generalize homingSearchHome env s = H at hp2 hc2 hfound ⊢
  have hrec : (homingRecordMax (homingSearchFar env H.2).2).maxPosition = BACKOFF_STEPS + j := by
    simp only [homingRecordMax, setMaxPosition]
    exact hc2
  obtain ⟨centre, hfp, hfc⟩ := homingFinish_shape env (homingSearchFar env H.2).2
  have hfm := homingFinish_maxPosition env (homingSearchFar env H.2).2
  generalize homingSearchFar env H.2 = F at hp2 hc2 hfound hrec hfp hfc hfm ⊢
  rcases F with ⟨e2, t2⟩
  simp only [CCW, CW]
  cases e2
  · -- the far search found the switch
    refine ⟨j, centre ++ List.replicate BACKOFF_STEPS { delay := MAX_STEP_DELAY, dir := false },
      ?_, Or.inr ⟨_, centre, rfl, rfl, hrec, fun hok => ⟨?_, ?_⟩⟩, fun kb hkb hq2 hs2 hl2 => ?_⟩
    · simp only []
      rw [hfp, hp2]
      simp only [← List.append_assoc]
      rw [issuedSince_append]
      rfl
    · simp only []
      rw [hfm hok]
      exact hc2
    · simp only []
      rw [hfc hok]
      simp only [] at hc2
      rw [hc2]
      ring
    · obtain ⟨_, hpos⟩ := hfound kb hkb hq2 hs2 hl2
      simp only [] at hpos hc2
      rw [hc2] at hpos
      exact ⟨by omega, _, rfl⟩
  · -- stop request during the far search
    refine ⟨j, [], ?_, Or.inl ⟨Or.inl rfl, rfl, hc2⟩, fun kb hkb hq2 hs2 hl2 => ?_⟩
    · simp only [disableMotor, List.nil_append]
      rw [hp2]
      simp only [← List.append_assoc]
      rw [issuedSince_append]
    · obtain ⟨hc, _⟩ := hfound kb hkb hq2 hs2 hl2
      cases hc
  · -- timeout of the far search
    refine ⟨j, [], ?_, Or.inl ⟨Or.inr rfl, rfl, hc2⟩, fun kb hkb hq2 hs2 hl2 => ?_⟩
    · simp only [disableMotor, List.nil_append]
      rw [hp2]
      simp only [← List.append_assoc]
      rw [issuedSince_append]
    · obtain ⟨hc, _⟩ := hfound kb hkb hq2 hs2 hl2
      cases hc

/-- C13 at a concrete input: homing from position 5000, the home switch
pressed at the first sample and the far switch met after 1560 pulses of the
far search.  `runHoming` completes, its pulse log holds the backoff and the
1560 pulses of the far search, and `maxPosition` ends at `BACKOFF_STEPS + 1560`. -/
theorem runHoming_zero_and_maximum_witness :
    (stateAt 5000).currentPosition = 5000 ∧
    farSwitchAt3160.limit ((stateAt 5000).reads + 0) = true ∧
    (runHoming farSwitchAt3160 (stateAt 5000)).1 = HomingExit.complete true ∧
    (runHoming farSwitchAt3160 (stateAt 5000)).2.maxPosition = BACKOFF_STEPS + 1560 ∧
    ∃ rest : List Pulse,
      issuedSince (stateAt 5000).pulses (runHoming farSwitchAt3160 (stateAt 5000)).2.pulses =
        rest ++ (List.replicate 1560 { delay := MAX_STEP_DELAY, dir := CCW } ++
          (List.replicate BACKOFF_STEPS { delay := MAX_STEP_DELAY, dir := CCW } ++
            List.replicate 0 { delay := MAX_STEP_DELAY, dir := CW })) := by
  obtain ⟨_, _, j, rest, hp, hexit, hfar⟩ :=
    runHoming_zero_and_maximum farSwitchAt3160 (stateAt 5000) 0 (by decide)
      (by intro i hi; omega) (by intro i hi; omega) rfl
  obtain ⟨hj, _⟩ := hfar 1560 (by decide)
    (by intro i hi; simp [farSwitchAt3160, stateAt, State.init]; omega) (by intro i _; rfl) rfl
  have hp3 : scheduledPulses (labs (((BACKOFF_STEPS : Int) + ((1560 : Nat) : Int)).tdiv 2 -
      ((1560 : Nat) : Int))) = 30 := by decide
  obtain ⟨_, _, _, htrue, _⟩ :=
    runHoming_undisturbed farSwitchAt3160 (stateAt 5000) 0 1560 (by decide) (by decide)
      (by intro i hi; omega) (by intro i _; rfl) rfl
      (by intro i hi; simp [farSwitchAt3160, stateAt, State.init]; omega)
      (by intro i _; rfl) rfl
      (by rw [hp3]; intro i hi; simp [farSwitchAt3160, stateAt, State.init]; omega)
      (by intro i _; rfl)
  rw [hj] at hp hexit
  refine ⟨rfl, rfl, htrue, ?_, rest, hp⟩
  rcases hexit with ⟨h | h, _⟩ | ⟨ok, centre, h, _, _, himp⟩
  · rw [htrue] at h; cases h
  · rw [htrue] at h; cases h
  · rw [htrue] at h
    have hok : ok = true := by
      cases ok
      · cases h
      · rfl
    exact (himp hok).1

end Single
